import Mathlib

/-!
cycamore `BulkReactor`: a shallow embedding of `src/bulk_reactor.cc`.

The facility is embedded as a record of its member variables together with the
part of the simulation context that the methods read (`time`, `exit_time`,
`retired`) and the tables they write (`db`).  Every method of the source becomes
a function from the state to `Except Error (result × state)`.

Conventions of the embedding:

* `double` quantities are exact rationals (`ℚ`); `int` values are `Int`;
  container sizes and indices are `Nat`.
* A C++ exception is `Except.error`; the state at the throw is dropped, as the
  exception leaves the method.
* An unchecked `std::vector` subscript outside the vector is undefined
  behaviour in the source; the embedding stops there with `Error.OutOfRange`.
* `std::map::operator[]` inserts a value-initialised entry for an absent key
  (`mapIndex`).
-/

namespace cycamore

/-- Exceptions of the source (`cyclus::ValueError`, `cyclus::KeyError`) and the
marker for an unchecked vector subscript outside the vector. -/
inductive Error where
  | ValueError
  | KeyError
  | OutOfRange
deriving DecidableEq

deriving instance DecidableEq for Except

/-- A resource batch (`cyclus::Material`): its object identity, its quantity and
the composition it carries.  A composition is named by the recipe it was
resolved from. -/
structure Material where
  obj_id : Nat
  quantity : ℚ
  comp : String
deriving DecidableEq

/-- Modelled from the spec: the composition registry of the simulation context
(`context()->GetRecipe`), which resolves a named composition template to a
composition.  The registry is not part of this repository; compositions are
identified with the name of their template. -/
def GetRecipe (name : String) : String := name

/-- Sum of the quantities of a list of batches. -/
def totalQty : List Material → ℚ
  | [] => 0
  | m :: ms => m.quantity + totalQty ms

/-- Modelled from the spec: the capacity-bounded, order-preserving inventory
pool (`cyclus::toolkit::ResBuf<Material>`), whose code is not part of this
repository.  It is an ordered sequence of batches with a quantity ceiling. -/
structure ResBuf where
  capacity : ℚ
  rs : List Material
deriving DecidableEq

/-- Current quantity of a pool: the sum over its batches. -/
def ResBuf.quantity (b : ResBuf) : ℚ := totalQty b.rs

/-- Number of batches held by a pool. -/
def ResBuf.count (b : ResBuf) : Nat := b.rs.length

/-- Modelled from the spec: `push(batch)` fails if the resulting quantity would
exceed the capacity; otherwise the batch is appended at the back. -/
def ResBuf.Push (b : ResBuf) (m : Material) : Except Error ResBuf :=
  if b.quantity + m.quantity > b.capacity then .error .ValueError
  else .ok { b with rs := b.rs ++ [m] }

/-- Modelled from the spec: pushing a vector of batches fails if the resulting
quantity would exceed the capacity; otherwise the batches are appended in
order. -/
def ResBuf.PushAll (b : ResBuf) (ms : List Material) : Except Error ResBuf :=
  if b.quantity + totalQty ms > b.capacity then .error .ValueError
  else .ok { b with rs := b.rs ++ ms }

/-- Modelled from the spec: removal of `left` worth of material from the front
of a pool, oldest batch first.  Whole batches are taken while they fit; a batch
larger than what is left is split, the extracted part being a new object with
identity `newId` and the remainder staying at the front under its old
identity.  Returns the pieces taken and the batches that stay. -/
def popQty (newId : Nat) : ℚ → List Material → List Material × List Material
  | _, [] => ([], [])
  | left, r :: rs =>
    if left ≤ 0 then ([], r :: rs)
    else if r.quantity > left then
      ([{ obj_id := newId, quantity := left, comp := r.comp }],
        { r with quantity := r.quantity - left } :: rs)
    else
      ((r :: (popQty newId (left - r.quantity) rs).1), (popQty newId (left - r.quantity) rs).2)

/-- Modelled from the spec: consolidation of the pieces taken by a pop into one
batch.  The first piece absorbs the others and keeps its identity and its
composition label; with no piece at all the result is the empty batch. -/
def Squash (empty : Material) : List Material → Material
  | [] => empty
  | r :: rs => { r with quantity := r.quantity + totalQty rs }

/-- Modelled from the spec: `pop(qty)` removes and returns exactly `qty` worth
of material as one batch, splitting or consolidating batches as needed, and
fails if `qty` exceeds the current quantity.  `newId` is the identity given to
an object created by the pop. -/
def ResBuf.Pop (b : ResBuf) (qty : ℚ) (newId : Nat) : Except Error (Material × ResBuf) :=
  if qty > b.quantity then .error .ValueError
  else
    .ok (Squash { obj_id := newId, quantity := 0, comp := "" } (popQty newId qty b.rs).1,
         { b with rs := (popQty newId qty b.rs).2 })

/-- Modelled from the spec: `PopN(n)` removes the `n` oldest batches unchanged
and in order; it fails if the pool holds fewer than `n` batches. -/
def ResBuf.PopN (b : ResBuf) (n : Nat) : Except Error (List Material × ResBuf) :=
  if b.count < n then .error .ValueError
  else .ok (b.rs.take n, { b with rs := b.rs.drop n })

/-- Rows written to the output tables of the simulation context. -/
inductive Datum where
  | ReactorEvents (time : Int) (event : String) (value : String)
  | TimeSeriesPower (time : Int) (value : ℚ)
  | TimeSeries (name : String) (time : Int) (value : ℚ)
  | ReactorSideProducts (time : Int) (product : String) (value : ℚ)
  | AgentPosition (latitude longitude : ℚ)
deriving DecidableEq

/-- State of a `BulkReactor`: the member variables used by `bulk_reactor.cc`
(their declarations are in the header, which is not among the sources), the
parts of the simulation context the methods read, and the tables they write. -/
structure BulkReactor where
  core_mass : ℚ
  discharge_mass : ℚ
  cycle_time : Int
  refuel_time : Int
  cycle_step : Int
  power_cap : ℚ
  discharged : Bool
  decom_transmute_all : Bool
  hybrid_ : Bool
  fuel_incommods : List String
  fuel_outcommods : List String
  fuel_inrecipes : List String
  fuel_outrecipes : List String
  fuel_prefs : List ℚ
  pref_change_times : List Int
  pref_change_commods : List String
  pref_change_values : List ℚ
  recipe_change_times : List Int
  recipe_change_commods : List String
  recipe_change_in : List String
  recipe_change_out : List String
  side_products : List String
  side_product_quantity : List ℚ
  core : ResBuf
  fresh : ResBuf
  spent : ResBuf
  res_indexes : List (Nat × Nat)
  uniq_outcommods_ : List String
  /-- Value of `context()->time()`. -/
  time : Int
  /-- Value of `exit_time()`. -/
  exit_time : Int
  /-- Value of `retired()`, a helper declared in the header. -/
  retired : Bool
  /-- Set by `Decommission()`. -/
  decommissioned : Bool
  /-- The identity the next created resource object receives. -/
  next_obj_id : Nat
  /-- Rows recorded so far, oldest first. -/
  db : List Datum
deriving DecidableEq

/-- Source `BulkReactor::Record`: one row of the `ReactorEvents` table. -/
def Record (s : BulkReactor) (name val : String) : BulkReactor :=
  { s with db := s.db ++ [Datum.ReactorEvents s.time name val] }

/-- Semantics of `std::map<int,int>::operator[]` used as an rvalue: the mapped
value, with a value-initialised entry inserted when the key is absent. -/
def mapIndex (m : List (Nat × Nat)) (k : Nat) : Nat × List (Nat × Nat) :=
  match m.lookup k with
  | some v => (v, m)
  | none => (0, m ++ [(k, 0)])

/-- Semantics of `res_indexes[k] = v`. -/
def mapAssign : List (Nat × Nat) → Nat → Nat → List (Nat × Nat)
  | [], k, v => [(k, v)]
  | (k', v') :: rest, k, v =>
    if k' = k then (k, v) :: rest else (k', v') :: mapAssign rest k v

/-- Semantics of `res_indexes.erase(k)`. -/
def mapErase (m : List (Nat × Nat)) (k : Nat) : List (Nat × Nat) :=
  m.filter (fun e => e.1 ≠ k)

/-- Source `BulkReactor::fuel_incommod`. -/
def fuel_incommod (s : BulkReactor) (m : Material) : Except Error (String × BulkReactor) :=
  match s.fuel_incommods[(mapIndex s.res_indexes m.obj_id).1]? with
  | none => .error .KeyError
  | some c => .ok (c, { s with res_indexes := (mapIndex s.res_indexes m.obj_id).2 })

/-- Source `BulkReactor::fuel_outcommod`. -/
def fuel_outcommod (s : BulkReactor) (m : Material) : Except Error (String × BulkReactor) :=
  match s.fuel_outcommods[(mapIndex s.res_indexes m.obj_id).1]? with
  | none => .error .KeyError
  | some c => .ok (c, { s with res_indexes := (mapIndex s.res_indexes m.obj_id).2 })

/-- Source `BulkReactor::fuel_inrecipe`. -/
def fuel_inrecipe (s : BulkReactor) (m : Material) : Except Error (String × BulkReactor) :=
  match s.fuel_inrecipes[(mapIndex s.res_indexes m.obj_id).1]? with
  | none => .error .KeyError
  | some c => .ok (c, { s with res_indexes := (mapIndex s.res_indexes m.obj_id).2 })

/-- Source `BulkReactor::fuel_outrecipe`. -/
def fuel_outrecipe (s : BulkReactor) (m : Material) : Except Error (String × BulkReactor) :=
  match s.fuel_outrecipes[(mapIndex s.res_indexes m.obj_id).1]? with
  | none => .error .KeyError
  | some c => .ok (c, { s with res_indexes := (mapIndex s.res_indexes m.obj_id).2 })

/-- Source `BulkReactor::fuel_pref`. -/
def fuel_pref (s : BulkReactor) (m : Material) : ℚ × BulkReactor :=
  match s.fuel_prefs[(mapIndex s.res_indexes m.obj_id).1]? with
  | none => (0, { s with res_indexes := (mapIndex s.res_indexes m.obj_id).2 })
  | some p => (p, { s with res_indexes := (mapIndex s.res_indexes m.obj_id).2 })

/-- First index `j` with `incommods[j] == incommod`, the search loop shared by
`index_res` and the schedule updates of `Tick`. -/
def findStream (incommod : String) : List String → Option Nat
  | [] => none
  | c :: cs => if c = incommod then some 0 else (findStream incommod cs).map (· + 1)

/-- Source `BulkReactor::index_res`. -/
def index_res (s : BulkReactor) (m : Material) (incommod : String) : Except Error BulkReactor :=
  match findStream incommod s.fuel_incommods with
  | some i => .ok { s with res_indexes := mapAssign s.res_indexes m.obj_id i }
  | none => .error .ValueError

/-- Source `BulkReactor::Discharge_Transmute(double qty)`. -/
def Discharge_Transmute (s : BulkReactor) (qty : ℚ) : Except Error (Bool × BulkReactor) :=
  if s.spent.capacity - s.spent.quantity < qty then
    .ok (false, Record s "DISCHARGE" "failed")
  else
    match s.core.Pop qty s.next_obj_id with
    | .error e => .error e
    | .ok (m, core) =>
      match fuel_outrecipe { s with core := core, next_obj_id := s.next_obj_id + 1 } m with
      | .error e => .error e
      | .ok (recipe, s1) =>
        match s1.spent.Push { m with comp := GetRecipe recipe } with
        | .error e => .error e
        | .ok spent => .ok (true, { s1 with spent := spent })

/-- Repeated calls of `Discharge_Transmute(qty)`, each on the state left by the
previous one. -/
def dischargeAttempts (qty : ℚ) : Nat → BulkReactor → Except Error BulkReactor
  | 0, s => .ok s
  | n + 1, s =>
    match Discharge_Transmute s qty with
    | .error e => .error e
    | .ok (_, s1) => dischargeAttempts qty n s1

/-- Source `BulkReactor::Discharge_Transmute(double qty, double transmute_qty)`.
The source returns `false` on the capacity failure and reaches the end of the
function without a return statement otherwise; the second case is the result
`none`. -/
def Discharge_Transmute2 (s : BulkReactor) (qty transmute_qty : ℚ) :
    Except Error (Option Bool × BulkReactor) :=
  if s.spent.capacity - s.spent.quantity < s.discharge_mass then
    .ok (some false, Record s "DISCHARGE" "failed")
  else
    match s.core.Pop transmute_qty s.next_obj_id with
    | .error e => .error e
    | .ok (m, core1) =>
      match fuel_outrecipe { s with core := core1, next_obj_id := s.next_obj_id + 1 } m with
      | .error e => .error e
      | .ok (recipe, s1) =>
        match s1.core.Pop (qty - transmute_qty) s1.next_obj_id with
        | .error e => .error e
        | .ok (m2, core2) =>
          match s1.spent.Push { m with comp := GetRecipe recipe } with
          | .error e => .error e
          | .ok spent1 =>
            match spent1.Push m2 with
            | .error e => .error e
            | .ok spent2 =>
              .ok (none, { s1 with core := core2, next_obj_id := s1.next_obj_id + 1,
                                   spent := spent2 })

/-- Source `BulkReactor::Load`. -/
def Load (s : BulkReactor) : Except Error BulkReactor :=
  if min (s.core.capacity - s.core.quantity) s.fresh.quantity = 0 then .ok s
  else
    match s.fresh.Pop (min (s.core.capacity - s.core.quantity) s.fresh.quantity)
        s.next_obj_id with
    | .error e => .error e
    | .ok (m, fresh) =>
      match s.core.Push m with
      | .error e => .error e
      | .ok core => .ok { s with core := core, fresh := fresh, next_obj_id := s.next_obj_id + 1 }

/-- Source `BulkReactor::CheckDecommissionCondition`. -/
def CheckDecommissionCondition (s : BulkReactor) : Bool :=
  s.core.count == 0 && s.spent.count == 0

/-- Modelled from the spec: `Decommission()` of the facility base class, which
is not part of this repository, moves the facility to `DECOMMISSIONED`. -/
def Decommission (s : BulkReactor) : BulkReactor :=
  { s with decommissioned := true }

/-- The "update preferences" loop of `Tick`: `i` is the loop index and the list
argument holds `pref_change_times[i..]`. -/
def updatePrefs (t : Int) (incommods commods : List String) (values : List ℚ) :
    Nat → List Int → List ℚ → Except Error (List ℚ)
  | _, [], prefs => .ok prefs
  | i, change_t :: times, prefs =>
    if t ≠ change_t then updatePrefs t incommods commods values (i + 1) times prefs
    else
      match commods[i]? with
      | none => .error .OutOfRange
      | some incommod =>
        match findStream incommod incommods with
        | none => updatePrefs t incommods commods values (i + 1) times prefs
        | some j =>
          match values[i]? with
          | none => .error .OutOfRange
          | some v =>
            if j < prefs.length then
              updatePrefs t incommods commods values (i + 1) times (prefs.set j v)
            else .error .OutOfRange

/-- The "update recipes" loop of `Tick`: `i` is the loop index and the list
argument holds `recipe_change_times[i..]`; the state pair is
`(fuel_inrecipes, fuel_outrecipes)`. -/
def updateRecipes (t : Int) (incommods commods change_in change_out : List String) :
    Nat → List Int → List String × List String → Except Error (List String × List String)
  | _, [], recipes => .ok recipes
  | i, change_t :: times, recipes =>
    if t ≠ change_t then
      updateRecipes t incommods commods change_in change_out (i + 1) times recipes
    else
      match commods[i]? with
      | none => .error .OutOfRange
      | some incommod =>
        match findStream incommod incommods with
        | none => updateRecipes t incommods commods change_in change_out (i + 1) times recipes
        | some j =>
          match change_in[i]?, change_out[i]? with
          | some rin, some rout =>
            if j < recipes.1.length ∧ j < recipes.2.length then
              updateRecipes t incommods commods change_in change_out (i + 1) times
                (recipes.1.set j rin, recipes.2.set j rout)
            else .error .OutOfRange
          | _, _ => .error .OutOfRange

/-- The end-of-life discharge of the retired branch of `Tick`, run when
`context()->time() == exit_time() + 1`; the result of the call is discarded. -/
def TickRetiredDischarge (s : BulkReactor) : Except Error BulkReactor :=
  if s.time = s.exit_time + 1 then
    if s.decom_transmute_all = true then
      match Discharge_Transmute s s.core.quantity with
      | .error e => .error e
      | .ok (_, s1) => .ok s1
    else
      match Discharge_Transmute2 s s.core.quantity (s.core.quantity / 2) with
      | .error e => .error e
      | .ok (_, s1) => .ok s1
  else .ok s

/-- The retired branch of `BulkReactor::Tick`. -/
def TickRetired (s : BulkReactor) : Except Error BulkReactor :=
  match TickRetiredDischarge (Record s "RETIRED" "") with
  | .error e => .error e
  | .ok s2 => if CheckDecommissionCondition s2 then .ok (Decommission s2) else .ok s2

/-- The routine discharge step of `Tick`: `if (cycle_step >= cycle_time &&
!discharged) discharged = Discharge_Transmute(discharge_mass);`. -/
def TickDischarge (s : BulkReactor) : Except Error BulkReactor :=
  if s.cycle_step ≥ s.cycle_time ∧ s.discharged = false then
    match Discharge_Transmute s s.discharge_mass with
    | .error e => .error e
    | .ok (r, s1) => .ok { s1 with discharged := r }
  else .ok s

/-- The reload step of `Tick`: `if (cycle_step >= cycle_time) Load();`. -/
def TickLoad (s : BulkReactor) : Except Error BulkReactor :=
  if s.cycle_step ≥ s.cycle_time then Load s else .ok s

/-- The two schedule loops at the end of `Tick`. -/
def TickSchedule (s : BulkReactor) : Except Error BulkReactor :=
  match updatePrefs s.time s.fuel_incommods s.pref_change_commods s.pref_change_values 0
      s.pref_change_times s.fuel_prefs with
  | .error e => .error e
  | .ok prefs =>
    match updateRecipes s.time s.fuel_incommods s.recipe_change_commods s.recipe_change_in
        s.recipe_change_out 0 s.recipe_change_times (s.fuel_inrecipes, s.fuel_outrecipes) with
    | .error e => .error e
    | .ok recipes =>
      .ok { s with fuel_prefs := prefs, fuel_inrecipes := recipes.1,
                   fuel_outrecipes := recipes.2 }

/-- Source `BulkReactor::Tick`. -/
def Tick (s : BulkReactor) : Except Error BulkReactor :=
  if s.retired then TickRetired s
  else
    match TickDischarge (if s.cycle_step = s.cycle_time then Record s "CYCLE_END" "" else s) with
    | .error e => .error e
    | .ok s2 =>
      match TickLoad s2 with
      | .error e => .error e
      | .ok s3 => TickSchedule s3

/-- A request for material (`cyclus::Request<Material>`): the target batch, the
commodity, the preference and the exclusivity flag. -/
structure Request where
  target : Material
  commodity : String
  preference : ℚ
  exclusive : Bool
deriving DecidableEq

/-- A request portfolio (`cyclus::RequestPortfolio<Material>`): the requests
added by `AddRequest`, in order, and the groups registered by `AddMutualReqs`. -/
structure RequestPortfolio where
  requests : List Request
  mutual_reqs : List (List Request)
deriving DecidableEq

/-- A matched trade (`cyclus::Trade<Material>`): the request it answers and the
matched amount. -/
structure Trade where
  request : Request
  amt : ℚ
deriving DecidableEq

/-- A bid (`cyclus::Bid<Material>`): the request it answers, the offered batch
and the exclusivity flag. -/
structure Bid where
  request : Request
  offer : Material
  exclusive : Bool
deriving DecidableEq

/-- A bid portfolio (`cyclus::BidPortfolio<Material>`): the bids added by
`AddBid`, in order, and the capacity constraints added by `AddConstraint`. -/
structure BidPortfolio where
  bids : List Bid
  constraints : List ℚ
deriving DecidableEq

/-- The request loop of `GetMatlRequests`: `j` is the loop index, the list
argument holds `fuel_incommods[j..]` and `newId` is the identity of the next
target batch created by `Material::CreateUntracked`. -/
def buildRequests (prefs : List ℚ) (inrecipes : List String) (order_mass : ℚ) :
    Nat → List String → Nat → Except Error (List Request)
  | _, [], _ => .ok []
  | j, commod :: rest, newId =>
    match prefs[j]?, inrecipes[j]? with
    | some pref, some recipe =>
      match buildRequests prefs inrecipes order_mass (j + 1) rest (newId + 1) with
      | .error e => .error e
      | .ok mreqs =>
        .ok ({ target := { obj_id := newId, quantity := order_mass, comp := GetRecipe recipe },
               commodity := commod, preference := pref, exclusive := true } :: mreqs)
    | _, _ => .error .OutOfRange

/-- Scan of `std::max_element`: `i` is the index of the next element, `best` the
index of the largest element so far and `bestVal` its value. -/
def maxElementFrom : List ℚ → Nat → Nat → ℚ → Nat
  | [], _, best, _ => best
  | x :: xs, i, best, bestVal =>
    if bestVal < x then maxElementFrom xs (i + 1) i x else maxElementFrom xs (i + 1) best bestVal

/-- The value `std::distance(v.begin(), std::max_element(v.begin(), v.end()))`:
the index of the first largest element, 0 for an empty vector. -/
def max_index : List ℚ → Nat
  | [] => 0
  | x :: xs => maxElementFrom xs 1 0 x

/-- Source `BulkReactor::GetMatlRequests`.  The returned `std::set` of
portfolios is given as a list. -/
def GetMatlRequests (s : BulkReactor) : Except Error (List RequestPortfolio × BulkReactor) :=
  if s.core_mass - s.core.quantity = 0 then .ok ([], s)
  else if s.retired then .ok ([], s)
  else
    match buildRequests s.fuel_prefs s.fuel_inrecipes (s.core_mass - s.core.quantity) 0
        s.fuel_incommods s.next_obj_id with
    | .error e => .error e
    | .ok mreqs =>
      match s.fuel_incommods[max_index s.fuel_prefs]? with
      | none => .error .OutOfRange
      | some commod =>
        .ok ([{ requests := mreqs, mutual_reqs := [mreqs] }],
             { s with next_obj_id := s.next_obj_id + mreqs.length,
                      db := s.db ++ [Datum.TimeSeries ("demand" ++ commod) s.time
                                       (s.core_mass - s.core.quantity)] })

/-- Source `BulkReactor::GetMatlTrades`: the responses appended to the output
vector, in order, and the state left. -/
def GetMatlTrades : List Trade → BulkReactor → Except Error (List (Trade × Material) × BulkReactor)
  | [], s => .ok ([], s)
  | tr :: trades, s =>
    match s.spent.Pop tr.amt s.next_obj_id with
    | .error e => .error e
    | .ok (m, spent) =>
      match GetMatlTrades trades
          { s with spent := spent, next_obj_id := s.next_obj_id + 1,
                   res_indexes := mapErase s.res_indexes m.obj_id } with
      | .error e => .error e
      | .ok (responses, s1) => .ok ((tr, m) :: responses, s1)

/-- Source `BulkReactor::AcceptMatlTrades`. -/
def AcceptMatlTrades : List (Trade × Material) → BulkReactor → Except Error BulkReactor
  | [], s => .ok s
  | (tr, m) :: responses, s =>
    match index_res s m tr.request.commodity with
    | .error e => .error e
    | .ok s1 =>
      if s1.core.quantity < s1.core_mass then
        match s1.core.Push m with
        | .error e => .error e
        | .ok core => AcceptMatlTrades responses { s1 with core := core }
      else
        match s1.fresh.Push m with
        | .error e => .error e
        | .ok fresh => AcceptMatlTrades responses { s1 with fresh := fresh }

/-- Semantics of `mapped[commod].push_back(m)` on a
`std::map<std::string, MatVec>`. -/
def mapPush : List (String × List Material) → String → Material → List (String × List Material)
  | [], commod, m => [(commod, [m])]
  | (k, v) :: rest, commod, m =>
    if k = commod then (k, v ++ [m]) :: rest else (k, v) :: mapPush rest commod m

/-- Semantics of `all_mats[commod]` used as an rvalue: the mapped vector, empty
for an absent key. -/
def mapMats (mapped : List (String × List Material)) (commod : String) : List Material :=
  (mapped.lookup commod).getD []

/-- The grouping loop of `PeekSpent`. -/
def peekLoop : List Material → BulkReactor → List (String × List Material) →
    Except Error (List (String × List Material) × BulkReactor)
  | [], s, mapped => .ok (mapped, s)
  | m :: mats, s, mapped =>
    match fuel_outcommod s m with
    | .error e => .error e
    | .ok (commod, s1) => peekLoop mats s1 (mapPush mapped commod m)

/-- Source `BulkReactor::PeekSpent`. -/
def PeekSpent (s : BulkReactor) : Except Error (List (String × List Material) × BulkReactor) :=
  match s.spent.PopN s.spent.count with
  | .error e => .error e
  | .ok (mats, spent1) =>
    match spent1.PushAll mats with
    | .error e => .error e
    | .ok spent2 => peekLoop mats { s with spent := spent2 } []

/-- Semantics of `std::set<std::string>::insert`: the set is kept as a strictly
increasing list. -/
def setInsert (x : String) : List String → List String
  | [] => [x]
  | y :: ys =>
    if x = y then y :: ys
    else if x < y then x :: y :: ys
    else y :: setInsert x ys

/-- The inner loop of `GetMatlBids` for one request: the list argument holds
`mats[k..]` and `tot_bid` is the quantity offered so far.  Returns the batches
offered to the request, in order. -/
def bidMats (target : ℚ) : List Material → ℚ → List Material
  | [], _ => []
  | m :: mats, tot_bid =>
    if tot_bid + m.quantity ≥ target then [m]
    else m :: bidMats target mats (tot_bid + m.quantity)

/-- The loop over the requests of one commodity in `GetMatlBids`: the bids added
to the portfolio, in order. -/
def bidsFor (mats : List Material) : List Request → List Bid
  | [] => []
  | req :: reqs =>
    (bidMats req.target.quantity mats 0).map
        (fun m => { request := req, offer := m, exclusive := true })
      ++ bidsFor mats reqs

/-- Semantics of `commod_requests[commod]` on the `CommodMap` argument of
`GetMatlBids`: the requests of the commodity, none for an absent key. -/
def commodReqs (commod_requests : List (String × List Request)) (commod : String) :
    List Request :=
  (commod_requests.lookup commod).getD []

/-- The loop of `GetMatlBids` over `uniq_outcommods_`; the list argument holds
the commodities still to visit.  `all_mats` is recomputed by `PeekSpent` for
every commodity that has requests, since `gotmats` is never set. -/
def bidLoop (commod_requests : List (String × List Request)) :
    List String → BulkReactor → Except Error (List BidPortfolio × BulkReactor)
  | [], s => .ok ([], s)
  | commod :: rest, s =>
    if (commodReqs commod_requests commod).length = 0 then bidLoop commod_requests rest s
    else
      match PeekSpent s with
      | .error e => .error e
      | .ok (all_mats, s1) =>
        if (mapMats all_mats commod).length = 0 then bidLoop commod_requests rest s1
        else
          match bidLoop commod_requests rest s1 with
          | .error e => .error e
          | .ok (ports, s2) =>
            .ok ({ bids := bidsFor (mapMats all_mats commod) (commodReqs commod_requests commod),
                   constraints := [totalQty (mapMats all_mats commod)] } :: ports, s2)

/-- Source `BulkReactor::GetMatlBids`.  The returned `std::set` of portfolios is
given as a list, in the order of the loop over `uniq_outcommods_`.  The empty
entries that `commod_requests[commod]` inserts into the argument of the caller
are not part of the result. -/
def GetMatlBids (s : BulkReactor) (commod_requests : List (String × List Request)) :
    Except Error (List BidPortfolio × BulkReactor) :=
  if s.uniq_outcommods_.isEmpty then
    bidLoop commod_requests (s.fuel_outcommods.foldl (fun u c => setInsert c u) [])
      { s with uniq_outcommods_ := s.fuel_outcommods.foldl (fun u c => setInsert c u) [] }
  else bidLoop commod_requests s.uniq_outcommods_ s

/-- The loop of `RecordSideProduct`: `i` is the loop index and the list argument
holds `side_products[i..]`.  Returns the rows recorded, in order. -/
def sideProductRows (time : Int) (produce : Bool) (side_product_quantity : List ℚ) :
    Nat → List String → Except Error (List Datum)
  | _, [] => .ok []
  | i, product :: rest =>
    match (if produce then side_product_quantity[i]? else some 0) with
    | none => .error .OutOfRange
    | some value =>
      match sideProductRows time produce side_product_quantity (i + 1) rest with
      | .error e => .error e
      | .ok rows => .ok (Datum.ReactorSideProducts time product value :: rows)

/-- Source `BulkReactor::RecordSideProduct`. -/
def RecordSideProduct (s : BulkReactor) (produce : Bool) : Except Error BulkReactor :=
  if s.hybrid_ then
    match sideProductRows s.time produce s.side_product_quantity 0 s.side_products with
    | .error e => .error e
    | .ok rows => .ok { s with db := s.db ++ rows }
  else .ok s

/-- The rollover check of `Tock`: the first `if` after the retirement test. -/
def TockRollover (s : BulkReactor) : BulkReactor :=
  if s.cycle_step ≥ s.cycle_time + s.refuel_time ∧ s.core.quantity = s.core_mass
      ∧ s.discharged = true then
    { s with discharged := false, cycle_step := 0 }
  else s

/-- The power and side-product records of `Tock`. -/
def TockRecord (s : BulkReactor) : Except Error BulkReactor :=
  if s.cycle_step ≥ 0 ∧ s.cycle_step < s.cycle_time ∧ s.core.quantity = s.core_mass then
    RecordSideProduct
      { s with db := s.db ++ [Datum.TimeSeriesPower s.time s.power_cap,
                              Datum.TimeSeries "supplyPOWER" s.time s.power_cap] } true
  else
    RecordSideProduct
      { s with db := s.db ++ [Datum.TimeSeriesPower s.time 0,
                              Datum.TimeSeries "supplyPOWER" s.time 0] } false

/-- The last step of `Tock`: `if (cycle_step > 0 || core.quantity() ==
core_mass) cycle_step++;`. -/
def TockAdvance (s : BulkReactor) : BulkReactor :=
  if s.cycle_step > 0 ∨ s.core.quantity = s.core_mass then
    { s with cycle_step := s.cycle_step + 1 }
  else s

/-- The cycle-start record of `Tock`. -/
def TockCycleStart (s : BulkReactor) : BulkReactor :=
  if s.cycle_step = 0 ∧ s.core.quantity = s.core_mass then Record s "CYCLE_START" "" else s

/-- Source `BulkReactor::Tock`. -/
def Tock (s : BulkReactor) : Except Error BulkReactor :=
  if s.retired then .ok s
  else
    match TockRecord (TockCycleStart (TockRollover s)) with
    | .error e => .error e
    | .ok s2 => .ok (TockAdvance s2)

/-- A facility deployed with one fuel stream: the state left by the constructor
`BulkReactor::BulkReactor` (empty pools, `cycle_step` 0, `discharged` false, no
scheduled changes, no side products) with the configuration filled in.  The
core pool has capacity `core_mass` and the spent pool capacity
`spent_capacity`. -/
def deployed (core_mass discharge_mass spent_capacity : ℚ) (cycle_time refuel_time : Int)
    (incommod outcommod inrecipe outrecipe : String) : BulkReactor :=
  { core_mass := core_mass
    discharge_mass := discharge_mass
    cycle_time := cycle_time
    refuel_time := refuel_time
    cycle_step := 0
    power_cap := 0
    discharged := false
    decom_transmute_all := false
    hybrid_ := false
    fuel_incommods := [incommod]
    fuel_outcommods := [outcommod]
    fuel_inrecipes := [inrecipe]
    fuel_outrecipes := [outrecipe]
    fuel_prefs := [1]
    pref_change_times := []
    pref_change_commods := []
    pref_change_values := []
    recipe_change_times := []
    recipe_change_commods := []
    recipe_change_in := []
    recipe_change_out := []
    side_products := []
    side_product_quantity := []
    core := { capacity := core_mass, rs := [] }
    fresh := { capacity := 0, rs := [] }
    spent := { capacity := spent_capacity, rs := [] }
    res_indexes := []
    uniq_outcommods_ := []
    time := 0
    exit_time := -1
    retired := false
    decommissioned := false
    next_obj_id := 0
    db := [] }

/-- A deployed facility holding one core batch of 300 acquired under stream 0. -/
def loadedReactor : BulkReactor :=
  { deployed 300 10 100 4 3 "uox" "waste" "uox" "spentuox" with
    core := { capacity := 300, rs := [{ obj_id := 0, quantity := 300, comp := "uox" }] }
    res_indexes := [(0, 0)]
    next_obj_id := 1 }

/-- A facility configured with two input streams and a single output recipe,
holding one core batch of 10 acquired under the second stream. -/
def shortRecipesReactor : BulkReactor :=
  { deployed 300 10 100 4 3 "uox" "waste" "uox" "spentuox" with
    fuel_incommods := ["uox", "mox"]
    fuel_outcommods := ["waste", "waste"]
    fuel_inrecipes := ["uox", "mox"]
    fuel_prefs := [1, 1]
    core := { capacity := 300, rs := [{ obj_id := 7, quantity := 10, comp := "mox" }] }
    res_indexes := [(7, 1)]
    next_obj_id := 8 }

/-- The condition under which `Tock` records full output: the second `if` of
`Tock`, read on the state left by the rollover check. -/
def producing (s : BulkReactor) : Prop :=
  (TockRollover s).cycle_step ≥ 0 ∧ (TockRollover s).cycle_step < s.cycle_time
    ∧ s.core.quantity = s.core_mass

instance (s : BulkReactor) : Decidable (producing s) := by
  unfold producing; infer_instance

/-- The rollover condition of `Tock`. -/
def rollover (s : BulkReactor) : Prop :=
  s.cycle_step ≥ s.cycle_time + s.refuel_time ∧ s.core.quantity = s.core_mass
    ∧ s.discharged = true

instance (s : BulkReactor) : Decidable (rollover s) := by
  unfold rollover; infer_instance

/-- A facility with a full core at the start of a cycle, with power capacity
1000 and two side products. -/
def hybridReactor : BulkReactor :=
  { loadedReactor with
    cycle_time := 1
    refuel_time := 1
    power_cap := 1000
    hybrid_ := true
    side_products := ["process_heat", "water"]
    side_product_quantity := [10, 100] }

/-- The stream index that `res_indexes[m->obj_id()]` yields for a batch: its
entry, 0 when it has none. -/
def streamOf (idx : List (Nat × Nat)) (m : Material) : Nat :=
  (mapIndex idx m.obj_id).1

/-- The output tag recovered for a batch by `fuel_outcommod`, when the lookup
succeeds. -/
def outcommodOf (s : BulkReactor) (m : Material) : Option String :=
  s.fuel_outcommods[streamOf s.res_indexes m]?

/-- The available spent batches of an output tag: the batches of the spent
pool whose recovered output tag is `commod`, in pool order. -/
def spentOf (s : BulkReactor) (commod : String) : List Material :=
  s.spent.rs.filter (fun m => outcommodOf s m = some commod)

/-- The set of distinct output tags built by the first loop of `GetMatlBids`. -/
def tagSet (outcommods : List String) : List String :=
  outcommods.foldl (fun u c => setInsert c u) []

/-- A facility holding three spent batches of 10, the first two discharged
from stream 0 and the last without an entry in the identity index. -/
def spentReactor : BulkReactor :=
  { loadedReactor with
    spent := { capacity := 100,
               rs := [{ obj_id := 1, quantity := 10, comp := "spentuox" },
                      { obj_id := 2, quantity := 10, comp := "spentuox" },
                      { obj_id := 3, quantity := 10, comp := "spentuox" }] }
    res_indexes := [(0, 0), (1, 0), (2, 0)]
    next_obj_id := 4 }

/-- A request of another facility for `qty` of commodity `commod`. -/
def wasteRequest (commod : String) (qty : ℚ) : Request :=
  { target := { obj_id := 100, quantity := qty, comp := "" }, commodity := commod,
    preference := 1, exclusive := false }

/-- Two states that differ at most in the identity index, and whose identity
indexes yield the same stream for every batch. -/
def sameStreams (s s1 : BulkReactor) : Prop :=
  s1 = { s with res_indexes := s1.res_indexes }
    ∧ ∀ m, streamOf s1.res_indexes m = streamOf s.res_indexes m

/-- The portfolio `GetMatlBids` builds for an output tag: the bids to the
requesters of the tag, drawn from the available spent batches of the tag, and
the single capacity constraint. -/
def portfolioOf (s : BulkReactor) (commod_requests : List (String × List Request))
    (commod : String) : BidPortfolio :=
  { bids := bidsFor (spentOf s commod) (commodReqs commod_requests commod)
    constraints := [totalQty (spentOf s commod)] }

/-- An output tag for which `GetMatlBids` builds a portfolio: it has at least
one outstanding request and at least one available spent batch. -/
def offered (s : BulkReactor) (commod_requests : List (String × List Request))
    (commod : String) : Bool :=
  decide (commodReqs commod_requests commod ≠ [] ∧ spentOf s commod ≠ [])

/-- The settlement of the idealised run: when `GetMatlRequests` returned a
portfolio, the exchange delivers through `AcceptMatlTrades` one new batch of
exactly the requested quantity, matched to the first request of the
portfolio.  Returns whether a batch was delivered. -/
def deliver (s : BulkReactor) : List RequestPortfolio → Except Error (Bool × BulkReactor)
  | [] => .ok (false, s)
  | port :: _ =>
    match port.requests with
    | [] => .ok (false, s)
    | req :: _ =>
      match AcceptMatlTrades
          [({ request := req, amt := req.target.quantity },
            { obj_id := s.next_obj_id, quantity := req.target.quantity,
              comp := req.target.comp })]
          { s with next_obj_id := s.next_obj_id + 1 } with
      | .error e => .error e
      | .ok s1 => .ok (true, s1)

/-- One time step of the idealised run with ample supply: `Tick`, the request
of `GetMatlRequests` filled at once by `deliver`, then `Tock`; the clock
advances by one.  Returns whether a batch was delivered in the step. -/
def supplyStep (s : BulkReactor) : Except Error (Bool × BulkReactor) :=
  match Tick s with
  | .error e => .error e
  | .ok s1 =>
    match GetMatlRequests s1 with
    | .error e => .error e
    | .ok (ports, s2) =>
      match deliver s2 ports with
      | .error e => .error e
      | .ok (b, s3) =>
        match Tock s3 with
        | .error e => .error e
        | .ok s4 => .ok (b, { s4 with time := s4.time + 1 })

/-- The state at the start of step `t` of the idealised run from `s`. -/
def supplyRun : Nat → BulkReactor → Except Error BulkReactor
  | 0, s => .ok s
  | t + 1, s =>
    match supplyRun t s with
    | .error e => .error e
    | .ok s1 =>
      match supplyStep s1 with
      | .error e => .error e
      | .ok (_, s2) => .ok s2

/-- Whether a batch is delivered at step `t` of the idealised run from `s`. -/
def deliveryAt (t : Nat) (s : BulkReactor) : Except Error Bool :=
  match supplyRun t s with
  | .error e => .error e
  | .ok s1 =>
    match supplyStep s1 with
    | .error e => .error e
    | .ok (b, _) => .ok b

/-- Number of steps among `0..n-1` of the idealised run from `s` at which a
batch is delivered. -/
def deliveriesWithin (n : Nat) (s : BulkReactor) : Nat :=
  ((List.range n).filter (fun t => decide (deliveryAt t s = .ok true))).length

/-- The facts carried through the idealised run with one stream: the
configuration of `deployed`, an empty fresh pool, an identity index that maps
every batch to stream 0, and the current values `cycle_step = w`,
`discharged = dis`, core quantity `q` and spent quantity `sq`. -/
structure RunFacts (c r : Nat) (M d cap : ℚ) (ic ir orr : String) (w : Nat) (dis : Bool)
    (q sq : ℚ) (s : BulkReactor) : Prop where
  h_core_mass : s.core_mass = M
  h_discharge_mass : s.discharge_mass = d
  h_cycle_time : s.cycle_time = c
  h_refuel_time : s.refuel_time = r
  h_retired : s.retired = false
  h_hybrid : s.hybrid_ = false
  h_incommods : s.fuel_incommods = [ic]
  h_inrecipes : s.fuel_inrecipes = [ir]
  h_outrecipes : s.fuel_outrecipes = [orr]
  h_prefs : s.fuel_prefs = [1]
  h_pref_times : s.pref_change_times = []
  h_recipe_times : s.recipe_change_times = []
  h_core_cap : s.core.capacity = M
  h_fresh : s.fresh.rs = []
  h_spent_cap : s.spent.capacity = cap
  h_idx : ∀ p ∈ s.res_indexes, p.2 = 0
  h_step : s.cycle_step = w
  h_discharged : s.discharged = dis
  h_core : s.core.quantity = q
  h_spent : s.spent.quantity = sq

/-- A retired facility on the step after its exit time, holding a core batch
of 300, with a spent pool of capacity 100. -/
def retiredReactor : BulkReactor :=
  { loadedReactor with
    retired := true
    exit_time := 6
    time := 7 }

/-- A retired facility two steps after its exit time. -/
def lateRetiredReactor : BulkReactor :=
  { loadedReactor with
    retired := true
    exit_time := 6
    time := 8 }

/-- Number of batches of a pool that carry identity `k`. -/
def heldIn (b : ResBuf) (k : Nat) : Nat :=
  (b.rs.map (fun m => m.obj_id)).count k

/-- Number of entries the identity index holds for identity `k`. -/
def indexEntries (s : BulkReactor) (k : Nat) : Nat :=
  (s.res_indexes.map (fun e => e.1)).count k

/-- Two accepted deliveries of commodity `uox`, of 100 and of 200. -/
def uoxResponses : List (Trade × Material) :=
  [({ request := { target := { obj_id := 90, quantity := 300, comp := "uox" },
                   commodity := "uox", preference := 1, exclusive := true },
      amt := 100 },
    { obj_id := 11, quantity := 100, comp := "uox" }),
   ({ request := { target := { obj_id := 90, quantity := 300, comp := "uox" },
                   commodity := "uox", preference := 1, exclusive := true },
      amt := 200 },
    { obj_id := 12, quantity := 200, comp := "uox" })]

/-- The capacity invariant of the three pools: `0 <= quantity <= capacity` for
the core, the fresh pool and the spent pool. -/
def PoolsOK (s : BulkReactor) : Prop :=
  (0 ≤ s.core.quantity ∧ s.core.quantity ≤ s.core.capacity)
  ∧ (0 ≤ s.fresh.quantity ∧ s.fresh.quantity ≤ s.fresh.capacity)
  ∧ (0 ≤ s.spent.quantity ∧ s.spent.quantity ≤ s.spent.capacity)

/-- States reachable from `s0` by calls of the facility that return: `Tick`,
`GetMatlRequests`, `AcceptMatlTrades` (of batches with a non-negative
quantity), `GetMatlBids`, `GetMatlTrades` and `Tock`, in any order, between
which the simulation may move the clock and retire the facility. -/
inductive Reachable (s0 : BulkReactor) : BulkReactor → Prop where
  | start : Reachable s0 s0
  | tick (s s1 : BulkReactor) : Reachable s0 s → Tick s = .ok s1 → Reachable s0 s1
  | requests (s s1 : BulkReactor) (ports : List RequestPortfolio) :
      Reachable s0 s → GetMatlRequests s = .ok (ports, s1) → Reachable s0 s1
  | accept (s s1 : BulkReactor) (responses : List (Trade × Material)) :
      Reachable s0 s → (∀ r ∈ responses, 0 ≤ r.2.quantity) →
      AcceptMatlTrades responses s = .ok s1 → Reachable s0 s1
  | bids (s s1 : BulkReactor) (cr : List (String × List Request)) (ports : List BidPortfolio) :
      Reachable s0 s → GetMatlBids s cr = .ok (ports, s1) → Reachable s0 s1
  | trades (s s1 : BulkReactor) (trades : List Trade) (responses : List (Trade × Material)) :
      Reachable s0 s → GetMatlTrades trades s = .ok (responses, s1) → Reachable s0 s1
  | tock (s s1 : BulkReactor) : Reachable s0 s → Tock s = .ok s1 → Reachable s0 s1
  | clock (s : BulkReactor) (t : Int) (retired : Bool) :
      Reachable s0 s → Reachable s0 { s with time := t, retired := retired }

/-- The deployed facility after it accepted the two deliveries of
`uoxResponses` into its core. -/
def fedReactor : BulkReactor :=
  { deployed 300 10 100 4 3 "uox" "waste" "uox" "spentuox" with
    core := { capacity := 300,
              rs := [{ obj_id := 11, quantity := 100, comp := "uox" },
                     { obj_id := 12, quantity := 200, comp := "uox" }] }
    res_indexes := [(11, 0), (12, 0)] }

/-- The rows of the `TimeSeriesPower` table among the recorded rows, in order:
time and recorded power. -/
def powerRows : List Datum → List (Int × ℚ)
  | [] => []
  | Datum.TimeSeriesPower t v :: rest => (t, v) :: powerRows rest
  | _ :: rest => powerRows rest

/-- Two states with the same clock, power capacity and retirement flag, and the
same rows in the `TimeSeriesPower` table. -/
def samePower (s s1 : BulkReactor) : Prop :=
  s1.time = s.time ∧ s1.power_cap = s.power_cap ∧ s1.retired = s.retired
    ∧ powerRows s1.db = powerRows s.db

/-- The facility of `deployed` with power capacity `p`. -/
def deployedPower (p core_mass discharge_mass spent_capacity : ℚ) (cycle_time refuel_time : Int)
    (incommod outcommod inrecipe outrecipe : String) : BulkReactor :=
  { deployed core_mass discharge_mass spent_capacity cycle_time refuel_time
      incommod outcommod inrecipe outrecipe with
    power_cap := p }

/-- The saturated-output conditions: a non-retired facility whose core is full
(quantity = `core_mass` = core capacity), at or past the end of its cycle,
not discharged, with less free room in the spent pool than `discharge_mass`
and a fresh pool of non-negative quantity. -/
def saturated (s : BulkReactor) : Prop :=
  s.retired = false ∧ s.core.quantity = s.core_mass ∧ s.core.capacity = s.core_mass
    ∧ s.cycle_step ≥ s.cycle_time ∧ s.discharged = false
    ∧ s.spent.capacity - s.spent.quantity < s.discharge_mass
    ∧ 0 ≤ s.fresh.quantity

/-- A facility at the end of its cycle with a full core and a full spent pool
of capacity 30. -/
def saturatedReactor : BulkReactor :=
  { loadedReactor with
    cycle_step := 4
    spent := { capacity := 30,
               rs := [{ obj_id := 1, quantity := 10, comp := "spentuox" },
                      { obj_id := 2, quantity := 10, comp := "spentuox" },
                      { obj_id := 3, quantity := 10, comp := "spentuox" }] }
    res_indexes := [(0, 0), (1, 0), (2, 0), (3, 0)]
    next_obj_id := 4 }

/-- A retired facility two steps after its exit time whose core and spent
pools hold no batch. -/
def emptiedReactor : BulkReactor :=
  { lateRetiredReactor with core := { capacity := 300, rs := [] }, res_indexes := [] }

/-- A facility at the end of its cycle whose core holds 290 of 300 and whose
fresh pool holds a batch of 25. -/
def reloadReactor : BulkReactor :=
  { loadedReactor with
    cycle_step := 4
    discharged := true
    core := { capacity := 300, rs := [{ obj_id := 0, quantity := 290, comp := "uox" }] }
    fresh := { capacity := 100, rs := [{ obj_id := 1, quantity := 25, comp := "uox" }] }
    res_indexes := [(0, 0), (1, 0)]
    next_obj_id := 2 }

/-- A facility with two streams whose spent pool holds three batches, the
second one acquired under the second stream. -/
def mixedSpentReactor : BulkReactor :=
  { spentReactor with
    fuel_incommods := ["uox", "mox"]
    fuel_outcommods := ["waste", "mwaste"]
    fuel_inrecipes := ["uox", "mox"]
    fuel_outrecipes := ["spentuox", "spentmox"]
    fuel_prefs := [1, 2]
    spent := { capacity := 100,
               rs := [{ obj_id := 1, quantity := 10, comp := "spentuox" },
                      { obj_id := 2, quantity := 10, comp := "spentmox" },
                      { obj_id := 3, quantity := 10, comp := "spentuox" }] }
    res_indexes := [(0, 0), (1, 0), (2, 1), (3, 0)] }

/-- States reached from `s0` by `Tick` and `Tock` calls that return, in any
order, with arbitrary settlement in between: a settlement step is any change
of the state that leaves `cycle_step`, `discharged` and `cycle_time` as they
are (the pools, the identity index, the clock, the retirement flag and the
tables may all change). -/
inductive TimedRun (s0 : BulkReactor) : BulkReactor → Prop where
  | start : TimedRun s0 s0
  | tick (s s1 : BulkReactor) : TimedRun s0 s → Tick s = .ok s1 → TimedRun s0 s1
  | tock (s s1 : BulkReactor) : TimedRun s0 s → Tock s = .ok s1 → TimedRun s0 s1
  | settle (s s1 : BulkReactor) : TimedRun s0 s → s1.cycle_step = s.cycle_step →
      s1.discharged = s.discharged → s1.cycle_time = s.cycle_time → TimedRun s0 s1

/-- The loaded facility at the end of its cycle, before the discharge. -/
def cycleEndReactor : BulkReactor :=
  { loadedReactor with cycle_step := 4 }

/-- The state `Tick` leaves from `cycleEndReactor`: 10 discharged into the
spent pool and the flag `discharged` set. -/
def dischargedReactor : BulkReactor :=
  { loadedReactor with
    cycle_step := 4
    discharged := true
    core := { capacity := 300, rs := [{ obj_id := 0, quantity := 290, comp := "uox" }] }
    spent := { capacity := 100, rs := [{ obj_id := 1, quantity := 10, comp := "spentuox" }] }
    res_indexes := [(0, 0), (1, 0)]
    next_obj_id := 2
    db := [Datum.ReactorEvents 0 "CYCLE_END" ""] }

/-- The first step of `BulkReactor::EnterNotify`: an omitted `fuel_prefs` is
filled with `kDefaultPref`, one entry per element of `fuel_outcommods`.
`kDefaultPref` is the constant `cyclus::kDefaultPref`, declared outside the
sources. -/
def EnterNotifyPrefs (kDefaultPref : ℚ) (s : BulkReactor) : BulkReactor :=
  if s.fuel_prefs.length = 0 then
    { s with fuel_prefs := List.replicate s.fuel_outcommods.length kDefaultPref }
  else s

/-- The second step of `BulkReactor::EnterNotify`: without side products the
facility is not hybrid. -/
def EnterNotifyHybrid (s : BulkReactor) : BulkReactor :=
  if s.side_products.length = 0 then { s with hybrid_ := false } else s

/-- The input consistency check of `BulkReactor::EnterNotify`: whether one of
the five messages is written to the string stream. -/
def changeArraysMismatch (s : BulkReactor) : Prop :=
  s.recipe_change_commods.length ≠ s.recipe_change_times.length
  ∨ s.recipe_change_in.length ≠ s.recipe_change_times.length
  ∨ s.recipe_change_out.length ≠ s.recipe_change_times.length
  ∨ s.pref_change_commods.length ≠ s.pref_change_times.length
  ∨ s.pref_change_values.length ≠ s.pref_change_times.length

instance (s : BulkReactor) : Decidable (changeArraysMismatch s) := by
  unfold changeArraysMismatch; infer_instance

/-- Source `BulkReactor::EnterNotify`.  The call of the base class
`cyclus::Facility::EnterNotify` does not touch the members of the facility;
`latitude` and `longitude` are the members of these names, which only
`RecordPosition` reads. -/
def EnterNotify (kDefaultPref latitude longitude : ℚ) (s : BulkReactor) :
    Except Error BulkReactor :=
  if changeArraysMismatch (EnterNotifyHybrid (EnterNotifyPrefs kDefaultPref s)) then
    .error .ValueError
  else
    .ok { EnterNotifyHybrid (EnterNotifyPrefs kDefaultPref s) with
          db := (EnterNotifyHybrid (EnterNotifyPrefs kDefaultPref s)).db
                  ++ [Datum.AgentPosition latitude longitude] }

/-- A facility configured with per-stream arrays of five different lengths:
two input tags, one output tag, one input recipe, no output recipe and three
preferences. -/
def unevenReactor : BulkReactor :=
  { deployed 300 10 100 4 3 "uox" "waste" "uox" "spentuox" with
    fuel_incommods := ["uox", "mox"]
    fuel_outrecipes := []
    fuel_prefs := [1, 2, 3] }

/-- A facility configured without preferences, with two streams and a
preference change whose value is missing. -/
def brokenScheduleReactor : BulkReactor :=
  { deployed 300 10 100 4 3 "uox" "waste" "uox" "spentuox" with
    fuel_prefs := []
    pref_change_times := [5]
    pref_change_commods := ["uox"]
    pref_change_values := [] }

/-- Specification of the schedule loops of `Tick`, after the claim: the value
that the change entries numbered `i, i+1, ...` (with effective times `times`)
give to stream `j` at time `t`.  An entry applies to stream `j` when its time
equals `t` and `j` is the first stream whose input tag is the commodity of the
entry; among the entries that apply, the last one decides; `none` when no
entry applies. -/
def scheduledValue {α : Type} (t : Int) (incommods commods : List String) (values : List α)
    (j : Nat) : Nat → List Int → Option α
  | _, [] => none
  | i, change_t :: times =>
    match scheduledValue t incommods commods values j (i + 1) times with
    | some v => some v
    | none =>
      if change_t = t ∧ (commods[i]?).bind (fun c => findStream c incommods) = some j then
        values[i]?
      else none

/-- A two-stream facility at time 5 with three preference changes (two of
them for `mox` at time 5, one for `uox` at time 6) and two recipe changes at
time 5 (one for `uox`, one for a commodity that is no input tag). -/
def scheduledReactor : BulkReactor :=
  { loadedReactor with
    time := 5
    fuel_incommods := ["uox", "mox"]
    fuel_outcommods := ["waste", "waste"]
    fuel_inrecipes := ["uox", "mox"]
    fuel_outrecipes := ["spentuox", "spentmox"]
    fuel_prefs := [1, 2]
    pref_change_times := [5, 6, 5]
    pref_change_commods := ["mox", "uox", "mox"]
    pref_change_values := [7, 8, 9]
    recipe_change_times := [5, 5]
    recipe_change_commods := ["uox", "thox"]
    recipe_change_in := ["uox2", "thox2"]
    recipe_change_out := ["spentuox2", "spentthox2"] }

theorem totalQty_append (xs ys : List Material) :
    totalQty (xs ++ ys) = totalQty xs + totalQty ys := by
  induction xs with
  | nil => simp [totalQty]
  | cons x xs ih => simp [totalQty, ih, add_assoc]

theorem popQty_total (newId : Nat) (rs : List Material) :
    ∀ left : ℚ, 0 ≤ left → left ≤ totalQty rs →
      totalQty (popQty newId left rs).1 = left
        ∧ totalQty (popQty newId left rs).2 = totalQty rs - left := by
  induction rs with
  | nil =>
    intro left h0 h1
    have : left = 0 := le_antisymm (by simpa [totalQty] using h1) h0
    simp [popQty, totalQty, this]
  | cons r rs ih =>
    intro left h0 h1
    by_cases hz : left ≤ 0
    · have : left = 0 := le_antisymm hz h0
      simp [popQty, totalQty, this]
    · by_cases hbig : r.quantity > left
      · simp [popQty, hz, hbig, totalQty]
        ring
      · have hle : r.quantity ≤ left := not_lt.mp hbig
        have h1' : left - r.quantity ≤ totalQty rs := by
          simp only [totalQty] at h1; linarith
        obtain ⟨e1, e2⟩ := ih (left - r.quantity) (by linarith) h1'
        simp only [popQty, hz, hbig, if_false, totalQty, e1, e2]
        constructor <;> ring

theorem Squash_quantity (e : Material) (he : e.quantity = 0) (l : List Material) :
    (Squash e l).quantity = totalQty l := by
  cases l with
  | nil => simp [Squash, totalQty, he]
  | cons r rs => simp [Squash, totalQty]

theorem Pop_ok (b : ResBuf) (qty : ℚ) (newId : Nat) (h0 : 0 ≤ qty) (h1 : qty ≤ b.quantity) :
    ∃ m b1, b.Pop qty newId = .ok (m, b1) ∧ m.quantity = qty
      ∧ b1.quantity = b.quantity - qty ∧ b1.capacity = b.capacity := by
  obtain ⟨e1, e2⟩ := popQty_total newId b.rs qty h0 h1
  refine ⟨Squash { obj_id := newId, quantity := 0, comp := "" } (popQty newId qty b.rs).1,
    { b with rs := (popQty newId qty b.rs).2 }, ?_, ?_, ?_, ?_⟩
  · simp only [ResBuf.Pop, gt_iff_lt, not_lt.mpr h1, if_false]
  · rw [Squash_quantity _ rfl]; exact e1
  · simpa [ResBuf.quantity] using e2
  · rfl

theorem Pop_inv (b : ResBuf) (qty : ℚ) (newId : Nat) (m : Material) (b1 : ResBuf)
    (h : b.Pop qty newId = .ok (m, b1)) (h0 : 0 ≤ qty) :
    m.quantity = qty ∧ b1.quantity = b.quantity - qty ∧ b1.capacity = b.capacity := by
  have h1 : qty ≤ b.quantity := by
    by_contra hc
    simp [ResBuf.Pop, not_le.mp hc] at h
  obtain ⟨m', b', e, q1, q2, q3⟩ := Pop_ok b qty newId h0 h1
  rw [e] at h
  cases h
  exact ⟨q1, q2, q3⟩

theorem Push_ok (b : ResBuf) (m : Material) (h : b.quantity + m.quantity ≤ b.capacity) :
    b.Push m = .ok { b with rs := b.rs ++ [m] } := by
  simp [ResBuf.Push, not_lt.mpr h]

theorem Push_quantity (b b1 : ResBuf) (m : Material) (h : b.Push m = .ok b1) :
    b1.rs = b.rs ++ [m] ∧ b1.capacity = b.capacity
      ∧ b1.quantity = b.quantity + m.quantity ∧ b1.quantity ≤ b1.capacity := by
  unfold ResBuf.Push at h
  split at h
  · cases h
  · rename_i hc
    cases h
    refine ⟨rfl, rfl, ?_, ?_⟩
    · simp [ResBuf.quantity, totalQty_append, totalQty]
    · simp only [ResBuf.quantity, totalQty_append, totalQty] at hc ⊢
      linarith [not_lt.mp hc]

/-! ## Routine discharge -/

theorem Discharge_Transmute_blocked (s : BulkReactor) (qty : ℚ)
    (h : s.spent.capacity - s.spent.quantity < qty) :
    Discharge_Transmute s qty = .ok (false, Record s "DISCHARGE" "failed") := by
  simp [Discharge_Transmute, h]

theorem dischargeAttempts_blocked (qty : ℚ) (n : Nat) :
    ∀ s : BulkReactor, s.spent.capacity - s.spent.quantity < qty →
      ∃ s1, dischargeAttempts qty n s = .ok s1 ∧ s1.core = s.core ∧ s1.spent = s.spent
        ∧ s1.res_indexes = s.res_indexes := by
  induction n with
  | zero => intro s _; exact ⟨s, rfl, rfl, rfl, rfl⟩
  | succ n ih =>
    intro s h
    have h1 : (Record s "DISCHARGE" "failed").spent.capacity
        - (Record s "DISCHARGE" "failed").spent.quantity < qty := h
    obtain ⟨s1, e1, c1, p1, r1⟩ := ih (Record s "DISCHARGE" "failed") h1
    refine ⟨s1, ?_, c1, p1, r1⟩
    simp [dischargeAttempts, Discharge_Transmute_blocked s qty h, e1]

/-- C1: when the free capacity of the spent pool is smaller than `qty`,
`Discharge_Transmute(qty)` returns `false` and changes only the event table:
the core pool, the spent pool and the identity index are as they were, and so
they are after any number of repeated attempts. -/
theorem C1_failed_discharge_leaves_pools (s : BulkReactor) (qty : ℚ)
    (h : s.spent.capacity - s.spent.quantity < qty) :
    (∃ s1, Discharge_Transmute s qty = .ok (false, s1) ∧ s1.core = s.core
        ∧ s1.spent = s.spent ∧ s1.res_indexes = s.res_indexes
        ∧ s1 = { s with db := s1.db })
    ∧ ∀ n : Nat, ∃ sn, dischargeAttempts qty n s = .ok sn ∧ sn.core = s.core
        ∧ sn.spent = s.spent ∧ sn.res_indexes = s.res_indexes :=
  ⟨⟨Record s "DISCHARGE" "failed", Discharge_Transmute_blocked s qty h, rfl, rfl, rfl, rfl⟩,
    fun n => dischargeAttempts_blocked qty n s h⟩

theorem C1_failed_discharge_witness :
    (∃ s1, Discharge_Transmute (deployed 300 10 5 4 3 "uox" "waste" "uox" "spentuox") 10
          = .ok (false, s1)
        ∧ s1.core = (deployed 300 10 5 4 3 "uox" "waste" "uox" "spentuox").core
        ∧ s1.spent = (deployed 300 10 5 4 3 "uox" "waste" "uox" "spentuox").spent
        ∧ s1.res_indexes = (deployed 300 10 5 4 3 "uox" "waste" "uox" "spentuox").res_indexes
        ∧ s1 = { deployed 300 10 5 4 3 "uox" "waste" "uox" "spentuox" with db := s1.db })
    ∧ ∀ n : Nat, ∃ sn,
        dischargeAttempts 10 n (deployed 300 10 5 4 3 "uox" "waste" "uox" "spentuox") = .ok sn
        ∧ sn.core = (deployed 300 10 5 4 3 "uox" "waste" "uox" "spentuox").core
        ∧ sn.spent = (deployed 300 10 5 4 3 "uox" "waste" "uox" "spentuox").spent
        ∧ sn.res_indexes = (deployed 300 10 5 4 3 "uox" "waste" "uox" "spentuox").res_indexes :=
  C1_failed_discharge_leaves_pools (deployed 300 10 5 4 3 "uox" "waste" "uox" "spentuox") 10
    (by decide!)

theorem Discharge_Transmute_eq (s : BulkReactor) (qty : ℚ) (m : Material) (core1 : ResBuf)
    (recipe : String) (hs : qty ≤ s.spent.capacity - s.spent.quantity)
    (hpop : s.core.Pop qty s.next_obj_id = .ok (m, core1))
    (hrec : s.fuel_outrecipes[(mapIndex s.res_indexes m.obj_id).1]? = some recipe)
    (hq : m.quantity = qty) :
    Discharge_Transmute s qty
      = .ok (true, { s with core := core1, next_obj_id := s.next_obj_id + 1,
                            res_indexes := (mapIndex s.res_indexes m.obj_id).2,
                            spent := { s.spent with
                              rs := s.spent.rs ++ [{ m with comp := GetRecipe recipe }] } }) := by
  have hfit : s.spent.quantity + ({ m with comp := GetRecipe recipe } : Material).quantity
      ≤ s.spent.capacity := by
    show s.spent.quantity + m.quantity ≤ s.spent.capacity
    rw [hq]; linarith
  simp only [Discharge_Transmute, not_lt.mpr hs, if_false, hpop, fuel_outrecipe, hrec,
    Push_ok s.spent _ hfit]

/-- C2 (as stated) fails: with two input streams and one output recipe, a core
batch acquired under the second stream recovers stream index 1, and the
discharge of that batch raises `KeyError` although both quantity conditions
hold; and for a negative `qty` the call returns `true` with the core quantity
unchanged. -/
theorem C2_discharge_counterexample :
    ((10 : ℚ) ≤ shortRecipesReactor.core.quantity
      ∧ (10 : ℚ) ≤ shortRecipesReactor.spent.capacity - shortRecipesReactor.spent.quantity
      ∧ Discharge_Transmute shortRecipesReactor 10 = .error .KeyError)
    ∧ ((-1 : ℚ) ≤ loadedReactor.core.quantity
      ∧ (-1 : ℚ) ≤ loadedReactor.spent.capacity - loadedReactor.spent.quantity
      ∧ (Discharge_Transmute loadedReactor (-1)).map (fun r => (r.1, r.2.core.quantity))
          = .ok (true, loadedReactor.core.quantity)) := by
  decide!

/-- C2 (amended): for `0 ≤ qty ≤` core quantity and `qty ≤` spent free capacity,
when the stream index recovered from the identity index for the batch popped
from the core (0 if the batch has no entry) lies within `fuel_outrecipes`, the
one-argument `Discharge_Transmute(qty)` returns `true`, the core quantity
decreases by exactly `qty`, the spent quantity increases by exactly `qty`, and
the batch appended to the spent pool is the popped batch `m` carrying the
output recipe of that stream. -/
theorem C2_discharge_success (s : BulkReactor) (qty : ℚ) (h0 : 0 ≤ qty)
    (hc : qty ≤ s.core.quantity) (hs : qty ≤ s.spent.capacity - s.spent.quantity)
    (hidx : ∀ m core1, s.core.Pop qty s.next_obj_id = .ok (m, core1) →
      (mapIndex s.res_indexes m.obj_id).1 < s.fuel_outrecipes.length) :
    ∃ m core1 recipe s1,
      s.core.Pop qty s.next_obj_id = .ok (m, core1)
      ∧ s.fuel_outrecipes[(mapIndex s.res_indexes m.obj_id).1]? = some recipe
      ∧ Discharge_Transmute s qty = .ok (true, s1)
      ∧ s1.core = core1
      ∧ s1.core.quantity = s.core.quantity - qty
      ∧ s1.spent.quantity = s.spent.quantity + qty
      ∧ s1.spent.rs = s.spent.rs ++ [{ m with comp := GetRecipe recipe }]
      ∧ m.quantity = qty := by
  obtain ⟨m, core1, hpop, q1, q2, _⟩ := Pop_ok s.core qty s.next_obj_id h0 hc
  have hlt := hidx m core1 hpop
  have hrec : s.fuel_outrecipes[(mapIndex s.res_indexes m.obj_id).1]?
      = some (s.fuel_outrecipes[(mapIndex s.res_indexes m.obj_id).1]) :=
    List.getElem?_eq_getElem hlt
  refine ⟨m, core1, _, _, hpop, hrec,
    Discharge_Transmute_eq s qty m core1 _ hs hpop hrec q1, rfl, q2, ?_, rfl, q1⟩
  show totalQty (s.spent.rs ++ [_]) = _
  rw [totalQty_append]
  simp [totalQty, ResBuf.quantity, q1]

theorem C2_discharge_success_witness :
    ∃ m core1 recipe s1,
      loadedReactor.core.Pop 10 loadedReactor.next_obj_id = .ok (m, core1)
      ∧ loadedReactor.fuel_outrecipes[(mapIndex loadedReactor.res_indexes m.obj_id).1]?
          = some recipe
      ∧ Discharge_Transmute loadedReactor 10 = .ok (true, s1)
      ∧ s1.core = core1
      ∧ s1.core.quantity = loadedReactor.core.quantity - 10
      ∧ s1.spent.quantity = loadedReactor.spent.quantity + 10
      ∧ s1.spent.rs = loadedReactor.spent.rs ++ [{ m with comp := GetRecipe recipe }]
      ∧ m.quantity = 10 :=
  C2_discharge_success loadedReactor 10 (by decide!) (by decide!) (by decide!)
    (fun m core1 h => by
      have e : loadedReactor.core.Pop 10 loadedReactor.next_obj_id
          = .ok ({ obj_id := 1, quantity := 10, comp := "uox" },
                 { capacity := 300, rs := [{ obj_id := 0, quantity := 290, comp := "uox" }] }) := by
        decide!
      rw [e] at h
      injection h with h
      injection h with h1 h2
      subst h1
      decide!)

/-! ## Frame properties: what each method leaves alone -/

theorem fuel_outrecipe_frame (s s1 : BulkReactor) (m : Material) (r : String)
    (h : fuel_outrecipe s m = .ok (r, s1)) :
    s1 = { s with res_indexes := s1.res_indexes } := by
  unfold fuel_outrecipe at h
  split at h
  · cases h
  · cases h; rfl

theorem Discharge_Transmute_frame (s s1 : BulkReactor) (qty : ℚ) (r : Bool)
    (h : Discharge_Transmute s qty = .ok (r, s1)) :
    s1 = { s with core := s1.core, spent := s1.spent, res_indexes := s1.res_indexes,
                  next_obj_id := s1.next_obj_id, db := s1.db } := by
  unfold Discharge_Transmute at h
  split at h
  · cases h; rfl
  · split at h
    · cases h
    · split at h
      · cases h
      · rename_i hf
        have e := fuel_outrecipe_frame _ _ _ _ hf
        split at h
        · cases h
        · cases h
          rw [e]

theorem Discharge_Transmute2_frame (s s1 : BulkReactor) (qty tq : ℚ) (r : Option Bool)
    (h : Discharge_Transmute2 s qty tq = .ok (r, s1)) :
    s1 = { s with core := s1.core, spent := s1.spent, res_indexes := s1.res_indexes,
                  next_obj_id := s1.next_obj_id, db := s1.db } := by
  unfold Discharge_Transmute2 at h
  split at h
  · cases h; rfl
  · split at h
    · cases h
    · split at h
      · cases h
      · rename_i hf
        have e := fuel_outrecipe_frame _ _ _ _ hf
        split at h
        · cases h
        · split at h
          · cases h
          · split at h
            · cases h
            · cases h
              rw [e]

theorem Load_frame (s s1 : BulkReactor) (h : Load s = .ok s1) :
    s1 = { s with core := s1.core, fresh := s1.fresh, next_obj_id := s1.next_obj_id } := by
  unfold Load at h
  split at h
  · cases h; rfl
  · split at h
    · cases h
    · split at h
      · cases h
      · cases h; rfl

theorem TickSchedule_frame (s s1 : BulkReactor) (h : TickSchedule s = .ok s1) :
    s1 = { s with fuel_prefs := s1.fuel_prefs, fuel_inrecipes := s1.fuel_inrecipes,
                  fuel_outrecipes := s1.fuel_outrecipes } := by
  unfold TickSchedule at h
  split at h
  · cases h
  · split at h
    · cases h
    · cases h; rfl

theorem TickRetired_cycle_step (s s1 : BulkReactor) (h : TickRetired s = .ok s1) :
    s1.cycle_step = s.cycle_step ∧ s1.discharged = s.discharged := by
  unfold TickRetired at h
  split at h
  · cases h
  · rename_i s2 hd
    have e2 : s2.cycle_step = s.cycle_step ∧ s2.discharged = s.discharged := by
      unfold TickRetiredDischarge at hd
      split at hd
      · split at hd
        · split at hd
          · cases hd
          · rename_i hq
            cases hd
            have e := Discharge_Transmute_frame _ _ _ _ hq
            rw [e]; exact ⟨rfl, rfl⟩
        · split at hd
          · cases hd
          · rename_i hq
            cases hd
            have e := Discharge_Transmute2_frame _ _ _ _ _ hq
            rw [e]; exact ⟨rfl, rfl⟩
      · cases hd; exact ⟨rfl, rfl⟩
    split at h
    · cases h; exact e2
    · cases h; exact e2

theorem TickDischarge_cycle_step (s s1 : BulkReactor) (h : TickDischarge s = .ok s1) :
    s1.cycle_step = s.cycle_step := by
  unfold TickDischarge at h
  split at h
  · split at h
    · cases h
    · rename_i hq
      cases h
      have e := Discharge_Transmute_frame _ _ _ _ hq
      rw [e]
  · cases h; rfl

theorem TickLoad_cycle_step (s s1 : BulkReactor) (h : TickLoad s = .ok s1) :
    s1.cycle_step = s.cycle_step := by
  unfold TickLoad at h
  split at h
  · rw [Load_frame _ _ h]
  · cases h; rfl

theorem Tick_cycle_step (s s1 : BulkReactor) (h : Tick s = .ok s1) :
    s1.cycle_step = s.cycle_step := by
  unfold Tick at h
  split at h
  · exact (TickRetired_cycle_step s s1 h).1
  · split at h
    · cases h
    · rename_i s2 h2
      split at h
      · cases h
      · rename_i s3 h3
        have e1 := TickDischarge_cycle_step _ _ h2
        have e2 := TickLoad_cycle_step _ _ h3
        have e3 := TickSchedule_frame _ _ h
        rw [e3]
        show s3.cycle_step = s.cycle_step
        rw [e2, e1]
        split <;> rfl

/-! ## Tock -/

theorem sideProductRows_idle (t : Int) (q : List ℚ) (ps : List String) :
    ∀ i, sideProductRows t false q i ps
      = .ok (ps.map (fun p => Datum.ReactorSideProducts t p 0)) := by
  induction ps with
  | nil => intro i; rfl
  | cons p ps ih => intro i; simp [sideProductRows, ih]

theorem sideProductRows_active (t : Int) (q : List ℚ) (ps : List String) :
    ∀ i, i + ps.length ≤ q.length →
      sideProductRows t true q i ps
        = .ok (List.zipWith (fun p v => Datum.ReactorSideProducts t p v) ps (q.drop i)) := by
  induction ps with
  | nil => intro i _; simp [sideProductRows]
  | cons p ps ih =>
    intro i hi
    simp only [List.length_cons] at hi
    have hlt : i < q.length := by omega
    have hd : q.drop i = q[i] :: q.drop (i + 1) := List.drop_eq_getElem_cons hlt
    rw [hd]
    simp only [sideProductRows, if_true, List.getElem?_eq_getElem hlt, ih (i + 1) (by omega),
      List.zipWith_cons_cons]

theorem sideProductRows_active_inv (t : Int) (q : List ℚ) (ps : List String) :
    ∀ i rows, sideProductRows t true q i ps = .ok rows →
      i + ps.length ≤ q.length ∨ ps = [] := by
  induction ps with
  | nil => intro i rows _; exact Or.inr rfl
  | cons p ps ih =>
    intro i rows h
    left
    simp only [sideProductRows, if_true] at h
    split at h
    · cases h
    · rename_i v hv
      have hlt : i < q.length := by
        by_contra hc
        rw [List.getElem?_eq_none (not_lt.mp hc)] at hv
        cases hv
      split at h
      · cases h
      · rename_i rows1 h1
        rcases ih (i + 1) rows1 h1 with h2 | h2
        · simp only [List.length_cons]; omega
        · subst h2; simp only [List.length_cons, List.length_nil]; omega

theorem TockRollover_eq (s : BulkReactor) :
    TockRollover s = if rollover s then { s with discharged := false, cycle_step := 0 } else s :=
  rfl

theorem Tock_frame (s s1 : BulkReactor) (hr : s.retired = false) (h : Tock s = .ok s1) :
    s1 = { TockAdvance (TockRollover s) with db := s1.db } := by
  unfold Tock at h
  simp only [hr, Bool.false_eq_true, if_false] at h
  split at h
  · cases h
  · rename_i s2 h2
    cases h
    have e2 : s2 = { TockRollover s with db := s2.db } := by
      unfold TockRecord at h2
      have e3 : ∀ (x y : BulkReactor) (b : Bool), RecordSideProduct x b = .ok y →
          y = { x with db := y.db } := by
        intro x y b hx
        unfold RecordSideProduct at hx
        split at hx
        · split at hx
          · cases hx
          · cases hx; rfl
        · cases hx; rfl
      split at h2
      · rw [e3 _ _ _ h2]; unfold TockCycleStart; split <;> rfl
      · rw [e3 _ _ _ h2]; unfold TockCycleStart; split <;> rfl
    rw [e2]
    unfold TockAdvance
    split <;> rfl

theorem Tock_ok (s : BulkReactor)
    (hside : s.hybrid_ = true → s.side_products.length ≤ s.side_product_quantity.length) :
    ∃ s1, Tock s = .ok s1 := by
  unfold Tock
  split
  · exact ⟨s, rfl⟩
  · have key : ∀ (x : BulkReactor) (b : Bool), x.hybrid_ = s.hybrid_ →
        x.side_products = s.side_products → x.side_product_quantity = s.side_product_quantity →
        ∃ y, RecordSideProduct x b = .ok y := by
      intro x b e1 e2 e3
      unfold RecordSideProduct
      split
      · rename_i hh
        cases b
        · rw [sideProductRows_idle]; exact ⟨_, rfl⟩
        · rw [sideProductRows_active _ _ _ 0 (by rw [e2, e3]; simpa using hside (e1 ▸ hh))]
          exact ⟨_, rfl⟩
      · exact ⟨_, rfl⟩
    have hfields : (TockCycleStart (TockRollover s)).hybrid_ = s.hybrid_
        ∧ (TockCycleStart (TockRollover s)).side_products = s.side_products
        ∧ (TockCycleStart (TockRollover s)).side_product_quantity = s.side_product_quantity := by
      unfold TockCycleStart TockRollover
      split <;> split <;> exact ⟨rfl, rfl, rfl⟩
    obtain ⟨y, hy⟩ : ∃ y, TockRecord (TockCycleStart (TockRollover s)) = .ok y := by
      unfold TockRecord
      split
      · exact key _ _ hfields.1 hfields.2.1 hfields.2.2
      · exact key _ _ hfields.1 hfields.2.1 hfields.2.2
    rw [hy]
    exact ⟨_, rfl⟩

/-- C3: for a non-retired facility, a `Tock` entered with `cycle_step >=
cycle_time + refuel_time`, the core quantity equal to `core_mass` and
`discharged` set clears `discharged` and ends with `cycle_step = 1`, however
large `cycle_step` was; when one of the three conditions fails, `Tock` leaves
`discharged` as it was and `cycle_step` is kept or advanced by one, not reset.
`Tock` completes whenever the side-product arrays cover each other. -/
theorem C3_tock_rollover (s : BulkReactor) (hr : s.retired = false) :
    (∀ s1, Tock s = .ok s1 →
      (rollover s → s1.discharged = false ∧ s1.cycle_step = 1)
      ∧ (¬ rollover s → s1.discharged = s.discharged
          ∧ (s1.cycle_step = s.cycle_step ∨ s1.cycle_step = s.cycle_step + 1)))
    ∧ ((s.hybrid_ = true → s.side_products.length ≤ s.side_product_quantity.length) →
        ∃ s1, Tock s = .ok s1) := by
  refine ⟨fun s1 h => ?_, Tock_ok s⟩
  have e := Tock_frame s s1 hr h
  constructor
  · intro hro
    rw [e, TockRollover_eq, if_pos hro]
    have hfull : s.core.quantity = s.core_mass := hro.2.1
    have ha : TockAdvance { s with discharged := false, cycle_step := 0 }
        = { s with discharged := false, cycle_step := 0 + 1 } := by
      unfold TockAdvance
      rw [if_pos (Or.inr hfull)]
    rw [ha]
    exact ⟨rfl, rfl⟩
  · intro hro
    rw [e, TockRollover_eq, if_neg hro]
    unfold TockAdvance
    split
    · exact ⟨rfl, Or.inr rfl⟩
    · exact ⟨rfl, Or.inl rfl⟩

theorem C3_tock_rollover_witness :
    (∀ s1, Tock { loadedReactor with cycle_step := 12, discharged := true } = .ok s1 →
      (rollover { loadedReactor with cycle_step := 12, discharged := true } →
        s1.discharged = false ∧ s1.cycle_step = 1)
      ∧ (¬ rollover { loadedReactor with cycle_step := 12, discharged := true } →
          s1.discharged = ({ loadedReactor with cycle_step := 12, discharged := true }).discharged
          ∧ (s1.cycle_step
                = ({ loadedReactor with cycle_step := 12, discharged := true }).cycle_step
            ∨ s1.cycle_step
                = ({ loadedReactor with cycle_step := 12, discharged := true }).cycle_step + 1)))
    ∧ ((({ loadedReactor with cycle_step := 12, discharged := true }).hybrid_ = true →
          ({ loadedReactor with cycle_step := 12, discharged := true }).side_products.length
            ≤ ({ loadedReactor with cycle_step := 12,
                                    discharged := true }).side_product_quantity.length) →
        ∃ s1, Tock { loadedReactor with cycle_step := 12, discharged := true } = .ok s1) :=
  C3_tock_rollover { loadedReactor with cycle_step := 12, discharged := true } (by decide)

theorem Tock_retired (s : BulkReactor) (hr : s.retired = true) : Tock s = .ok s := by
  simp [Tock, hr]

theorem Tock_cycle_step (s s1 : BulkReactor) (hr : s.retired = false) (h : Tock s = .ok s1)
    (hro : ¬ rollover s) :
    s1.cycle_step
      = if s.cycle_step > 0 ∨ s.core.quantity = s.core_mass then s.cycle_step + 1
        else s.cycle_step := by
  rw [Tock_frame s s1 hr h, TockRollover_eq, if_neg hro]
  unfold TockAdvance
  split <;> rfl

/-- C4: `Tick` never changes `cycle_step`.  A `Tock` entered without the
rollover condition never decreases `cycle_step`; for a counter that is not
negative it advances `cycle_step` by exactly one, unless the facility is
retired or `cycle_step` is 0 with the core not at `core_mass`, in which case
`cycle_step` is unchanged.  Hence `cycle_step` stays 0 through every `Tick` and
every `Tock` at which the core is not full, and it never becomes negative. -/
theorem C4_cycle_step_monotone (s : BulkReactor) :
    (∀ s1, Tick s = .ok s1 → s1.cycle_step = s.cycle_step)
    ∧ (∀ s1, Tock s = .ok s1 → ¬ rollover s →
        s.cycle_step ≤ s1.cycle_step
        ∧ (0 ≤ s.cycle_step →
            ((s.retired = true ∨ (s.cycle_step = 0 ∧ s.core.quantity ≠ s.core_mass)) →
              s1.cycle_step = s.cycle_step)
            ∧ (¬ (s.retired = true ∨ (s.cycle_step = 0 ∧ s.core.quantity ≠ s.core_mass)) →
              s1.cycle_step = s.cycle_step + 1)))
    ∧ (∀ s1, Tock s = .ok s1 → s.cycle_step = 0 → s.core.quantity ≠ s.core_mass →
        s1.cycle_step = 0)
    ∧ (∀ s1, Tock s = .ok s1 → 0 ≤ s.cycle_step → 0 ≤ s1.cycle_step) := by
  have hT : ∀ s1, Tock s = .ok s1 → ¬ rollover s →
      (s.retired = true → s1.cycle_step = s.cycle_step)
      ∧ (s.retired = false → s1.cycle_step
          = if s.cycle_step > 0 ∨ s.core.quantity = s.core_mass then s.cycle_step + 1
            else s.cycle_step) := by
    intro s1 h hro
    constructor
    · intro hr
      rw [Tock_retired s hr] at h
      cases h; rfl
    · intro hr
      exact Tock_cycle_step s s1 hr h hro
  refine ⟨Tick_cycle_step s, ?_, ?_, ?_⟩
  · intro s1 h hro
    obtain ⟨h1, h2⟩ := hT s1 h hro
    cases hr : s.retired with
    | true =>
      have e := h1 hr
      refine ⟨le_of_eq e.symm, fun _ => ⟨fun _ => e, fun hn => absurd (Or.inl rfl) hn⟩⟩
    | false =>
      have e := h2 hr
      by_cases hc : s.cycle_step > 0 ∨ s.core.quantity = s.core_mass
      · rw [if_pos hc] at e
        refine ⟨by omega, fun _ => ⟨?_, fun _ => e⟩⟩
        rintro (hx | ⟨hx1, hx2⟩)
        · cases hx
        · rcases hc with hc | hc
          · omega
          · exact absurd hc hx2
      · rw [if_neg hc] at e
        refine ⟨le_of_eq e.symm, fun h0 => ⟨fun _ => e, fun hn => ?_⟩⟩
        exfalso
        apply hn
        right
        constructor
        · have : ¬ s.cycle_step > 0 := fun hh => hc (Or.inl hh)
          omega
        · exact fun hh => hc (Or.inr hh)
  · intro s1 h h0 hne
    have hro : ¬ rollover s := fun hh => hne hh.2.1
    obtain ⟨h1, h2⟩ := hT s1 h hro
    cases hr : s.retired with
    | true => rw [h1 hr, h0]
    | false =>
      have e := h2 hr
      have hc : ¬ (s.cycle_step > 0 ∨ s.core.quantity = s.core_mass) := by
        rintro (hx | hx)
        · omega
        · exact hne hx
      rw [if_neg hc] at e
      rw [e, h0]
  · intro s1 h h0
    cases hr : s.retired with
    | true =>
      rw [Tock_retired s hr] at h
      cases h; exact h0
    | false =>
      by_cases hro : rollover s
      · have e := Tock_frame s s1 hr h
        rw [e, TockRollover_eq, if_pos hro]
        show 0 ≤ (TockAdvance { s with discharged := false, cycle_step := 0 }).cycle_step
        unfold TockAdvance
        split
        · show (0 : Int) ≤ 0 + 1
          omega
        · show (0 : Int) ≤ 0
          omega
      · have e := Tock_cycle_step s s1 hr h hro
        rw [e]
        split <;> omega

theorem C4_cycle_step_witness :
    (Tick { loadedReactor with cycle_step := 4 }).map (fun s1 => (s1.cycle_step, s1.discharged))
        = .ok (4, true)
    ∧ (Tock { loadedReactor with cycle_step := 4 }).map (fun s1 => s1.cycle_step) = .ok 5
    ∧ (Tock { loadedReactor with core := { capacity := 300, rs := [] } }).map
          (fun s1 => s1.cycle_step) = .ok 0
    ∧ ∀ s1, Tick { loadedReactor with cycle_step := 4 } = .ok s1 →
        s1.cycle_step = ({ loadedReactor with cycle_step := 4 }).cycle_step :=
  ⟨by decide!, by decide!, by decide!,
    (C4_cycle_step_monotone { loadedReactor with cycle_step := 4 }).1⟩

/-- C5: a non-retired `Tock` appends to the tables, after the optional
cycle-start event, exactly one power row and one `supplyPOWER` row, and then
one side-product row per side product when `hybrid_` is set (none otherwise).
When the core quantity equals `core_mass` and `0 <= cycle_step < cycle_time`
after the rollover check, the power value is `power_cap` and row `i` carries
`side_product_quantity[i]`; otherwise the power value and every side-product
value are 0.  `Tock` completes whenever `side_product_quantity` is at least as
long as `side_products`. -/
theorem C5_tock_records (s : BulkReactor) (hr : s.retired = false) :
    (∀ s1, Tock s = .ok s1 →
      ∃ ev side,
        s1.db = s.db ++ ev
            ++ [Datum.TimeSeriesPower s.time (if producing s then s.power_cap else 0),
                Datum.TimeSeries "supplyPOWER" s.time (if producing s then s.power_cap else 0)]
            ++ side
        ∧ (ev = [] ∨ ev = [Datum.ReactorEvents s.time "CYCLE_START" ""])
        ∧ side.length = (if s.hybrid_ then s.side_products.length else 0)
        ∧ (s.hybrid_ = true → producing s →
            s.side_products.length ≤ s.side_product_quantity.length
            ∧ side = List.zipWith (fun p v => Datum.ReactorSideProducts s.time p v)
                s.side_products s.side_product_quantity)
        ∧ (s.hybrid_ = true → ¬ producing s →
            side = s.side_products.map (fun p => Datum.ReactorSideProducts s.time p 0)))
    ∧ ((s.hybrid_ = true → s.side_products.length ≤ s.side_product_quantity.length) →
        ∃ s1, Tock s = .ok s1) := by
  refine ⟨fun s1 h => ?_, Tock_ok s⟩
  unfold Tock at h
  simp only [hr, Bool.false_eq_true, if_false] at h
  split at h
  · cases h
  · rename_i s2 h2
    cases h
    have hdb : (TockAdvance s2).db = s2.db := by unfold TockAdvance; split <;> rfl
    rw [hdb]
    -- the state handed to the record step
    obtain ⟨ev, hev, hx⟩ : ∃ ev, (ev = [] ∨ ev = [Datum.ReactorEvents s.time "CYCLE_START" ""])
        ∧ TockCycleStart (TockRollover s) = { TockRollover s with db := s.db ++ ev } := by
      have hdb0 : (TockRollover s).db = s.db ∧ (TockRollover s).time = s.time := by
        unfold TockRollover; split <;> exact ⟨rfl, rfl⟩
      unfold TockCycleStart
      split
      · refine ⟨_, Or.inr rfl, ?_⟩
        simp only [Record, hdb0.1, hdb0.2]
      · refine ⟨[], Or.inl rfl, ?_⟩
        rw [List.append_nil, ← hdb0.1]
    have hfields : (TockRollover s).hybrid_ = s.hybrid_
        ∧ (TockRollover s).side_products = s.side_products
        ∧ (TockRollover s).side_product_quantity = s.side_product_quantity
        ∧ (TockRollover s).time = s.time ∧ (TockRollover s).power_cap = s.power_cap
        ∧ (TockRollover s).cycle_time = s.cycle_time
        ∧ (TockRollover s).core = s.core ∧ (TockRollover s).core_mass = s.core_mass := by
      unfold TockRollover
      split <;> exact ⟨rfl, rfl, rfl, rfl, rfl, rfl, rfl, rfl⟩
    obtain ⟨f1, f2, f3, f4, f5, f6, f7, f8⟩ := hfields
    rw [hx] at h2
    unfold TockRecord at h2
    by_cases hp : producing s
    · have hp' : (TockRollover s).cycle_step ≥ 0
          ∧ (TockRollover s).cycle_step < (TockRollover s).cycle_time
          ∧ (TockRollover s).core.quantity = (TockRollover s).core_mass := by
        rw [f6, f7, f8]; exact hp
      simp only [if_pos hp', RecordSideProduct, f1, f2, f3, f4, f5] at h2
      simp only [if_pos hp]
      cases hh : s.hybrid_ with
      | false =>
        simp only [hh, Bool.false_eq_true, if_false] at h2
        cases h2
        refine ⟨ev, [], ?_, hev, rfl, (fun hc => by cases hc), (fun hc => by cases hc)⟩
        simp
      | true =>
        simp only [hh, if_true] at h2
        split at h2
        · cases h2
        · rename_i rows hrows
          cases h2
          have hlen : s.side_products.length ≤ s.side_product_quantity.length := by
            rcases sideProductRows_active_inv _ _ _ _ _ hrows with h3 | h3
            · omega
            · rw [h3]; exact Nat.zero_le _
          rw [sideProductRows_active _ _ _ 0 (by omega)] at hrows
          cases hrows
          refine ⟨ev, _, ?_, hev, ?_, fun _ _ => ⟨hlen, rfl⟩, fun _ hn => absurd hp hn⟩
          · simp
          · simp [hlen]
    · have hp' : ¬ ((TockRollover s).cycle_step ≥ 0
          ∧ (TockRollover s).cycle_step < (TockRollover s).cycle_time
          ∧ (TockRollover s).core.quantity = (TockRollover s).core_mass) := by
        rw [f6, f7, f8]; exact hp
      simp only [if_neg hp', RecordSideProduct, f1, f2, f3, f4, f5] at h2
      simp only [if_neg hp]
      cases hh : s.hybrid_ with
      | false =>
        simp only [hh, Bool.false_eq_true, if_false] at h2
        cases h2
        refine ⟨ev, [], ?_, hev, rfl, (fun hc => by cases hc), (fun hc => by cases hc)⟩
        simp
      | true =>
        simp only [hh, if_true, sideProductRows_idle] at h2
        cases h2
        refine ⟨ev, _, ?_, hev, ?_, fun _ hpp => absurd hpp hp, fun _ _ => rfl⟩
        · simp
        · simp

theorem C5_tock_records_witness :
    (Tock hybridReactor).map (fun s1 => s1.db)
        = .ok [Datum.ReactorEvents 0 "CYCLE_START" "", Datum.TimeSeriesPower 0 1000,
               Datum.TimeSeries "supplyPOWER" 0 1000,
               Datum.ReactorSideProducts 0 "process_heat" 10,
               Datum.ReactorSideProducts 0 "water" 100]
    ∧ (Tock { hybridReactor with cycle_step := 1 }).map (fun s1 => s1.db)
        = .ok [Datum.TimeSeriesPower 0 0, Datum.TimeSeries "supplyPOWER" 0 0,
               Datum.ReactorSideProducts 0 "process_heat" 0,
               Datum.ReactorSideProducts 0 "water" 0]
    ∧ ((hybridReactor.hybrid_ = true →
          hybridReactor.side_products.length ≤ hybridReactor.side_product_quantity.length) →
        ∃ s1, Tock hybridReactor = .ok s1) :=
  ⟨by decide!, by decide!, (C5_tock_records hybridReactor (by decide)).2⟩

/-! ## Demand portfolio -/

theorem buildRequests_ok (prefs : List ℚ) (inrecipes : List String) (order_mass : ℚ)
    (commods : List String) :
    ∀ j newId, j + commods.length ≤ prefs.length → j + commods.length ≤ inrecipes.length →
      ∃ mreqs, buildRequests prefs inrecipes order_mass j commods newId = .ok mreqs := by
  induction commods with
  | nil => intro j newId _ _; exact ⟨[], rfl⟩
  | cons c cs ih =>
    intro j newId h1 h2
    simp only [List.length_cons] at h1 h2
    obtain ⟨mreqs, hm⟩ := ih (j + 1) (newId + 1) (by omega) (by omega)
    have hp : j < prefs.length := by omega
    have hi : j < inrecipes.length := by omega
    simp only [buildRequests, List.getElem?_eq_getElem hp, List.getElem?_eq_getElem hi, hm]
    exact ⟨_, rfl⟩

theorem buildRequests_spec (prefs : List ℚ) (inrecipes : List String) (order_mass : ℚ)
    (commods : List String) :
    ∀ j newId mreqs, buildRequests prefs inrecipes order_mass j commods newId = .ok mreqs →
      mreqs.length = commods.length
      ∧ ∀ k, k < commods.length →
          ∃ r, mreqs[k]? = some r ∧ r.target.quantity = order_mass
            ∧ r.target.obj_id = newId + k
            ∧ some r.commodity = commods[k]?
            ∧ some r.target.comp = inrecipes[j + k]?.map GetRecipe
            ∧ some r.preference = prefs[j + k]?
            ∧ r.exclusive = true := by
  induction commods with
  | nil =>
    intro j newId mreqs h
    simp only [buildRequests] at h
    cases h
    exact ⟨rfl, fun k hk => absurd hk (Nat.not_lt_zero k)⟩
  | cons c cs ih =>
    intro j newId mreqs h
    simp only [buildRequests] at h
    split at h
    · rename_i pref recipe hp hi
      split at h
      · cases h
      · rename_i rest hrest
        cases h
        obtain ⟨hl, hk⟩ := ih (j + 1) (newId + 1) rest hrest
        refine ⟨by simp [hl], ?_⟩
        intro k hklt
        cases k with
        | zero =>
          refine ⟨{ target := { obj_id := newId, quantity := order_mass,
                                comp := GetRecipe recipe },
                    commodity := c, preference := pref, exclusive := true },
            by simp, rfl, rfl, by simp, ?_, ?_, rfl⟩
          · simp [hi]
          · simp [hp]
        | succ k =>
          simp only [List.length_cons] at hklt
          obtain ⟨r, hr1, hr2, hr3, hr4, hr5, hr6, hr7⟩ := hk k (by omega)
          refine ⟨r, by simpa using hr1, hr2, by omega, by simpa using hr4, ?_, ?_, hr7⟩
          · rw [hr5]; congr 2; omega
          · rw [hr6]; congr 1; omega
    · cases h

theorem maxElementFrom_lt (xs : List ℚ) :
    ∀ i best bestVal, best < i → maxElementFrom xs i best bestVal < i + xs.length := by
  induction xs with
  | nil => intro i best _ h; simpa [maxElementFrom] using h
  | cons x xs ih =>
    intro i best bestVal h
    simp only [maxElementFrom, List.length_cons]
    split
    · have := ih (i + 1) i x (by omega); omega
    · have := ih (i + 1) best bestVal (by omega); omega

theorem max_index_lt (prefs : List ℚ) (h : prefs ≠ []) : max_index prefs < prefs.length := by
  cases prefs with
  | nil => exact absurd rfl h
  | cons x xs =>
    have := maxElementFrom_lt xs 1 0 x (by omega)
    simp only [max_index, List.length_cons]
    omega

theorem GetMatlRequests_ok (s : BulkReactor)
    (hp : s.fuel_incommods.length ≤ s.fuel_prefs.length)
    (hi : s.fuel_incommods.length ≤ s.fuel_inrecipes.length)
    (hm : max_index s.fuel_prefs < s.fuel_incommods.length) :
    ∃ ports s1, GetMatlRequests s = .ok (ports, s1) := by
  unfold GetMatlRequests
  split
  · exact ⟨_, _, rfl⟩
  · split
    · exact ⟨_, _, rfl⟩
    · obtain ⟨mreqs, hb⟩ := buildRequests_ok s.fuel_prefs s.fuel_inrecipes
        (s.core_mass - s.core.quantity) s.fuel_incommods 0 s.next_obj_id
        (by omega) (by omega)
      rw [hb]
      simp only [List.getElem?_eq_getElem hm]
      exact ⟨_, _, rfl⟩

/-- C6: `GetMatlRequests` returns no portfolio if and only if `order_mass =
core_mass - core.quantity()` is zero or the facility is retired, and exactly
one portfolio in every other state in which it returns.  It returns whenever
`fuel_prefs` and `fuel_inrecipes` are at least as long as `fuel_incommods` and
the stream of the largest preference exists. -/
theorem C6_requests_empty_iff (s : BulkReactor) :
    ((s.core_mass - s.core.quantity = 0 ∨ s.retired = true) →
        GetMatlRequests s = .ok ([], s))
    ∧ (∀ ports s1, GetMatlRequests s = .ok (ports, s1) →
        (ports = [] ↔ (s.core_mass - s.core.quantity = 0 ∨ s.retired = true))
        ∧ (¬ (s.core_mass - s.core.quantity = 0 ∨ s.retired = true) → ports.length = 1))
    ∧ (s.fuel_incommods.length ≤ s.fuel_prefs.length →
        s.fuel_incommods.length ≤ s.fuel_inrecipes.length →
        max_index s.fuel_prefs < s.fuel_incommods.length →
        ∃ ports s1, GetMatlRequests s = .ok (ports, s1)) := by
  refine ⟨?_, ?_, GetMatlRequests_ok s⟩
  · rintro (h | h)
    · simp [GetMatlRequests, h]
    · simp [GetMatlRequests, h]
  · intro ports s1 h
    unfold GetMatlRequests at h
    split at h
    · rename_i h0
      cases h
      exact ⟨⟨fun _ => Or.inl h0, fun _ => rfl⟩, fun hn => absurd (Or.inl h0) hn⟩
    · rename_i h0
      split at h
      · rename_i hr
        cases h
        exact ⟨⟨fun _ => Or.inr hr, fun _ => rfl⟩, fun hn => absurd (Or.inr hr) hn⟩
      · rename_i hr
        split at h
        · cases h
        · split at h
          · cases h
          · cases h
            refine ⟨⟨(fun hc => by cases hc), ?_⟩, fun _ => rfl⟩
            rintro (hc | hc)
            · exact absurd hc h0
            · exact absurd hc hr

theorem C6_requests_witness :
    (GetMatlRequests loadedReactor).map (fun r => r.1) = .ok []
    ∧ (GetMatlRequests (deployed 300 10 100 4 3 "uox" "waste" "uox" "spentuox")).map
          (fun r => r.1.length) = .ok 1
    ∧ ((loadedReactor.core_mass - loadedReactor.core.quantity = 0
          ∨ loadedReactor.retired = true) →
        GetMatlRequests loadedReactor = .ok ([], loadedReactor)) :=
  ⟨by decide!, by decide!, (C6_requests_empty_iff loadedReactor).1⟩

/-- C7: for a non-retired facility with `order_mass ≠ 0` whose `fuel_prefs` and
`fuel_inrecipes` are at least as long as `fuel_incommods`, the result of
`GetMatlRequests` is a single portfolio holding exactly one request per input
stream `j`, in stream order, for quantity `order_mass`, commodity
`fuel_incommods[j]`, recipe `fuel_inrecipes[j]` and preference `fuel_prefs[j]`,
flagged exclusive, all registered together as the one mutual group of the
portfolio.  The call returns when the stream of the largest preference
exists. -/
theorem C7_requests_per_stream (s : BulkReactor) (hr : s.retired = false)
    (hom : s.core_mass - s.core.quantity ≠ 0)
    (hp : s.fuel_incommods.length ≤ s.fuel_prefs.length)
    (hi : s.fuel_incommods.length ≤ s.fuel_inrecipes.length) :
    (∀ ports s1, GetMatlRequests s = .ok (ports, s1) →
      ∃ port, ports = [port]
        ∧ port.requests.length = s.fuel_incommods.length
        ∧ port.mutual_reqs = [port.requests]
        ∧ ∀ j, j < s.fuel_incommods.length →
            ∃ r, port.requests[j]? = some r
              ∧ r.target.quantity = s.core_mass - s.core.quantity
              ∧ some r.commodity = s.fuel_incommods[j]?
              ∧ some r.target.comp = s.fuel_inrecipes[j]?.map GetRecipe
              ∧ some r.preference = s.fuel_prefs[j]?
              ∧ r.exclusive = true)
    ∧ (max_index s.fuel_prefs < s.fuel_incommods.length →
        ∃ ports s1, GetMatlRequests s = .ok (ports, s1)) := by
  refine ⟨?_, GetMatlRequests_ok s hp hi⟩
  intro ports s1 h
  unfold GetMatlRequests at h
  simp only [hom, hr, if_false, Bool.false_eq_true] at h
  split at h
  · cases h
  · rename_i mreqs hb
    split at h
    · cases h
    · cases h
      obtain ⟨hl, hk⟩ := buildRequests_spec _ _ _ _ _ _ _ hb
      refine ⟨_, rfl, hl, rfl, ?_⟩
      intro j hj
      obtain ⟨r, h1, h2, _, h4, h5, h6, h7⟩ := hk j hj
      refine ⟨r, h1, h2, h4, ?_, ?_, h7⟩
      · simpa using h5
      · simpa using h6

theorem C7_requests_per_stream_witness :
    (GetMatlRequests shortRecipesReactor).map (fun r => r.1)
        = .ok [{ requests :=
                   [{ target := { obj_id := 8, quantity := 290, comp := "uox" },
                      commodity := "uox", preference := 1, exclusive := true },
                    { target := { obj_id := 9, quantity := 290, comp := "mox" },
                      commodity := "mox", preference := 1, exclusive := true }],
                 mutual_reqs :=
                   [[{ target := { obj_id := 8, quantity := 290, comp := "uox" },
                       commodity := "uox", preference := 1, exclusive := true },
                     { target := { obj_id := 9, quantity := 290, comp := "mox" },
                       commodity := "mox", preference := 1, exclusive := true }]] }]
    ∧ (max_index shortRecipesReactor.fuel_prefs < shortRecipesReactor.fuel_incommods.length →
        ∃ ports s1, GetMatlRequests shortRecipesReactor = .ok (ports, s1)) :=
  ⟨by decide!,
    (C7_requests_per_stream shortRecipesReactor (by decide) (by decide!) (by decide)
      (by decide)).2⟩

/-! ## Supply portfolio: the offer made to one requester -/

theorem bidMats_prefix_at (q : ℚ) (mats : List Material) :
    ∀ (tot : ℚ) (k : Nat), k < mats.length →
      tot + totalQty (mats.take (k + 1)) ≥ q →
      (∀ i, i < k → tot + totalQty (mats.take (i + 1)) < q) →
      bidMats q mats tot = mats.take (k + 1) := by
  induction mats with
  | nil => intro tot k hk; exact absurd hk (Nat.not_lt_zero k)
  | cons m ms ih =>
    intro tot k hk hge hlt
    cases k with
    | zero =>
      have h1 : tot + m.quantity ≥ q := by simpa [totalQty] using hge
      simp [bidMats, h1]
    | succ k =>
      have h0 := hlt 0 (Nat.succ_pos k)
      have h1 : ¬ tot + m.quantity ≥ q := by
        simp only [List.take_succ_cons, List.take_zero, totalQty, add_zero] at h0
        exact not_le.mpr h0
      simp only [List.length_cons] at hk
      have hrec := ih (tot + m.quantity) k (by omega)
        (by simp only [List.take_succ_cons, totalQty] at hge; linarith)
        (fun i hi => by
          have := hlt (i + 1) (by omega)
          simp only [List.take_succ_cons, totalQty] at this
          linarith)
      simp only [bidMats, h1, if_false, hrec, List.take_succ_cons]

theorem bidMats_all (q : ℚ) (mats : List Material) :
    ∀ tot : ℚ, (∀ k, k < mats.length → tot + totalQty (mats.take (k + 1)) < q) →
      bidMats q mats tot = mats := by
  induction mats with
  | nil => intro tot _; rfl
  | cons m ms ih =>
    intro tot h
    have h0 := h 0 (by simp)
    have h1 : ¬ tot + m.quantity ≥ q := by
      simp only [List.take_succ_cons, List.take_zero, totalQty, add_zero] at h0
      exact not_le.mpr h0
    have hrec := ih (tot + m.quantity) (fun k hk => by
      have := h (k + 1) (by simp only [List.length_cons]; omega)
      simp only [List.take_succ_cons, totalQty] at this
      linarith)
    simp only [bidMats, h1, if_false, hrec]

theorem bidMats_isPrefix (q : ℚ) (mats : List Material) :
    ∀ tot : ℚ, bidMats q mats tot <+: mats := by
  induction mats with
  | nil => intro tot; exact List.prefix_refl _
  | cons m ms ih =>
    intro tot
    simp only [bidMats]
    split
    · exact ⟨ms, rfl⟩
    · exact (List.prefix_cons_inj m).mpr (ih _)

theorem bidMats_covers (q : ℚ) (mats : List Material) :
    ∀ tot : ℚ, mats ≠ [] →
      tot + totalQty (bidMats q mats tot) ≥ min q (tot + totalQty mats) := by
  induction mats with
  | nil => intro tot h; exact absurd rfl h
  | cons m ms ih =>
    intro tot _
    simp only [bidMats]
    split
    · rename_i h1
      simp only [totalQty, add_zero]
      exact le_trans (min_le_left _ _) h1
    · cases ms with
      | nil =>
        simp only [bidMats, totalQty, add_zero]
        exact min_le_right _ _
      | cons m2 ms2 =>
        have := ih (tot + m.quantity) (by simp)
        simp only [totalQty] at this ⊢
        have e1 : tot + (m.quantity + totalQty (bidMats q (m2 :: ms2) (tot + m.quantity)))
            = tot + m.quantity + totalQty (bidMats q (m2 :: ms2) (tot + m.quantity)) := by ring
        have e2 : tot + (m.quantity + (m2.quantity + totalQty ms2))
            = tot + m.quantity + (m2.quantity + totalQty ms2) := by ring
        rw [e1, e2]
        exact this

theorem bidsFor_eq_flatMap (mats : List Material) (reqs : List Request) :
    bidsFor mats reqs
      = reqs.flatMap (fun req => (bidMats req.target.quantity mats 0).map
          (fun m => { request := req, offer := m, exclusive := true })) := by
  induction reqs with
  | nil => rfl
  | cons r rs ih => simp [bidsFor, ih, List.flatMap_cons]

/-! ## Supply portfolio: the snapshot of the spent pool -/

theorem mapIndex_stable (idx : List (Nat × Nat)) (k k' : Nat) :
    (mapIndex (mapIndex idx k).2 k').1 = (mapIndex idx k').1 := by
  unfold mapIndex
  cases h : idx.lookup k with
  | some v => rfl
  | none =>
    simp only [List.lookup_append]
    cases h' : idx.lookup k' with
    | some v => simp
    | none =>
      by_cases hk : k' = k
      · subst hk; simp [List.lookup]
      · have : (k' == k) = false := by simpa using hk
        simp [List.lookup, this]

theorem sameStreams_refl (s : BulkReactor) : sameStreams s s := ⟨rfl, fun _ => rfl⟩

theorem sameStreams_trans (s s1 s2 : BulkReactor) (h1 : sameStreams s s1)
    (h2 : sameStreams s1 s2) : sameStreams s s2 := by
  obtain ⟨e1, f1⟩ := h1
  obtain ⟨e2, f2⟩ := h2
  refine ⟨?_, fun m => (f2 m).trans (f1 m)⟩
  rw [e2, e1]

theorem sameStreams_outcommodOf (s s1 : BulkReactor) (h : sameStreams s s1) (m : Material) :
    outcommodOf s1 m = outcommodOf s m := by
  obtain ⟨e, f⟩ := h
  unfold outcommodOf
  rw [f m, e]

theorem sameStreams_spentOf (s s1 : BulkReactor) (h : sameStreams s s1) (c : String) :
    spentOf s1 c = spentOf s c := by
  have e : s1.spent = s.spent := by rw [h.1]
  unfold spentOf
  rw [e]
  congr 1
  funext m
  rw [sameStreams_outcommodOf s s1 h m]

theorem fuel_outcommod_spec (s s1 : BulkReactor) (m : Material) (c : String)
    (h : fuel_outcommod s m = .ok (c, s1)) :
    outcommodOf s m = some c ∧ sameStreams s s1 := by
  unfold fuel_outcommod at h
  split at h
  · cases h
  · rename_i c' hc
    cases h
    exact ⟨hc, rfl, fun m' => mapIndex_stable _ _ _⟩

theorem fuel_outcommod_ok (s : BulkReactor) (m : Material) (c : String)
    (h : outcommodOf s m = some c) :
    fuel_outcommod s m
      = .ok (c, { s with res_indexes := (mapIndex s.res_indexes m.obj_id).2 }) := by
  unfold outcommodOf streamOf at h
  simp only [fuel_outcommod, h]

theorem mapMats_mapPush (mapped : List (String × List Material)) (c c' : String)
    (m : Material) :
    mapMats (mapPush mapped c m) c' = mapMats mapped c' ++ (if c = c' then [m] else []) := by
  induction mapped with
  | nil =>
    by_cases h : c = c'
    · subst h; simp [mapMats, mapPush, List.lookup]
    · have : (c' == c) = false := by simpa using fun e => h e.symm
      simp [mapMats, mapPush, List.lookup, this, h]
  | cons kv rest ih =>
    obtain ⟨k, v⟩ := kv
    simp only [mapPush]
    by_cases hk : k = c
    · subst hk
      simp only [if_true]
      by_cases h : k = c'
      · subst h; simp [mapMats, List.lookup]
      · have : (c' == k) = false := by simpa using fun e => h e.symm
        simp [mapMats, List.lookup, this, h]
    · simp only [hk, if_false]
      by_cases h : c' = k
      · subst h
        have hne : ¬ c = c' := fun e => hk e.symm
        simp [mapMats, List.lookup, hne]
      · have : (c' == k) = false := by simpa using h
        simp only [mapMats, List.lookup, this] at ih ⊢
        exact ih

theorem peekLoop_spec (mats : List Material) :
    ∀ (s : BulkReactor) (mapped g : List (String × List Material)) (s1 : BulkReactor),
      peekLoop mats s mapped = .ok (g, s1) →
      sameStreams s s1
        ∧ ∀ c, mapMats g c
            = mapMats mapped c ++ mats.filter (fun m => outcommodOf s m = some c) := by
  induction mats with
  | nil =>
    intro s mapped g s1 h
    simp only [peekLoop] at h
    cases h
    exact ⟨sameStreams_refl s, fun c => by simp⟩
  | cons m ms ih =>
    intro s mapped g s1 h
    simp only [peekLoop] at h
    split at h
    · cases h
    · rename_i commod s2 hf
      obtain ⟨ho, hs⟩ := fuel_outcommod_spec s s2 m commod hf
      obtain ⟨hs2, hg⟩ := ih s2 _ g s1 h
      refine ⟨sameStreams_trans s s2 s1 hs hs2, fun c => ?_⟩
      rw [hg c, mapMats_mapPush]
      have hfil : ms.filter (fun m => outcommodOf s2 m = some c)
          = ms.filter (fun m => outcommodOf s m = some c) := by
        congr 1; funext x; rw [sameStreams_outcommodOf s s2 hs x]
      rw [hfil, List.filter_cons]
      by_cases hc : commod = c
      · subst hc; simp [ho]
      · have : ¬ outcommodOf s m = some c := by
          rw [ho]; exact fun e => hc (Option.some.inj e)
        simp [hc, this]

theorem PeekSpent_spec (s s1 : BulkReactor) (g : List (String × List Material))
    (h : PeekSpent s = .ok (g, s1)) :
    sameStreams s s1 ∧ ∀ c, mapMats g c = spentOf s c := by
  unfold PeekSpent at h
  simp only [ResBuf.PopN, ResBuf.count, lt_irrefl, if_false, List.take_length,
    List.drop_length] at h
  unfold ResBuf.PushAll at h
  split at h
  · cases h
  · rename_i sp hp
    split at hp
    · cases hp
    · cases hp
      simp only [List.nil_append] at h
      obtain ⟨h1, h2⟩ := peekLoop_spec _ _ _ _ _ h
      refine ⟨h1, fun c => ?_⟩
      rw [h2 c]
      simp [mapMats, spentOf, outcommodOf]

/-! ## Supply portfolio: the loop over the output tags -/

theorem bidLoop_spec (cr : List (String × List Request)) (cs : List String) :
    ∀ (s : BulkReactor) (ports : List BidPortfolio) (s1 : BulkReactor),
      bidLoop cr cs s = .ok (ports, s1) →
      sameStreams s s1 ∧ ports = (cs.filter (offered s cr)).map (portfolioOf s cr) := by
  induction cs with
  | nil =>
    intro s ports s1 h
    simp only [bidLoop] at h
    cases h
    exact ⟨sameStreams_refl s, rfl⟩
  | cons c cs ih =>
    intro s ports s1 h
    simp only [bidLoop] at h
    split at h
    · rename_i hreq
      obtain ⟨h1, h2⟩ := ih s ports s1 h
      refine ⟨h1, ?_⟩
      have : offered s cr c = false := by
        simp [offered, List.length_eq_zero.mp hreq]
      rw [List.filter_cons, this]
      exact h2
    · rename_i hreq
      split at h
      · cases h
      · rename_i all_mats s2 hpeek
        obtain ⟨hs2, hmats⟩ := PeekSpent_spec s s2 all_mats hpeek
        have hport : ∀ x, portfolioOf s2 cr x = portfolioOf s cr x := by
          intro x; unfold portfolioOf; rw [sameStreams_spentOf s s2 hs2 x]
        have hoff : ∀ x, offered s2 cr x = offered s cr x := by
          intro x; unfold offered; rw [sameStreams_spentOf s s2 hs2 x]
        have hfil : (cs.filter (offered s2 cr)).map (portfolioOf s2 cr)
            = (cs.filter (offered s cr)).map (portfolioOf s cr) := by
          rw [funext hport, funext hoff]
        rw [hmats c] at h
        split at h
        · rename_i hm
          obtain ⟨h1, h2⟩ := ih s2 ports s1 h
          refine ⟨sameStreams_trans s s2 s1 hs2 h1, ?_⟩
          have : offered s cr c = false := by
            simp [offered, List.length_eq_zero.mp hm]
          rw [List.filter_cons, this, h2, hfil]
          rfl
        · rename_i hm
          split at h
          · cases h
          · rename_i ports2 s3 hrest
            cases h
            obtain ⟨h1, h2⟩ := ih s2 ports2 s1 hrest
            refine ⟨sameStreams_trans s s2 s1 hs2 h1, ?_⟩
            have : offered s cr c = true := by
              have a1 : commodReqs cr c ≠ [] := fun e => hreq (by rw [e]; rfl)
              have a2 : spentOf s c ≠ [] := fun e => hm (by rw [e]; rfl)
              simp [offered, a1, a2]
            rw [List.filter_cons, this, h2, hfil]
            simp only [if_true, List.map_cons, hmats c, portfolioOf]

theorem peekLoop_ok (mats : List Material) :
    ∀ (s : BulkReactor) (mapped : List (String × List Material)),
      (∀ m ∈ mats, ∃ c, outcommodOf s m = some c) →
      ∃ g s1, peekLoop mats s mapped = .ok (g, s1) := by
  induction mats with
  | nil => intro s mapped _; exact ⟨_, _, rfl⟩
  | cons m ms ih =>
    intro s mapped h
    obtain ⟨c, hc⟩ := h m (List.mem_cons_self _ _)
    have hf := fuel_outcommod_ok s m c hc
    have hs := (fuel_outcommod_spec s _ m c hf).2
    obtain ⟨g, s1, hg⟩ := ih _ (mapPush mapped c m) (fun x hx => by
      rw [sameStreams_outcommodOf s _ hs x]
      exact h x (List.mem_cons_of_mem _ hx))
    refine ⟨g, s1, ?_⟩
    simp only [peekLoop, hf, hg]

theorem PeekSpent_ok (s : BulkReactor)
    (htag : ∀ m ∈ s.spent.rs, ∃ c, outcommodOf s m = some c)
    (hcap : s.spent.quantity ≤ s.spent.capacity) :
    ∃ g s1, PeekSpent s = .ok (g, s1) := by
  have hq : ¬ ((0 : ℚ) + totalQty s.spent.rs > s.spent.capacity) := by
    rw [zero_add]; exact not_lt.mpr hcap
  obtain ⟨g, s1, hg⟩ := peekLoop_ok s.spent.rs s [] htag
  refine ⟨g, s1, ?_⟩
  simp only [PeekSpent, ResBuf.PopN, ResBuf.count, lt_irrefl, if_false, List.take_length,
    List.drop_length, ResBuf.PushAll, ResBuf.quantity, totalQty, hq, List.nil_append]
  exact hg

theorem bidLoop_ok (cr : List (String × List Request)) (cs : List String) :
    ∀ s : BulkReactor, (∀ m ∈ s.spent.rs, ∃ c, outcommodOf s m = some c) →
      s.spent.quantity ≤ s.spent.capacity →
      ∃ ports s1, bidLoop cr cs s = .ok (ports, s1) := by
  induction cs with
  | nil => intro s _ _; exact ⟨_, _, rfl⟩
  | cons c cs ih =>
    intro s htag hcap
    simp only [bidLoop]
    split
    · exact ih s htag hcap
    · obtain ⟨g, s2, hp⟩ := PeekSpent_ok s htag hcap
      obtain ⟨hs2, _⟩ := PeekSpent_spec s s2 g hp
      have e : s2.spent = s.spent := by rw [hs2.1]
      obtain ⟨ports, s1, hrest⟩ := ih s2 (fun m hm => by
          rw [sameStreams_outcommodOf s s2 hs2 m]
          exact htag m (e ▸ hm)) (by rw [e]; exact hcap)
      rw [hp]
      simp only [hrest]
      split
      · exact ⟨_, _, rfl⟩
      · exact ⟨_, _, rfl⟩

/-! ## The set of output tags -/

theorem setInsert_mem (x y : String) (l : List String) :
    y ∈ setInsert x l ↔ y = x ∨ y ∈ l := by
  induction l with
  | nil => simp [setInsert]
  | cons z zs ih =>
    simp only [setInsert]
    split
    · rename_i h; subst h; simp
    · split
      · simp
      · simp only [List.mem_cons, ih]
        tauto

theorem setInsert_sorted (x : String) (l : List String) (h : l.Sorted (· < ·)) :
    (setInsert x l).Sorted (· < ·) := by
  induction l with
  | nil => simp [setInsert]
  | cons z zs ih =>
    have hz := List.sorted_cons.mp h
    simp only [setInsert]
    split
    · exact h
    · rename_i hne
      split
      · rename_i hlt
        refine List.sorted_cons.mpr ⟨?_, h⟩
        intro b hb
        rcases List.mem_cons.mp hb with hb | hb
        · rw [hb]; exact hlt
        · exact lt_trans hlt (hz.1 b hb)
      · rename_i hnlt
        have hzx : z < x := lt_of_le_of_ne (not_lt.mp hnlt) (fun e => hne e.symm)
        refine List.sorted_cons.mpr ⟨?_, ih hz.2⟩
        intro b hb
        rcases (setInsert_mem x b zs).mp hb with hb | hb
        · rw [hb]; exact hzx
        · exact hz.1 b hb

theorem tagSet_foldl (l : List String) :
    ∀ acc : List String, acc.Sorted (· < ·) →
      (l.foldl (fun u c => setInsert c u) acc).Sorted (· < ·)
      ∧ ∀ y, y ∈ l.foldl (fun u c => setInsert c u) acc ↔ y ∈ acc ∨ y ∈ l := by
  induction l with
  | nil => intro acc h; exact ⟨h, fun y => by simp⟩
  | cons c cs ih =>
    intro acc h
    obtain ⟨h1, h2⟩ := ih (setInsert c acc) (setInsert_sorted c acc h)
    refine ⟨h1, fun y => ?_⟩
    simp only [List.foldl_cons, h2, setInsert_mem, List.mem_cons]
    tauto

theorem tagSet_nodup (l : List String) : (tagSet l).Nodup :=
  ((tagSet_foldl l [] List.sorted_nil).1).nodup

theorem tagSet_mem (l : List String) (y : String) : y ∈ tagSet l ↔ y ∈ l := by
  have := (tagSet_foldl l [] List.sorted_nil).2 y
  simpa [tagSet] using this

/-! ## Supply portfolio: `GetMatlBids` -/

theorem GetMatlBids_spec (s : BulkReactor) (cr : List (String × List Request))
    (hU : s.uniq_outcommods_ = [] ∨ s.uniq_outcommods_ = tagSet s.fuel_outcommods)
    (ports : List BidPortfolio) (s1 : BulkReactor) (h : GetMatlBids s cr = .ok (ports, s1)) :
    ports = ((tagSet s.fuel_outcommods).filter (offered s cr)).map (portfolioOf s cr) := by
  unfold GetMatlBids at h
  split at h
  · exact (bidLoop_spec cr _ _ ports s1 h).2
  · rename_i hne
    rcases hU with hU | hU
    · rw [hU] at hne
      exact absurd rfl hne
    · rw [hU] at h
      exact (bidLoop_spec cr _ _ ports s1 h).2

theorem GetMatlBids_cache (s : BulkReactor) (cr : List (String × List Request))
    (hU : s.uniq_outcommods_ = [] ∨ s.uniq_outcommods_ = tagSet s.fuel_outcommods)
    (ports : List BidPortfolio) (s1 : BulkReactor) (h : GetMatlBids s cr = .ok (ports, s1)) :
    s1.uniq_outcommods_ = tagSet s1.fuel_outcommods := by
  unfold GetMatlBids at h
  split at h
  · have e := (bidLoop_spec cr _ _ ports s1 h).1.1
    rw [e]; rfl
  · rename_i hne
    have e := (bidLoop_spec cr _ _ ports s1 h).1.1
    rcases hU with hU | hU
    · rw [hU] at hne
      exact absurd rfl hne
    · rw [e]; exact hU

theorem GetMatlBids_ok (s : BulkReactor) (cr : List (String × List Request))
    (htag : ∀ m ∈ s.spent.rs, ∃ c, outcommodOf s m = some c)
    (hcap : s.spent.quantity ≤ s.spent.capacity) :
    ∃ ports s1, GetMatlBids s cr = .ok (ports, s1) := by
  unfold GetMatlBids
  split
  · exact bidLoop_ok cr _ _ htag hcap
  · exact bidLoop_ok cr _ s htag hcap

theorem totalQty_take_le (mats : List Material) (hpos : ∀ m ∈ mats, 0 ≤ m.quantity) :
    ∀ k, totalQty (mats.take k) ≤ totalQty mats := by
  induction mats with
  | nil => intro k; simp [totalQty]
  | cons m ms ih =>
    intro k
    cases k with
    | zero =>
      have h0 : ∀ l : List Material, (∀ x ∈ l, 0 ≤ x.quantity) → 0 ≤ totalQty l := by
        intro l
        induction l with
        | nil => intro _; simp [totalQty]
        | cons a as iha =>
          intro hl
          have := iha (fun x hx => hl x (List.mem_cons_of_mem _ hx))
          have := hl a (List.mem_cons_self _ _)
          simp only [totalQty]; linarith
      simpa [totalQty] using h0 (m :: ms) hpos
    | succ k =>
      have := ih (fun x hx => hpos x (List.mem_cons_of_mem _ hx)) k
      simp only [List.take_succ_cons, totalQty]
      linarith

theorem filter_request_block (f : Request → List Material) (req : Request) (r : Request) :
    ((f r).map (fun m => ({ request := r, offer := m, exclusive := true } : Bid))).filter
        (fun b => decide (b.request = req))
      = if r = req then
          (f r).map (fun m => ({ request := r, offer := m, exclusive := true } : Bid))
        else [] := by
  by_cases h : r = req
  · rw [if_pos h]
    apply List.filter_eq_self.mpr
    intro b hb
    obtain ⟨m, _, rfl⟩ := List.mem_map.mp hb
    simpa using h
  · rw [if_neg h]
    apply List.filter_eq_nil_iff.mpr
    intro b hb
    obtain ⟨m, _, rfl⟩ := List.mem_map.mp hb
    simpa using h

theorem filter_request_flatMap (f : Request → List Material) (req : Request)
    (reqs : List Request) (hn : reqs.Nodup) (hm : req ∈ reqs) :
    (reqs.flatMap (fun r =>
        (f r).map (fun m => ({ request := r, offer := m, exclusive := true } : Bid)))).filter
        (fun b => decide (b.request = req))
      = (f req).map (fun m => ({ request := req, offer := m, exclusive := true } : Bid)) := by
  have hnone : ∀ l : List Request, req ∉ l →
      (l.flatMap (fun r =>
        (f r).map (fun m => ({ request := r, offer := m, exclusive := true } : Bid)))).filter
        (fun b => decide (b.request = req)) = [] := by
    intro l
    induction l with
    | nil => intro _; rfl
    | cons r rest ih =>
      intro hnot
      rw [List.flatMap_cons, List.filter_append, filter_request_block,
        if_neg (fun e : r = req => hnot (by rw [← e]; exact List.mem_cons_self _ _)),
        ih (fun h => hnot (List.mem_cons_of_mem _ h))]
      rfl
  induction reqs with
  | nil => exact absurd hm (List.not_mem_nil req)
  | cons r rest ih =>
    rw [List.flatMap_cons, List.filter_append, filter_request_block]
    obtain ⟨hr, hrest⟩ := List.nodup_cons.mp hn
    by_cases h : r = req
    · subst h
      rw [if_pos rfl, hnone rest hr, List.append_nil]
    · rw [if_neg h, List.nil_append]
      rcases List.mem_cons.mp hm with e | hmem
      · exact absurd e.symm h
      · exact ih hrest hmem

/-- C8: when `GetMatlBids` returns, every output tag of `fuel_outcommods` with
available spent batches `b_0..b_(n-1)` (`n >= 1`, pool order) has, for every
requester `r` of that tag, a returned portfolio whose bids are, requester after
requester, the batches offered to each requester, with the single constraint
of the total available quantity; `r` receives at least one bid, for `b_0`, and
(the requesters being distinct) the bids made to `r` are exactly the offered
batches, in order.  For a requester with target quantity `q` the offered
batches are exactly `b_0..b_k` for the least `k` with `b_0+...+b_k >= q`, and
all `n` batches when no prefix sum reaches `q` (in particular when the batch
quantities are not negative and the total is below `q`); so there is at least
one of them, the offered quantity is at least `min(q, total)`, and the offer
is a prefix of the pool batches themselves: the last offered batch is not
trimmed.  Conversely every returned portfolio belongs to such a tag.
`GetMatlBids` returns when every spent batch has a recoverable output tag and
the spent pool is within its capacity. -/
theorem C8_greedy_bids (s : BulkReactor) (cr : List (String × List Request))
    (hU : s.uniq_outcommods_ = [] ∨ s.uniq_outcommods_ = tagSet s.fuel_outcommods) :
    (∀ ports s1, GetMatlBids s cr = .ok (ports, s1) → ∀ port ∈ ports,
        ∃ c, c ∈ s.fuel_outcommods ∧ commodReqs cr c ≠ [] ∧ spentOf s c ≠ []
          ∧ port.bids = (commodReqs cr c).flatMap (fun req =>
              (bidMats req.target.quantity (spentOf s c) 0).map
                (fun m => { request := req, offer := m, exclusive := true })))
    ∧ (∀ ports s1, GetMatlBids s cr = .ok (ports, s1) →
        ∀ c ∈ s.fuel_outcommods, spentOf s c ≠ [] → ∀ req ∈ commodReqs cr c,
          ∃ port ∈ ports,
            port.bids = (commodReqs cr c).flatMap (fun r =>
                (bidMats r.target.quantity (spentOf s c) 0).map
                  (fun m => { request := r, offer := m, exclusive := true }))
            ∧ port.constraints = [totalQty (spentOf s c)]
            ∧ (∃ b ∈ port.bids, b.request = req ∧ (spentOf s c).head? = some b.offer)
            ∧ ((commodReqs cr c).Nodup →
                port.bids.filter (fun b => decide (b.request = req))
                  = (bidMats req.target.quantity (spentOf s c) 0).map
                      (fun m => { request := req, offer := m, exclusive := true })))
    ∧ (∀ (mats : List Material) (q : ℚ), mats ≠ [] →
        (∀ k, k < mats.length → totalQty (mats.take (k + 1)) ≥ q →
            (∀ i, i < k → totalQty (mats.take (i + 1)) < q) →
            bidMats q mats 0 = mats.take (k + 1))
        ∧ ((∀ k, k < mats.length → totalQty (mats.take (k + 1)) < q) →
            bidMats q mats 0 = mats)
        ∧ ((∀ m ∈ mats, 0 ≤ m.quantity) → totalQty mats < q → bidMats q mats 0 = mats)
        ∧ 1 ≤ (bidMats q mats 0).length
        ∧ totalQty (bidMats q mats 0) ≥ min q (totalQty mats)
        ∧ bidMats q mats 0 <+: mats)
    ∧ ((∀ m ∈ s.spent.rs, ∃ c, outcommodOf s m = some c) →
        s.spent.quantity ≤ s.spent.capacity →
        ∃ ports s1, GetMatlBids s cr = .ok (ports, s1)) := by
  refine ⟨?_, ?_, ?_, GetMatlBids_ok s cr⟩
  · intro ports s1 h port hport
    rw [GetMatlBids_spec s cr hU ports s1 h] at hport
    obtain ⟨c, hc, rfl⟩ := List.mem_map.mp hport
    obtain ⟨hc1, hc2⟩ := List.mem_filter.mp hc
    have hoff : commodReqs cr c ≠ [] ∧ spentOf s c ≠ [] := by
      simpa [offered] using hc2
    exact ⟨c, (tagSet_mem _ c).mp hc1, hoff.1, hoff.2, bidsFor_eq_flatMap _ _⟩
  · intro ports s1 h c hc hsp req hreq
    have hports := GetMatlBids_spec s cr hU ports s1 h
    have hreqs : commodReqs cr c ≠ [] := List.ne_nil_of_mem hreq
    have hmem : portfolioOf s cr c ∈ ports := by
      rw [hports]
      refine List.mem_map.mpr ⟨c, List.mem_filter.mpr ⟨(tagSet_mem _ c).mpr hc, ?_⟩, rfl⟩
      simp only [offered, decide_eq_true_eq]
      exact ⟨hreqs, hsp⟩
    have hbids : (portfolioOf s cr c).bids = (commodReqs cr c).flatMap (fun r =>
        (bidMats r.target.quantity (spentOf s c) 0).map
          (fun m => { request := r, offer := m, exclusive := true })) :=
      bidsFor_eq_flatMap _ _
    refine ⟨portfolioOf s cr c, hmem, hbids, rfl, ?_, ?_⟩
    · cases hmats : spentOf s c with
      | nil => exact absurd hmats hsp
      | cons m ms =>
        refine ⟨{ request := req, offer := m, exclusive := true }, ?_, rfl, rfl⟩
        rw [hbids]
        refine List.mem_flatMap.mpr ⟨req, hreq, List.mem_map.mpr ⟨m, ?_, rfl⟩⟩
        rw [hmats]
        simp only [bidMats]
        split <;> simp
    · intro hn
      rw [hbids]
      exact filter_request_flatMap (fun r => bidMats r.target.quantity (spentOf s c) 0)
        req _ hn hreq
  · intro mats q hne
    refine ⟨?_, ?_, ?_, ?_, ?_, bidMats_isPrefix q mats 0⟩
    · intro k hk hge hlt
      exact bidMats_prefix_at q mats 0 k hk (by rw [zero_add]; exact hge)
        (fun i hi => by rw [zero_add]; exact hlt i hi)
    · intro hall
      exact bidMats_all q mats 0 (fun k hk => by rw [zero_add]; exact hall k hk)
    · intro hpos htot
      exact bidMats_all q mats 0 (fun k _ => by
        rw [zero_add]
        exact lt_of_le_of_lt (totalQty_take_le mats hpos (k + 1)) htot)
    · cases mats with
      | nil => exact absurd rfl hne
      | cons m ms =>
        simp only [bidMats]
        split <;> simp
    · have := bidMats_covers q mats 0 hne
      simpa using this

theorem C8_greedy_bids_witness :
    (GetMatlBids spentReactor
        [("waste", [wasteRequest "waste" 15, wasteRequest "waste" 100])]).map (fun r => r.1)
      = .ok [{ bids :=
                 [{ request := wasteRequest "waste" 15,
                    offer := { obj_id := 1, quantity := 10, comp := "spentuox" },
                    exclusive := true },
                  { request := wasteRequest "waste" 15,
                    offer := { obj_id := 2, quantity := 10, comp := "spentuox" },
                    exclusive := true },
                  { request := wasteRequest "waste" 100,
                    offer := { obj_id := 1, quantity := 10, comp := "spentuox" },
                    exclusive := true },
                  { request := wasteRequest "waste" 100,
                    offer := { obj_id := 2, quantity := 10, comp := "spentuox" },
                    exclusive := true },
                  { request := wasteRequest "waste" 100,
                    offer := { obj_id := 3, quantity := 10, comp := "spentuox" },
                    exclusive := true }],
               constraints := [30] }]
    ∧ ∀ ports s1, GetMatlBids spentReactor
          [("waste", [wasteRequest "waste" 15, wasteRequest "waste" 100])] = .ok (ports, s1) →
        ∀ port ∈ ports,
          ∃ c, c ∈ spentReactor.fuel_outcommods
            ∧ commodReqs [("waste", [wasteRequest "waste" 15, wasteRequest "waste" 100])] c ≠ []
            ∧ spentOf spentReactor c ≠ []
            ∧ port.bids
                = (commodReqs [("waste", [wasteRequest "waste" 15, wasteRequest "waste" 100])]
                    c).flatMap (fun req =>
                    (bidMats req.target.quantity (spentOf spentReactor c) 0).map
                      (fun m => { request := req, offer := m, exclusive := true })) :=
  ⟨by decide!,
    (C8_greedy_bids spentReactor
      [("waste", [wasteRequest "waste" 15, wasteRequest "waste" 100])] (Or.inl rfl)).1⟩

/-- C9: when the cached tag set is empty or is the set built from
`fuel_outcommods`, `GetMatlBids` returns exactly one portfolio for each
distinct tag of `fuel_outcommods` that has at least one request and at least
one spent batch whose recovered output tag is that tag, and none for any other
tag; the portfolio of a tag carries the single capacity constraint
`totalQty (spentOf s tag)`, the sum over all available batches of the tag.
The call returns when every spent batch has a recoverable output tag and the
spent pool is within its capacity. -/
theorem C9_one_portfolio_per_tag (s : BulkReactor) (cr : List (String × List Request))
    (hU : s.uniq_outcommods_ = [] ∨ s.uniq_outcommods_ = tagSet s.fuel_outcommods) :
    (∀ ports s1, GetMatlBids s cr = .ok (ports, s1) →
        ports = ((tagSet s.fuel_outcommods).filter
            (fun c => decide (commodReqs cr c ≠ [] ∧ spentOf s c ≠ []))).map
          (fun c => { bids := bidsFor (spentOf s c) (commodReqs cr c),
                      constraints := [totalQty (spentOf s c)] }))
    ∧ (tagSet s.fuel_outcommods).Nodup
    ∧ (∀ c, c ∈ tagSet s.fuel_outcommods ↔ c ∈ s.fuel_outcommods)
    ∧ ((∀ m ∈ s.spent.rs, ∃ c, outcommodOf s m = some c) →
        s.spent.quantity ≤ s.spent.capacity →
        ∃ ports s1, GetMatlBids s cr = .ok (ports, s1))
    ∧ (∀ ports s1, GetMatlBids s cr = .ok (ports, s1) →
        s1.uniq_outcommods_ = tagSet s1.fuel_outcommods) :=
  ⟨fun ports s1 h => GetMatlBids_spec s cr hU ports s1 h, tagSet_nodup _, tagSet_mem _,
    GetMatlBids_ok s cr, fun ports s1 h => GetMatlBids_cache s cr hU ports s1 h⟩

theorem C9_one_portfolio_per_tag_witness :
    (GetMatlBids spentReactor
        [("waste", [wasteRequest "waste" 15]), ("other", [wasteRequest "other" 5])]).map
        (fun r => r.1.map (fun port => port.constraints))
      = .ok [[30]]
    ∧ (GetMatlBids spentReactor [("other", [wasteRequest "other" 5])]).map (fun r => r.1)
      = .ok []
    ∧ (tagSet spentReactor.fuel_outcommods).Nodup :=
  ⟨by decide!, by decide!,
    (C9_one_portfolio_per_tag spentReactor [] (Or.inl rfl)).2.1⟩

/-! ## The idealised run with ample supply -/

theorem mapIndex_zero (idx : List (Nat × Nat)) (k : Nat) (h : ∀ p ∈ idx, p.2 = 0) :
    (mapIndex idx k).1 = 0 ∧ ∀ p ∈ (mapIndex idx k).2, p.2 = 0 := by
  unfold mapIndex
  cases hl : idx.lookup k with
  | none =>
    refine ⟨rfl, fun p hp => ?_⟩
    rcases List.mem_append.mp hp with hp | hp
    · exact h p hp
    · rw [List.mem_singleton.mp hp]
  | some v =>
    refine ⟨?_, h⟩
    have hmem : ∀ l : List (Nat × Nat), l.lookup k = some v → (k, v) ∈ l := by
      intro l
      induction l with
      | nil => intro hx; cases hx
      | cons a as ih =>
        intro hx
        obtain ⟨a1, a2⟩ := a
        by_cases hk : k = a1
        · subst hk
          simp [List.lookup] at hx
          subst hx
          exact List.mem_cons_self _ _
        · have : (k == a1) = false := by simpa using hk
          simp only [List.lookup, this] at hx
          exact List.mem_cons_of_mem _ (ih hx)
    exact h (k, v) (hmem idx hl)

theorem mapAssign_zero (idx : List (Nat × Nat)) (k : Nat) (h : ∀ p ∈ idx, p.2 = 0) :
    ∀ p ∈ mapAssign idx k 0, p.2 = 0 := by
  induction idx with
  | nil =>
    intro p hp
    simp only [mapAssign, List.mem_singleton] at hp
    rw [hp]
  | cons a as ih =>
    obtain ⟨a1, a2⟩ := a
    intro p hp
    simp only [mapAssign] at hp
    split at hp
    · rcases List.mem_cons.mp hp with hp | hp
      · rw [hp]
      · exact h p (List.mem_cons_of_mem _ hp)
    · rcases List.mem_cons.mp hp with hp | hp
      · rw [hp]; exact h (a1, a2) (List.mem_cons_self _ _)
      · exact ih (fun q hq => h q (List.mem_cons_of_mem _ hq)) p hp

theorem TickSchedule_none (s : BulkReactor) (h1 : s.pref_change_times = [])
    (h2 : s.recipe_change_times = []) : TickSchedule s = .ok s := by
  have e1 : updatePrefs s.time s.fuel_incommods s.pref_change_commods s.pref_change_values 0
      s.pref_change_times s.fuel_prefs = .ok s.fuel_prefs := by rw [h1]; rfl
  have e2 : updateRecipes s.time s.fuel_incommods s.recipe_change_commods s.recipe_change_in
      s.recipe_change_out 0 s.recipe_change_times (s.fuel_inrecipes, s.fuel_outrecipes)
      = .ok (s.fuel_inrecipes, s.fuel_outrecipes) := by rw [h2]; rfl
  unfold TickSchedule
  rw [e1, e2]

theorem TickLoad_none (s : BulkReactor) (hf : s.fresh.rs = [])
    (hc : s.core.quantity ≤ s.core.capacity) : TickLoad s = .ok s := by
  have hq : s.fresh.quantity = 0 := by simp [ResBuf.quantity, hf, totalQty]
  have hmin : min (s.core.capacity - s.core.quantity) s.fresh.quantity = 0 := by
    rw [hq]; exact min_eq_right (by linarith)
  unfold TickLoad
  split
  · simp only [Load, hmin, if_true]
  · rfl

theorem Tick_idle (s : BulkReactor) (hr : s.retired = false)
    (hne : s.cycle_step ≠ s.cycle_time)
    (hd : s.cycle_step ≥ s.cycle_time → s.discharged = true)
    (hf : s.fresh.rs = []) (hc : s.core.quantity ≤ s.core.capacity)
    (h1 : s.pref_change_times = []) (h2 : s.recipe_change_times = []) :
    Tick s = .ok s := by
  have hdis : TickDischarge s = .ok s := by
    unfold TickDischarge
    rw [if_neg]
    rintro ⟨ha, hb⟩
    rw [hd ha] at hb
    cases hb
  simp only [Tick, hr, Bool.false_eq_true, if_false, hne, hdis, TickLoad_none s hf hc,
    TickSchedule_none s h1 h2]

theorem Tick_discharging (s s1 : BulkReactor) (hr : s.retired = false)
    (he : s.cycle_step = s.cycle_time) (hd : s.discharged = false)
    (hdis : Discharge_Transmute (Record s "CYCLE_END" "") s.discharge_mass = .ok (true, s1))
    (hf : s1.fresh.rs = []) (hc : s1.core.quantity ≤ s1.core.capacity)
    (h1 : s1.pref_change_times = []) (h2 : s1.recipe_change_times = []) :
    Tick s = .ok { s1 with discharged := true } := by
  have hdis2 : TickDischarge (Record s "CYCLE_END" "") = .ok { s1 with discharged := true } := by
    unfold TickDischarge
    have hcond : (Record s "CYCLE_END" "").cycle_step ≥ (Record s "CYCLE_END" "").cycle_time
        ∧ (Record s "CYCLE_END" "").discharged = false := ⟨le_of_eq he.symm, hd⟩
    rw [if_pos hcond]
    have : (Record s "CYCLE_END" "").discharge_mass = s.discharge_mass := rfl
    rw [this, hdis]
  simp only [Tick, hr, Bool.false_eq_true, if_false, he, if_true, hdis2,
    TickLoad_none { s1 with discharged := true } hf hc,
    TickSchedule_none { s1 with discharged := true } h1 h2]

theorem Tock_plain (s : BulkReactor) (hr : s.retired = false) (hh : s.hybrid_ = false) :
    ∃ db1, Tock s = .ok { s with db := db1, discharged := (TockRollover s).discharged,
                                 cycle_step := (TockAdvance (TockRollover s)).cycle_step } := by
  obtain ⟨s1, h1⟩ := Tock_ok s (fun h => by rw [hh] at h; cases h)
  have e := Tock_frame s s1 hr h1
  refine ⟨s1.db, ?_⟩
  rw [h1, e]
  congr 1
  unfold TockAdvance TockRollover
  split <;> split <;> rfl

theorem Tock_phase (s : BulkReactor) (c r w : Nat) (hstep : s.cycle_step = w)
    (hct : s.cycle_time = c) (hrt : s.refuel_time = r)
    (hfull : s.core.quantity = s.core_mass) (hdis : s.discharged = decide (c ≤ w))
    (hwP : w ≤ c + r) (hc : 1 ≤ c) :
    (TockRollover s).discharged = decide (c < (if w = c + r then 1 else w + 1))
      ∧ (TockAdvance (TockRollover s)).cycle_step
          = ((if w = c + r then 1 else w + 1 : Nat) : Int) := by
  by_cases hwe : w = c + r
  · have hro : rollover s := by
      refine ⟨?_, hfull, ?_⟩
      · rw [hstep, hct, hrt]; exact_mod_cast le_of_eq hwe.symm
      · rw [hdis]; exact decide_eq_true (by omega)
    rw [TockRollover_eq, if_pos hro, if_pos hwe]
    constructor
    · show false = decide (c < 1)
      exact (decide_eq_false (by omega)).symm
    · unfold TockAdvance
      rw [if_pos (Or.inr hfull)]
      rfl
  · have hro : ¬ rollover s := by
      rintro ⟨h1, _, _⟩
      rw [hstep, hct, hrt] at h1
      have : c + r ≤ w := by exact_mod_cast h1
      omega
    rw [TockRollover_eq, if_neg hro, if_neg hwe]
    constructor
    · rw [hdis]
      by_cases hcw : c ≤ w
      · rw [decide_eq_true hcw, decide_eq_true (show c < w + 1 by omega)]
      · rw [decide_eq_false hcw, decide_eq_false (show ¬ c < w + 1 by omega)]
    · unfold TockAdvance
      split
      · show s.cycle_step + 1 = _
        rw [hstep]; push_cast; rfl
      · rename_i hn
        exact absurd (Or.inr hfull) hn

theorem run_tick_idle (c r : Nat) (M d cap : ℚ) (ic ir orr : String) (w : Nat) (dis : Bool)
    (q sq : ℚ) (s : BulkReactor) (inv : RunFacts c r M d cap ic ir orr w dis q sq s)
    (hne : w ≠ c) (hdis : c ≤ w → dis = true) (hq : q ≤ M) :
    Tick s = .ok s := by
  refine Tick_idle s inv.h_retired ?_ ?_ inv.h_fresh ?_ inv.h_pref_times inv.h_recipe_times
  · rw [inv.h_step, inv.h_cycle_time]; exact_mod_cast hne
  · intro h
    rw [inv.h_step, inv.h_cycle_time] at h
    have : c ≤ w := by exact_mod_cast h
    rw [inv.h_discharged]; exact hdis this
  · rw [inv.h_core, inv.h_core_cap]; exact hq

theorem run_tick_discharge (c r : Nat) (M d cap : ℚ) (ic ir orr : String) (sq : ℚ)
    (s : BulkReactor) (inv : RunFacts c r M d cap ic ir orr c false M sq s)
    (hd : 0 < d) (hdM : d ≤ M) (hroom : sq + d ≤ cap) :
    ∃ s1, Tick s = .ok s1 ∧ RunFacts c r M d cap ic ir orr c true (M - d) (sq + d) s1 := by
  obtain ⟨m, core1, hpop, hq, hq1, hcap1⟩ :=
    Pop_ok (Record s "CYCLE_END" "").core d (Record s "CYCLE_END" "").next_obj_id
      (le_of_lt hd) (by show d ≤ s.core.quantity; rw [inv.h_core]; exact hdM)
  have hz := mapIndex_zero s.res_indexes m.obj_id inv.h_idx
  have hrec : (Record s "CYCLE_END" "").fuel_outrecipes[
      (mapIndex (Record s "CYCLE_END" "").res_indexes m.obj_id).1]? = some orr := by
    show s.fuel_outrecipes[(mapIndex s.res_indexes m.obj_id).1]? = some orr
    rw [hz.1, inv.h_outrecipes]; rfl
  have hs : d ≤ (Record s "CYCLE_END" "").spent.capacity
      - (Record s "CYCLE_END" "").spent.quantity := by
    show d ≤ s.spent.capacity - s.spent.quantity
    rw [inv.h_spent_cap, inv.h_spent]; linarith
  have hD := Discharge_Transmute_eq (Record s "CYCLE_END" "") d m core1 orr hs hpop hrec hq
  have hq1' : core1.quantity = M - d := by
    rw [hq1]; show s.core.quantity - d = M - d; rw [inv.h_core]
  have hcap1' : core1.capacity = M := by
    rw [hcap1]; exact inv.h_core_cap
  have hstep : s.cycle_step = s.cycle_time := by rw [inv.h_step, inv.h_cycle_time]
  have hfit : core1.quantity ≤ core1.capacity := by rw [hq1', hcap1']; linarith
  rw [← inv.h_discharge_mass] at hD
  refine ⟨_, Tick_discharging s _ inv.h_retired hstep inv.h_discharged hD inv.h_fresh hfit
    inv.h_pref_times inv.h_recipe_times, ?_⟩
  exact
    { h_core_mass := inv.h_core_mass
      h_discharge_mass := inv.h_discharge_mass
      h_cycle_time := inv.h_cycle_time
      h_refuel_time := inv.h_refuel_time
      h_retired := inv.h_retired
      h_hybrid := inv.h_hybrid
      h_incommods := inv.h_incommods
      h_inrecipes := inv.h_inrecipes
      h_outrecipes := inv.h_outrecipes
      h_prefs := inv.h_prefs
      h_pref_times := inv.h_pref_times
      h_recipe_times := inv.h_recipe_times
      h_core_cap := hcap1'
      h_fresh := inv.h_fresh
      h_spent_cap := inv.h_spent_cap
      h_idx := hz.2
      h_step := inv.h_step
      h_discharged := rfl
      h_core := hq1'
      h_spent := by
        show totalQty (s.spent.rs ++ [_]) = sq + d
        rw [totalQty_append]
        simp only [totalQty, add_zero]
        rw [hq]
        have := inv.h_spent
        simp only [ResBuf.quantity] at this
        rw [this] }


theorem run_order (c r : Nat) (M d cap : ℚ) (ic ir orr : String) (w : Nat) (dis : Bool)
    (q sq : ℚ) (s : BulkReactor) (inv : RunFacts c r M d cap ic ir orr w dis q sq s)
    (hq : q < M) :
    GetMatlRequests s
      = .ok ([{ requests :=
                  [{ target := { obj_id := s.next_obj_id, quantity := M - q,
                                 comp := GetRecipe ir },
                     commodity := ic, preference := 1, exclusive := true }],
                mutual_reqs :=
                  [[{ target := { obj_id := s.next_obj_id, quantity := M - q,
                                  comp := GetRecipe ir },
                      commodity := ic, preference := 1, exclusive := true }]] }],
             { s with next_obj_id := s.next_obj_id + 1,
                      db := s.db ++ [Datum.TimeSeries ("demand" ++ ic) s.time (M - q)] }) := by
  have hom : ¬ (M - q = 0) := by
    intro h; linarith
  unfold GetMatlRequests
  rw [inv.h_core_mass, inv.h_core, if_neg hom, inv.h_retired, inv.h_prefs, inv.h_inrecipes,
    inv.h_incommods]
  rfl

theorem run_deliver (c r : Nat) (M d cap : ℚ) (ic ir orr : String) (w : Nat) (dis : Bool)
    (q sq : ℚ) (s : BulkReactor) (inv : RunFacts c r M d cap ic ir orr w dis q sq s)
    (hq : q < M) (comp : String) (pref : ℚ) (groups : List (List Request)) (id1 : Nat) :
    ∃ s1, deliver s
        [{ requests := [{ target := { obj_id := id1, quantity := M - q, comp := comp },
                          commodity := ic, preference := pref, exclusive := true }],
           mutual_reqs := groups }] = .ok (true, s1)
      ∧ RunFacts c r M d cap ic ir orr w dis M sq s1 := by
  have hfit : s.core.quantity
      + ({ obj_id := s.next_obj_id, quantity := M - q, comp := comp } : Material).quantity
      ≤ s.core.capacity := by
    show s.core.quantity + (M - q) ≤ s.core.capacity
    rw [inv.h_core, inv.h_core_cap]; linarith
  have hlt : s.core.quantity < s.core_mass := by
    rw [inv.h_core, inv.h_core_mass]; exact hq
  have hfind : findStream ic s.fuel_incommods = some 0 := by
    rw [inv.h_incommods]; simp [findStream]
  refine ⟨{ s with next_obj_id := s.next_obj_id + 1,
                    res_indexes := mapAssign s.res_indexes s.next_obj_id 0,
                    core := { s.core with
                      rs := s.core.rs
                        ++ [{ obj_id := s.next_obj_id, quantity := M - q, comp := comp }] } },
    ?_, ?_⟩
  · simp only [deliver, AcceptMatlTrades, index_res, hfind, hlt, if_true,
      Push_ok s.core _ hfit]
  · exact
      { h_core_mass := inv.h_core_mass
        h_discharge_mass := inv.h_discharge_mass
        h_cycle_time := inv.h_cycle_time
        h_refuel_time := inv.h_refuel_time
        h_retired := inv.h_retired
        h_hybrid := inv.h_hybrid
        h_incommods := inv.h_incommods
        h_inrecipes := inv.h_inrecipes
        h_outrecipes := inv.h_outrecipes
        h_prefs := inv.h_prefs
        h_pref_times := inv.h_pref_times
        h_recipe_times := inv.h_recipe_times
        h_core_cap := inv.h_core_cap
        h_fresh := inv.h_fresh
        h_spent_cap := inv.h_spent_cap
        h_idx := mapAssign_zero _ _ inv.h_idx
        h_step := inv.h_step
        h_discharged := inv.h_discharged
        h_core := by
          show totalQty (s.core.rs ++ [_]) = M
          rw [totalQty_append]
          simp only [totalQty, add_zero]
          have := inv.h_core
          simp only [ResBuf.quantity] at this
          rw [this]; ring
        h_spent := inv.h_spent }

theorem run_facts_log (c r : Nat) (M d cap : ℚ) (ic ir orr : String) (w : Nat) (dis : Bool)
    (q sq : ℚ) (s : BulkReactor) (inv : RunFacts c r M d cap ic ir orr w dis q sq s)
    (n : Nat) (db1 : List Datum) (t : Int) :
    RunFacts c r M d cap ic ir orr w dis q sq
      { s with next_obj_id := n, db := db1, time := t } :=
  { h_core_mass := inv.h_core_mass
    h_discharge_mass := inv.h_discharge_mass
    h_cycle_time := inv.h_cycle_time
    h_refuel_time := inv.h_refuel_time
    h_retired := inv.h_retired
    h_hybrid := inv.h_hybrid
    h_incommods := inv.h_incommods
    h_inrecipes := inv.h_inrecipes
    h_outrecipes := inv.h_outrecipes
    h_prefs := inv.h_prefs
    h_pref_times := inv.h_pref_times
    h_recipe_times := inv.h_recipe_times
    h_core_cap := inv.h_core_cap
    h_fresh := inv.h_fresh
    h_spent_cap := inv.h_spent_cap
    h_idx := inv.h_idx
    h_step := inv.h_step
    h_discharged := inv.h_discharged
    h_core := inv.h_core
    h_spent := inv.h_spent }

theorem run_tock (c r : Nat) (M d cap : ℚ) (ic ir orr : String) (w : Nat) (sq : ℚ)
    (s : BulkReactor) (inv : RunFacts c r M d cap ic ir orr w (decide (c ≤ w)) M sq s)
    (hwP : w ≤ c + r) (hc : 1 ≤ c) :
    ∃ s1, Tock s = .ok s1
      ∧ RunFacts c r M d cap ic ir orr (if w = c + r then 1 else w + 1)
          (decide (c < (if w = c + r then 1 else w + 1))) M sq s1 := by
  obtain ⟨db1, hK⟩ := Tock_plain s inv.h_retired inv.h_hybrid
  obtain ⟨p1, p2⟩ := Tock_phase s c r w inv.h_step inv.h_cycle_time inv.h_refuel_time
    (by rw [inv.h_core, inv.h_core_mass]) inv.h_discharged hwP hc
  refine ⟨_, hK, ?_⟩
  exact
    { h_core_mass := inv.h_core_mass
      h_discharge_mass := inv.h_discharge_mass
      h_cycle_time := inv.h_cycle_time
      h_refuel_time := inv.h_refuel_time
      h_retired := inv.h_retired
      h_hybrid := inv.h_hybrid
      h_incommods := inv.h_incommods
      h_inrecipes := inv.h_inrecipes
      h_outrecipes := inv.h_outrecipes
      h_prefs := inv.h_prefs
      h_pref_times := inv.h_pref_times
      h_recipe_times := inv.h_recipe_times
      h_core_cap := inv.h_core_cap
      h_fresh := inv.h_fresh
      h_spent_cap := inv.h_spent_cap
      h_idx := inv.h_idx
      h_step := p2
      h_discharged := p1
      h_core := inv.h_core
      h_spent := inv.h_spent }

theorem run_rest_order (c r : Nat) (M d cap : ℚ) (ic ir orr : String) (w : Nat) (q sq : ℚ)
    (s0 s : BulkReactor) (hT : Tick s0 = .ok s)
    (inv : RunFacts c r M d cap ic ir orr w (decide (c ≤ w)) q sq s)
    (hq : q < M) (hwP : w ≤ c + r) (hc : 1 ≤ c) :
    ∃ s1, supplyStep s0 = .ok (true, s1)
      ∧ RunFacts c r M d cap ic ir orr (if w = c + r then 1 else w + 1)
          (decide (c < (if w = c + r then 1 else w + 1))) M sq s1 := by
  have hG := run_order c r M d cap ic ir orr w _ q sq s inv hq
  have inv2 := run_facts_log c r M d cap ic ir orr w _ q sq s inv (s.next_obj_id + 1)
    (s.db ++ [Datum.TimeSeries ("demand" ++ ic) s.time (M - q)]) s.time
  obtain ⟨s3, hD, inv3⟩ := run_deliver c r M d cap ic ir orr w _ q sq _ inv2 hq
    (GetRecipe ir) 1
    [[{ target := { obj_id := s.next_obj_id, quantity := M - q, comp := GetRecipe ir },
        commodity := ic, preference := 1, exclusive := true }]] s.next_obj_id
  obtain ⟨s4, hK, inv4⟩ := run_tock c r M d cap ic ir orr w sq s3 inv3 hwP hc
  refine ⟨{ s4 with time := s4.time + 1 }, ?_, ?_⟩
  · simp only [supplyStep, hT, hG]
    rw [hD]
    simp only [hK]
  · exact run_facts_log c r M d cap ic ir orr _ _ M sq s4 inv4 s4.next_obj_id s4.db
      (s4.time + 1)

theorem run_rest_full (c r : Nat) (M d cap : ℚ) (ic ir orr : String) (w : Nat) (sq : ℚ)
    (s : BulkReactor) (hT : Tick s = .ok s)
    (inv : RunFacts c r M d cap ic ir orr w (decide (c ≤ w)) M sq s)
    (hwP : w ≤ c + r) (hc : 1 ≤ c) :
    ∃ s1, supplyStep s = .ok (false, s1)
      ∧ RunFacts c r M d cap ic ir orr (if w = c + r then 1 else w + 1)
          (decide (c < (if w = c + r then 1 else w + 1))) M sq s1 := by
  have hG : GetMatlRequests s = .ok ([], s) := by
    simp [GetMatlRequests, inv.h_core_mass, inv.h_core]
  obtain ⟨s4, hK, inv4⟩ := run_tock c r M d cap ic ir orr w sq s inv hwP hc
  refine ⟨{ s4 with time := s4.time + 1 }, ?_, ?_⟩
  · simp only [supplyStep, hT, hG, deliver, hK]
  · exact run_facts_log c r M d cap ic ir orr _ _ M sq s4 inv4 s4.next_obj_id s4.db
      (s4.time + 1)

theorem supplyStep_first (c r : Nat) (M d cap : ℚ) (ic oc ir orr : String)
    (hc : 1 ≤ c) (hd : 0 < d) (hdM : d ≤ M) :
    ∃ s1, supplyStep (deployed M d cap c r ic oc ir orr) = .ok (true, s1)
      ∧ RunFacts c r M d cap ic ir orr 1 (decide (c < 1)) M 0 s1 := by
  have inv0 : RunFacts c r M d cap ic ir orr 0 (decide (c ≤ 0)) 0 0
      (deployed M d cap c r ic oc ir orr) :=
    { h_core_mass := rfl
      h_discharge_mass := rfl
      h_cycle_time := rfl
      h_refuel_time := rfl
      h_retired := rfl
      h_hybrid := rfl
      h_incommods := rfl
      h_inrecipes := rfl
      h_outrecipes := rfl
      h_prefs := rfl
      h_pref_times := rfl
      h_recipe_times := rfl
      h_core_cap := rfl
      h_fresh := rfl
      h_spent_cap := rfl
      h_idx := fun p hp => absurd hp (List.not_mem_nil p)
      h_step := rfl
      h_discharged := (decide_eq_false (by omega)).symm
      h_core := rfl
      h_spent := rfl }
  have hT : Tick (deployed M d cap c r ic oc ir orr) = .ok (deployed M d cap c r ic oc ir orr) :=
    run_tick_idle c r M d cap ic ir orr 0 _ 0 0 _ inv0 (by omega) (fun h => by omega)
      (by linarith)
  obtain ⟨s1, h1, inv1⟩ := run_rest_order c r M d cap ic ir orr 0 0 0 _ _ hT inv0
    (by linarith) (by omega) hc
  have e : (if 0 = c + r then 1 else 0 + 1) = 1 := by split <;> rfl
  rw [e] at inv1
  exact ⟨s1, h1, inv1⟩

theorem supplyStep_spec (c r : Nat) (M d cap : ℚ) (ic ir orr : String) (w n : Nat)
    (s : BulkReactor)
    (inv : RunFacts c r M d cap ic ir orr w (decide (c < w)) M ((n : ℚ) * d) s)
    (hc : 1 ≤ c) (hd : 0 < d) (hdM : d ≤ M) (hwP : w ≤ c + r)
    (hroom : w = c → ((n : ℚ) + 1) * d ≤ cap) :
    ∃ s1, supplyStep s = .ok (decide (w = c), s1)
      ∧ RunFacts c r M d cap ic ir orr (if w = c + r then 1 else w + 1)
          (decide (c < (if w = c + r then 1 else w + 1))) M
          (((n + (if w = c then 1 else 0) : Nat) : ℚ) * d) s1 := by
  by_cases hwc : w = c
  · subst hwc
    have e0 : decide (w < w) = false := decide_eq_false (lt_irrefl w)
    rw [e0] at inv
    obtain ⟨s1, hT, inv1⟩ := run_tick_discharge w r M d cap ic ir orr _ s inv hd hdM
      (by have := hroom rfl; linarith)
    have e1 : true = decide (w ≤ w) := (decide_eq_true (le_refl w)).symm
    rw [e1] at inv1
    obtain ⟨s2, h2, inv2⟩ := run_rest_order w r M d cap ic ir orr w _ _ s s1 hT inv1
      (by linarith) hwP hc
    refine ⟨s2, ?_, ?_⟩
    · rw [h2, decide_eq_true (rfl : w = w)]
    · have e2 : (((n + (if w = w then 1 else 0) : Nat) : ℚ) * d) = (n : ℚ) * d + d := by
        simp only [if_true]; push_cast; ring
      rw [e2]; exact inv2
  · have e0 : decide (c < w) = decide (c ≤ w) := by
      by_cases hcw : c < w
      · rw [decide_eq_true hcw, decide_eq_true (show c ≤ w by omega)]
      · rw [decide_eq_false hcw, decide_eq_false (show ¬ c ≤ w by omega)]
    rw [e0] at inv
    have hT : Tick s = .ok s :=
      run_tick_idle c r M d cap ic ir orr w _ M _ s inv hwc
        (fun h => decide_eq_true h) (le_refl M)
    obtain ⟨s2, h2, inv2⟩ := run_rest_full c r M d cap ic ir orr w _ s hT inv hwP hc
    refine ⟨s2, ?_, ?_⟩
    · rw [h2, decide_eq_false hwc]
    · have e2 : (((n + (if w = c then 1 else 0) : Nat) : ℚ) * d) = (n : ℚ) * d := by
        simp only [if_neg hwc, add_zero]
      rw [e2]; exact inv2

theorem phase_unique (P k k' w c : Nat) (h : k * P + w = c + k' * P) (hw1 : 1 ≤ w)
    (hwP : w ≤ P) (hc1 : 1 ≤ c) (hcP : c ≤ P) : w = c := by
  rcases Nat.lt_trichotomy k k' with hlt | heq | hgt
  · have h1 : (k + 1) * P ≤ k' * P := Nat.mul_le_mul_right P hlt
    rw [Nat.add_mul, Nat.one_mul] at h1
    generalize k * P = a at h h1
    generalize k' * P = b at h h1
    omega
  · subst heq
    generalize k * P = a at h
    omega
  · have h1 : (k' + 1) * P ≤ k * P := Nat.mul_le_mul_right P hgt
    rw [Nat.add_mul, Nat.one_mul] at h1
    generalize k * P = a at h h1
    generalize k' * P = b at h h1
    omega

theorem supplyRun_spec (c r : Nat) (M d cap : ℚ) (ic oc ir orr : String)
    (hc : 1 ≤ c) (hd : 0 < d) (hdM : d ≤ M) (T : Nat)
    (hroom : ∀ k, c + k * (c + r) ≤ T → ((k : ℚ) + 1) * d ≤ cap) :
    ∀ t, t < T → ∃ k w s, t + 1 = k * (c + r) + w ∧ 1 ≤ w ∧ w ≤ c + r
      ∧ supplyRun (t + 1) (deployed M d cap c r ic oc ir orr) = .ok s
      ∧ RunFacts c r M d cap ic ir orr w (decide (c < w)) M
          (((k + (if c < w then 1 else 0) : Nat) : ℚ) * d) s := by
  intro t
  induction t with
  | zero =>
    intro _
    obtain ⟨s1, h1, inv1⟩ := supplyStep_first c r M d cap ic oc ir orr hc hd hdM
    refine ⟨0, 1, s1, by omega, le_refl 1, by omega, ?_, ?_⟩
    · simp only [supplyRun, h1]
    · have e : (((0 + (if c < 1 then 1 else 0) : Nat) : ℚ) * d) = 0 := by
        rw [if_neg (by omega)]; simp
      rw [e]; exact inv1
  | succ t ih =>
    intro hlt
    obtain ⟨k, w, s, ht, hw1, hwP, hrun, inv⟩ := ih (by omega)
    obtain ⟨s1, hstep, inv1⟩ := supplyStep_spec c r M d cap ic ir orr w
      (k + (if c < w then 1 else 0)) s inv hc hd hdM hwP (by
        intro hwc
        subst hwc
        have := hroom k (by rw [Nat.add_comm]; omega)
        rw [if_neg (lt_irrefl w)]
        simpa using this)
    have hrun1 : supplyRun (t + 1 + 1) (deployed M d cap c r ic oc ir orr) = .ok s1 := by
      simp only [supplyRun] at hrun ⊢
      rw [hrun]
      simp only [hstep]
    by_cases hwe : w = c + r
    · rw [if_pos hwe] at inv1
      refine ⟨k + 1, 1, s1, ?_, le_refl 1, by omega, hrun1, ?_⟩
      · rw [Nat.add_mul, Nat.one_mul]; omega
      · have e : k + (if c < w then 1 else 0) + (if w = c then 1 else 0)
            = k + 1 + (if c < 1 then 1 else 0) := by
          rw [if_neg (show ¬ c < 1 by omega)]
          by_cases hwc : w = c
          · rw [if_pos hwc, if_neg (by omega)]
          · rw [if_neg hwc, if_pos (by omega)]
        rw [← e]; exact inv1
    · rw [if_neg hwe] at inv1
      refine ⟨k, w + 1, s1, by omega, by omega, by omega, hrun1, ?_⟩
      have e : k + (if c < w then 1 else 0) + (if w = c then 1 else 0)
          = k + (if c < w + 1 then 1 else 0) := by
        by_cases hwc : w = c
        · rw [if_pos hwc, if_neg (by omega), if_pos (by omega)]
        · rw [if_neg hwc]
          by_cases hcw : c < w
          · rw [if_pos hcw, if_pos (by omega)]
          · rw [if_neg hcw, if_neg (by omega)]
      rw [← e]; exact inv1

/-- C10: in the idealised run with ample supply from the deployed state with
one input stream (empty pools, `cycle_step` 0, `discharged` false, core
capacity `core_mass`, `cycle_time = c >= 1`, `refuel_time = r >= 0`,
`0 < discharge_mass <= core_mass`, never retired), in which each step performs
`Tick`, fills the request of `GetMatlRequests` at once with one batch of
exactly `order_mass`, and then performs `Tock`, step `t` is reached without an
exception and a batch is delivered at step `t` if and only if `t = 0` or
`t = c + k * (c + r)` for some `k`.  The spent pool is never exhausted up to
step `t`: at every refuelling step `c + k * (c + r) <= t` it has room for the
`k + 1` batches discharged so far. -/
theorem C10_delivery_schedule (c r : Nat) (M d cap : ℚ) (ic oc ir orr : String)
    (hc : 1 ≤ c) (hd : 0 < d) (hdM : d ≤ M) (t : Nat)
    (hroom : ∀ k, c + k * (c + r) ≤ t → ((k : ℚ) + 1) * d ≤ cap) :
    ∃ b, deliveryAt t (deployed M d cap c r ic oc ir orr) = .ok b
      ∧ (b = true ↔ (t = 0 ∨ ∃ k, t = c + k * (c + r))) := by
  cases t with
  | zero =>
    obtain ⟨s1, h1, _⟩ := supplyStep_first c r M d cap ic oc ir orr hc hd hdM
    refine ⟨true, ?_, ?_⟩
    · simp only [deliveryAt, supplyRun, h1]
    · simp
  | succ t =>
    obtain ⟨k, w, s, ht, hw1, hwP, hrun, inv⟩ :=
      supplyRun_spec c r M d cap ic oc ir orr hc hd hdM (t + 1) hroom t (by omega)
    obtain ⟨s1, hstep, _⟩ := supplyStep_spec c r M d cap ic ir orr w
      (k + (if c < w then 1 else 0)) s inv hc hd hdM hwP (by
        intro hwc
        subst hwc
        have := hroom k (by rw [Nat.add_comm]; omega)
        rw [if_neg (lt_irrefl w)]
        simpa using this)
    refine ⟨decide (w = c), ?_, ?_⟩
    · simp only [deliveryAt, hrun, hstep]
    · rw [decide_eq_true_iff]
      constructor
      · intro hwc
        right
        exact ⟨k, by rw [ht, hwc, Nat.add_comm]⟩
      · rintro (h0 | ⟨k', hk'⟩)
        · omega
        · exact phase_unique (c + r) k k' w c (by rw [← ht, hk']) hw1 hwP hc (by omega)

theorem C10_delivery_schedule_witness :
    (∃ b, deliveryAt 4 (deployed 300 10 1000 ((4 : Nat) : Int) ((3 : Nat) : Int)
          "uox" "waste" "uox" "spentuox") = .ok b
        ∧ (b = true ↔ (4 = 0 ∨ ∃ k, 4 = 4 + k * (4 + 3))))
    ∧ (List.range 7).filter (fun t => decide (deliveryAt t
          (deployed 300 10 1000 4 3 "uox" "waste" "uox" "spentuox") = .ok true)) = [0, 4]
    ∧ deliveriesWithin 49 (deployed 300 10 1000 4 3 "uox" "waste" "uox" "spentuox") = 8
    ∧ deliveriesWithin 50 (deployed 300 10 1000 1 0 "uox" "waste" "uox" "spentuox") = 50 :=
  ⟨C10_delivery_schedule 4 3 300 10 1000 "uox" "waste" "uox" "spentuox" (by decide)
      (by decide!) (by decide!) 4
      (fun k hk => by
        have hk0 : k = 0 := by omega
        subst hk0
        norm_num),
    by decide!, by decide!, by decide!⟩

/-! ## Retired Tick -/

theorem TickRetired_frame (s s1 : BulkReactor) (h : TickRetired s = .ok s1) :
    s1 = { s with core := s1.core, spent := s1.spent, res_indexes := s1.res_indexes,
                  next_obj_id := s1.next_obj_id, db := s1.db,
                  decommissioned := s1.decommissioned } := by
  unfold TickRetired at h
  split at h
  · cases h
  · rename_i s2 hd
    have e2 : s2 = { s with core := s2.core, spent := s2.spent, res_indexes := s2.res_indexes,
                            next_obj_id := s2.next_obj_id, db := s2.db } := by
      unfold TickRetiredDischarge at hd
      split at hd
      · split at hd
        · split at hd
          · cases hd
          · rename_i hq
            cases hd
            have e := Discharge_Transmute_frame _ _ _ _ hq
            rw [e]; rfl
        · split at hd
          · cases hd
          · rename_i hq
            cases hd
            have e := Discharge_Transmute2_frame _ _ _ _ _ hq
            rw [e]; rfl
      · cases hd; rfl
    split at h
    · cases h; rw [e2]; rfl
    · cases h; rw [e2]

theorem TickRetired_off_step (s : BulkReactor) (ht : s.time ≠ s.exit_time + 1) :
    TickRetired s
      = .ok (if CheckDecommissionCondition (Record s "RETIRED" "")
             then Decommission (Record s "RETIRED" "") else Record s "RETIRED" "") := by
  have e : TickRetiredDischarge (Record s "RETIRED" "") = .ok (Record s "RETIRED" "") := by
    unfold TickRetiredDischarge
    rw [if_neg]
    exact ht
  unfold TickRetired
  rw [e]
  simp only
  split <;> rfl

/-- C13: for a retired facility `Tick` leaves `cycle_step`, `discharged`,
`fuel_prefs`, `fuel_inrecipes` and `fuel_outrecipes` as they were, and the
fresh pool too; when the current time is not `exit_time + 1` it returns and
leaves the core and spent pools unchanged, recording only the retirement
event and, when both pools hold no batch, the decommission.  The end-of-life
discharge runs exactly when the time equals `exit_time + 1`: `Tick` is then
the discharge (of everything, or of the core split in halves) followed by the
decommission check. -/
theorem C13_retired_tick (s : BulkReactor) (hr : s.retired = true) :
    (∀ s1, Tick s = .ok s1 →
      s1.cycle_step = s.cycle_step ∧ s1.discharged = s.discharged
      ∧ s1.fuel_prefs = s.fuel_prefs ∧ s1.fuel_inrecipes = s.fuel_inrecipes
      ∧ s1.fuel_outrecipes = s.fuel_outrecipes ∧ s1.fresh = s.fresh
      ∧ (s.time ≠ s.exit_time + 1 → s1.core = s.core ∧ s1.spent = s.spent
          ∧ s1.res_indexes = s.res_indexes))
    ∧ (s.time ≠ s.exit_time + 1 → ∃ s1, Tick s = .ok s1)
    ∧ (s.time = s.exit_time + 1 → ∀ s1, Tick s = .ok s1 →
        ∃ s2, (if s.decom_transmute_all = true then
                (Discharge_Transmute (Record s "RETIRED" "") s.core.quantity).map (·.2)
               else
                (Discharge_Transmute2 (Record s "RETIRED" "") s.core.quantity
                  (s.core.quantity / 2)).map (·.2)) = .ok s2
          ∧ s1 = if CheckDecommissionCondition s2 then Decommission s2 else s2) := by
  have hT : Tick s = TickRetired s := by simp [Tick, hr]
  refine ⟨?_, ?_, ?_⟩
  · intro s1 h
    rw [hT] at h
    have e := TickRetired_frame s s1 h
    refine ⟨by rw [e], by rw [e], by rw [e], by rw [e], by rw [e], by rw [e], ?_⟩
    intro ht
    rw [TickRetired_off_step s ht] at h
    cases h
    split <;> exact ⟨rfl, rfl, rfl⟩
  · intro ht
    rw [hT, TickRetired_off_step s ht]
    exact ⟨_, rfl⟩
  · intro ht s1 h
    rw [hT] at h
    unfold TickRetired at h
    split at h
    · cases h
    · rename_i s2 hd
      refine ⟨s2, ?_, ?_⟩
      · unfold TickRetiredDischarge at hd
        have ht' : (Record s "RETIRED" "").time = (Record s "RETIRED" "").exit_time + 1 := ht
        rw [if_pos ht'] at hd
        have hda : (Record s "RETIRED" "").decom_transmute_all = s.decom_transmute_all := rfl
        have hcq : (Record s "RETIRED" "").core.quantity = s.core.quantity := rfl
        rw [hda, hcq] at hd
        split
        · rename_i hall
          rw [if_pos hall] at hd
          split at hd
          · cases hd
          · rename_i hq
            cases hd
            rw [hq]; rfl
        · rename_i hall
          rw [if_neg hall] at hd
          split at hd
          · cases hd
          · rename_i hq
            cases hd
            rw [hq]; rfl
      · split at h
        · rename_i hc
          cases h
          rw [if_pos hc]
        · rename_i hc
          cases h
          rw [if_neg hc]

theorem C13_retired_tick_witness :
    (Tick lateRetiredReactor).map (fun s1 => (s1.core, s1.spent, s1.cycle_step))
        = .ok (lateRetiredReactor.core, lateRetiredReactor.spent, 0)
    ∧ (Tick { retiredReactor with spent := { capacity := 1000, rs := [] } }).map
          (fun s1 => (s1.core.quantity, s1.spent.rs.map (fun m => (m.quantity, m.comp))))
        = .ok (0, [(150, "spentuox"), (150, "uox")])
    ∧ (lateRetiredReactor.time ≠ lateRetiredReactor.exit_time + 1 →
        ∃ s1, Tick lateRetiredReactor = .ok s1) :=
  ⟨by decide!, by decide!, (C13_retired_tick lateRetiredReactor (by decide)).2.1⟩

/-! ## End-of-life discharge -/

theorem Discharge_Transmute2_inv (s s1 : BulkReactor) (total tq : ℚ)
    (h : Discharge_Transmute2 s total tq = .ok (none, s1)) :
    ∃ m core1 m2 core2 recipe,
      s.core.Pop tq s.next_obj_id = .ok (m, core1)
      ∧ core1.Pop (total - tq) (s.next_obj_id + 1) = .ok (m2, core2)
      ∧ s.fuel_outrecipes[(mapIndex s.res_indexes m.obj_id).1]? = some recipe
      ∧ s1.core = core2
      ∧ s1.spent.rs = s.spent.rs ++ [{ m with comp := GetRecipe recipe }, m2]
      ∧ s1.spent.capacity = s.spent.capacity
      ∧ s1.spent.quantity ≤ s1.spent.capacity
      ∧ ¬ (s.spent.capacity - s.spent.quantity < s.discharge_mass) := by
  unfold Discharge_Transmute2 at h
  split at h
  · cases h
  · rename_i hg
    split at h
    · cases h
    · rename_i m core1 hpop1
      unfold fuel_outrecipe at h
      split at h
      · cases h
      · rename_i recipe s2 hf
        split at hf
        · cases hf
        · rename_i c hrec
          cases hf
          split at h
          · cases h
          · rename_i m2 core2 hpop2
            split at h
            · cases h
            · rename_i spent1 hpush1
              split at h
              · cases h
              · rename_i spent2 hpush2
                cases h
                obtain ⟨a1, a2, _, _⟩ := Push_quantity _ _ _ hpush1
                obtain ⟨b1, b2, _, b4⟩ := Push_quantity _ _ _ hpush2
                refine ⟨m, core1, m2, core2, recipe, hpop1, hpop2, hrec, rfl, ?_, ?_, b4, hg⟩
                · show spent2.rs = _
                  rw [b1, a1, List.append_assoc]
                  rfl
                · show spent2.capacity = _
                  rw [b2, a2]

theorem Discharge_Transmute2_eq (s : BulkReactor) (total tq : ℚ) (m m2 : Material)
    (core1 core2 : ResBuf) (recipe : String)
    (hg : s.discharge_mass ≤ s.spent.capacity - s.spent.quantity)
    (hpop1 : s.core.Pop tq s.next_obj_id = .ok (m, core1))
    (hpop2 : core1.Pop (total - tq) (s.next_obj_id + 1) = .ok (m2, core2))
    (hrec : s.fuel_outrecipes[(mapIndex s.res_indexes m.obj_id).1]? = some recipe)
    (hfit : s.spent.quantity + m.quantity + m2.quantity ≤ s.spent.capacity)
    (hm2 : 0 ≤ m2.quantity) :
    Discharge_Transmute2 s total tq
      = .ok (none, { s with core := core2, next_obj_id := s.next_obj_id + 1 + 1,
                            res_indexes := (mapIndex s.res_indexes m.obj_id).2,
                            spent := { s.spent with
                              rs := s.spent.rs ++ [{ m with comp := GetRecipe recipe }]
                                ++ [m2] } }) := by
  have hfit1 : s.spent.quantity + ({ m with comp := GetRecipe recipe } : Material).quantity
      ≤ s.spent.capacity := by
    show s.spent.quantity + m.quantity ≤ s.spent.capacity
    linarith
  have hfit2 : ({ s.spent with rs := s.spent.rs ++ [{ m with comp := GetRecipe recipe }] }
      : ResBuf).quantity + m2.quantity
      ≤ ({ s.spent with rs := s.spent.rs ++ [{ m with comp := GetRecipe recipe }] }
      : ResBuf).capacity := by
    show totalQty (s.spent.rs ++ [_]) + m2.quantity ≤ s.spent.capacity
    rw [totalQty_append]
    simp only [totalQty, add_zero]
    exact hfit
  simp only [Discharge_Transmute2, not_lt.mpr hg, if_false, hpop1, fuel_outrecipe, hrec, hpop2,
    Push_ok s.spent _ hfit1, Push_ok _ _ hfit2]

/-- C14: for `0 <= transmute_qty <= total_qty`, whenever the two-argument
`Discharge_Transmute(total_qty, transmute_qty)` performs the discharge (it
passes its capacity check and reaches the end of the function), `total_qty` is
at most the core quantity, the core quantity decreases by exactly `total_qty`,
and the spent pool gains, in this order, the first popped batch, of quantity
`transmute_qty`, carrying the output recipe of its recovered stream, and the
second popped batch, of quantity `total_qty - transmute_qty`, as the pool
handed it out; with `total_qty` equal to the core quantity the core is left
with quantity 0.  The discharge is performed whenever the spent pool has room
for `discharge_mass` and for `total_qty`, `total_qty` is at most the core
quantity and the recovered stream index lies within `fuel_outrecipes`. -/
theorem C14_split_discharge (s : BulkReactor) (total tq : ℚ) (h0 : 0 ≤ tq) (h1 : tq ≤ total) :
    (∀ s1, Discharge_Transmute2 s total tq = .ok (none, s1) →
      ∃ m core1 m2 core2 recipe,
        s.core.Pop tq s.next_obj_id = .ok (m, core1)
        ∧ core1.Pop (total - tq) (s.next_obj_id + 1) = .ok (m2, core2)
        ∧ s.fuel_outrecipes[(mapIndex s.res_indexes m.obj_id).1]? = some recipe
        ∧ m.quantity = tq ∧ m2.quantity = total - tq
        ∧ total ≤ s.core.quantity
        ∧ s1.core = core2
        ∧ s1.core.quantity = s.core.quantity - total
        ∧ s1.spent.rs = s.spent.rs ++ [{ m with comp := GetRecipe recipe }, m2]
        ∧ (total = s.core.quantity → s1.core.quantity = 0))
    ∧ (s.discharge_mass ≤ s.spent.capacity - s.spent.quantity →
        total ≤ s.spent.capacity - s.spent.quantity →
        total ≤ s.core.quantity →
        (∀ m core1, s.core.Pop tq s.next_obj_id = .ok (m, core1) →
          (mapIndex s.res_indexes m.obj_id).1 < s.fuel_outrecipes.length) →
        ∃ s1, Discharge_Transmute2 s total tq = .ok (none, s1)) := by
  constructor
  · intro s1 h
    obtain ⟨m, core1, m2, core2, recipe, hpop1, hpop2, hrec, hcore, hspent, _, _, _⟩ :=
      Discharge_Transmute2_inv s s1 total tq h
    obtain ⟨q1, q2, _⟩ := Pop_inv s.core tq s.next_obj_id m core1 hpop1 h0
    obtain ⟨r1, r2, _⟩ := Pop_inv core1 (total - tq) (s.next_obj_id + 1) m2 core2 hpop2
      (by linarith)
    have hle : total - tq ≤ core1.quantity := by
      by_contra hc
      simp [ResBuf.Pop, not_le.mp hc] at hpop2
    have hq : s1.core.quantity = s.core.quantity - total := by
      rw [hcore, r2, q2]; ring
    refine ⟨m, core1, m2, core2, recipe, hpop1, hpop2, hrec, q1, r1, ?_, hcore, hq, hspent, ?_⟩
    · rw [q2] at hle; linarith
    · intro he
      rw [hq, he]; ring
  · intro hg hfit hc hidx
    obtain ⟨m, core1, hpop1, q1, q2, _⟩ := Pop_ok s.core tq s.next_obj_id h0 (by linarith)
    obtain ⟨m2, core2, hpop2, r1, _, _⟩ := Pop_ok core1 (total - tq) (s.next_obj_id + 1)
      (by linarith) (by rw [q2]; linarith)
    have hlt := hidx m core1 hpop1
    have hrec : s.fuel_outrecipes[(mapIndex s.res_indexes m.obj_id).1]?
        = some (s.fuel_outrecipes[(mapIndex s.res_indexes m.obj_id).1]) :=
      List.getElem?_eq_getElem hlt
    exact ⟨_, Discharge_Transmute2_eq s total tq m m2 core1 core2 _ hg hpop1 hpop2 hrec
      (by rw [q1, r1]; linarith) (by rw [r1]; linarith)⟩

theorem C14_split_discharge_witness :
    ((Discharge_Transmute2 { retiredReactor with spent := { capacity := 1000, rs := [] } }
        300 150).map
        (fun r => (r.1, r.2.core.rs, r.2.spent.rs))
      = .ok (none, [],
          [{ obj_id := 1, quantity := 150, comp := "spentuox" },
           { obj_id := 0, quantity := 150, comp := "uox" }]))
    ∧ ∀ s1, Discharge_Transmute2 { retiredReactor with spent := { capacity := 1000, rs := [] } }
          300 150 = .ok (none, s1) →
        ∃ m core1 m2 core2 recipe,
          ({ retiredReactor with spent := { capacity := 1000, rs := [] } } : BulkReactor).core.Pop
              150 ({ retiredReactor with spent := { capacity := 1000, rs := [] } }
                : BulkReactor).next_obj_id = .ok (m, core1)
          ∧ core1.Pop (300 - 150)
              (({ retiredReactor with spent := { capacity := 1000, rs := [] } }
                : BulkReactor).next_obj_id + 1) = .ok (m2, core2)
          ∧ ({ retiredReactor with spent := { capacity := 1000, rs := [] } }
                : BulkReactor).fuel_outrecipes[
              (mapIndex ({ retiredReactor with spent := { capacity := 1000, rs := [] } }
                : BulkReactor).res_indexes m.obj_id).1]? = some recipe
          ∧ m.quantity = 150 ∧ m2.quantity = 300 - 150
          ∧ (300 : ℚ) ≤ ({ retiredReactor with spent := { capacity := 1000, rs := [] } }
                : BulkReactor).core.quantity
          ∧ s1.core = core2
          ∧ s1.core.quantity
              = ({ retiredReactor with spent := { capacity := 1000, rs := [] } }
                : BulkReactor).core.quantity - 300
          ∧ s1.spent.rs
              = ({ retiredReactor with spent := { capacity := 1000, rs := [] } }
                : BulkReactor).spent.rs ++ [{ m with comp := GetRecipe recipe }, m2]
          ∧ ((300 : ℚ) = ({ retiredReactor with spent := { capacity := 1000, rs := [] } }
                : BulkReactor).core.quantity → s1.core.quantity = 0) :=
  ⟨by decide!,
    (C14_split_discharge { retiredReactor with spent := { capacity := 1000, rs := [] } }
      300 150 (by norm_num) (by norm_num)).1⟩

/-- C15: on the step after the exit time of a retired facility whose core
holds 300, with `discharge_mass` 10 and an empty spent pool of capacity 100,
the two-argument discharge passes its capacity check (which compares the free
capacity with `discharge_mass`), although the spent pool has no room for the
300 to move, and ends in the `ValueError` of the pool after both pops; so
does the `Tick` that calls it. -/
theorem C15_split_discharge_not_atomic :
    ¬ (retiredReactor.spent.capacity - retiredReactor.spent.quantity
        < retiredReactor.discharge_mass)
    ∧ retiredReactor.spent.capacity - retiredReactor.spent.quantity
        < retiredReactor.core.quantity
    ∧ Discharge_Transmute2 retiredReactor retiredReactor.core.quantity
        (retiredReactor.core.quantity / 2) = .error .ValueError
    ∧ Tick retiredReactor = .error .ValueError
    ∧ (Discharge_Transmute retiredReactor retiredReactor.core.quantity).map
        (fun r => (r.1, r.2.core, r.2.spent))
        = .ok (false, retiredReactor.core, retiredReactor.spent) := by
  decide!

/-! ## The identity index -/

theorem findStream_lt (c : String) (cs : List String) (i : Nat)
    (h : findStream c cs = some i) :
    cs[i]? = some c ∧ ∀ j, j < i → cs[j]? ≠ some c := by
  induction cs generalizing i with
  | nil => cases h
  | cons x xs ih =>
    unfold findStream at h
    split at h
    · rename_i hx
      cases h
      exact ⟨by simp [hx], fun j hj => absurd hj (Nat.not_lt_zero j)⟩
    · rename_i hx
      cases hf : findStream c xs with
      | none => rw [hf] at h; cases h
      | some k =>
        rw [hf] at h
        simp only [Option.map, Option.some.injEq] at h
        subst h
        obtain ⟨a, b⟩ := ih k hf
        refine ⟨by simpa using a, ?_⟩
        intro j hj
        cases j with
        | zero => simpa using hx
        | succ j => simpa using b j (by omega)

theorem findStream_none_iff (c : String) (cs : List String) :
    findStream c cs = none ↔ c ∉ cs := by
  induction cs with
  | nil => simp [findStream]
  | cons x xs ih =>
    unfold findStream
    by_cases hx : x = c
    · simp [hx]
    · have hx' : ¬ c = x := fun e => hx e.symm
      simp [hx, hx', ih]

theorem mapAssign_lookup_self (idx : List (Nat × Nat)) (k v : Nat) :
    (mapAssign idx k v).lookup k = some v := by
  induction idx with
  | nil => simp [mapAssign, List.lookup]
  | cons p rest ih =>
    obtain ⟨k', v'⟩ := p
    unfold mapAssign
    by_cases hk : k' = k
    · simp [hk, List.lookup]
    · have hk' : (k == k') = false := by simpa using fun e : k = k' => hk e.symm
      simp [hk, List.lookup, hk', ih]

theorem mapAssign_lookup_other (idx : List (Nat × Nat)) (k v k2 : Nat) (h : k2 ≠ k) :
    (mapAssign idx k v).lookup k2 = idx.lookup k2 := by
  induction idx with
  | nil =>
    have hk : (k2 == k) = false := by simpa using h
    simp [mapAssign, List.lookup, hk]
  | cons p rest ih =>
    obtain ⟨k', v'⟩ := p
    unfold mapAssign
    by_cases hk : k' = k
    · subst hk
      have hk : (k2 == k') = false := by simpa using h
      simp [List.lookup, hk]
    · simp only [hk, if_false, List.lookup]
      rw [ih]

/-- C17: `index_res(m, incommod)` returns if and only if `incommod` occurs in
`fuel_incommods`.  When it returns, the identity index maps the identity of
`m` to the smallest `i` with `fuel_incommods[i] == incommod`, the entry of
every other identity is unchanged, and nothing else of the state changes.
When `incommod` does not occur, the call ends in the `ValueError` for an
unsupported commodity, raised after the search loop without any write to the
index. -/
theorem C17_index_res (s : BulkReactor) (m : Material) (incommod : String) :
    ((∃ s1, index_res s m incommod = .ok s1) ↔ incommod ∈ s.fuel_incommods)
    ∧ (∀ s1, index_res s m incommod = .ok s1 →
        ∃ i, s.fuel_incommods[i]? = some incommod
          ∧ (∀ j, j < i → s.fuel_incommods[j]? ≠ some incommod)
          ∧ s1.res_indexes.lookup m.obj_id = some i
          ∧ (∀ k, k ≠ m.obj_id → s1.res_indexes.lookup k = s.res_indexes.lookup k)
          ∧ s1 = { s with res_indexes := s1.res_indexes })
    ∧ (incommod ∉ s.fuel_incommods → index_res s m incommod = .error .ValueError) := by
  refine ⟨?_, ?_, ?_⟩
  · constructor
    · rintro ⟨s1, h⟩
      by_contra hc
      rw [← findStream_none_iff] at hc
      simp [index_res, hc] at h
    · intro hmem
      cases hf : findStream incommod s.fuel_incommods with
      | none => exact absurd hmem ((findStream_none_iff _ _).mp hf)
      | some i =>
        simp only [index_res, hf]
        exact ⟨_, rfl⟩
  · intro s1 h
    cases hf : findStream incommod s.fuel_incommods with
    | none => simp [index_res, hf] at h
    | some i =>
      simp only [index_res, hf] at h
      cases h
      obtain ⟨a, b⟩ := findStream_lt _ _ _ hf
      exact ⟨i, a, b, mapAssign_lookup_self _ _ _,
        fun k hk => mapAssign_lookup_other _ _ _ _ hk, rfl⟩
  · intro hc
    rw [← findStream_none_iff] at hc
    simp only [index_res, hc]

/-- C18 (as stated, refuted): the loaded facility has no index entry for
identity 5, yet every stream lookup of a batch with that identity returns the
value of stream 0 instead of failing. -/
theorem C18_unindexed_lookup_counterexample :
    loadedReactor.res_indexes.lookup 5 = none
    ∧ (fuel_incommod loadedReactor { obj_id := 5, quantity := 10, comp := "mox" }).map (·.1)
        = .ok "uox"
    ∧ (fuel_outcommod loadedReactor { obj_id := 5, quantity := 10, comp := "mox" }).map (·.1)
        = .ok "waste"
    ∧ (fuel_inrecipe loadedReactor { obj_id := 5, quantity := 10, comp := "mox" }).map (·.1)
        = .ok "uox"
    ∧ (fuel_outrecipe loadedReactor { obj_id := 5, quantity := 10, comp := "mox" }).map (·.1)
        = .ok "spentuox" := by
  decide!

/-- C18 (amended): for a batch whose identity has no entry in the identity
index, each stream lookup - `fuel_incommod`, `fuel_outcommod`,
`fuel_inrecipe`, `fuel_outrecipe` - reads the index with the inserting
subscript, so the entry identity -> 0 is added and the lookup returns element
0 of its array; it fails, with `KeyError`, only when that array is empty. -/
theorem C18_unindexed_lookup (s : BulkReactor) (m : Material)
    (h : s.res_indexes.lookup m.obj_id = none) :
    fuel_incommod s m
      = (match s.fuel_incommods[0]? with
         | none => .error .KeyError
         | some c => .ok (c, { s with res_indexes := s.res_indexes ++ [(m.obj_id, 0)] }))
    ∧ fuel_outcommod s m
      = (match s.fuel_outcommods[0]? with
         | none => .error .KeyError
         | some c => .ok (c, { s with res_indexes := s.res_indexes ++ [(m.obj_id, 0)] }))
    ∧ fuel_inrecipe s m
      = (match s.fuel_inrecipes[0]? with
         | none => .error .KeyError
         | some c => .ok (c, { s with res_indexes := s.res_indexes ++ [(m.obj_id, 0)] }))
    ∧ fuel_outrecipe s m
      = (match s.fuel_outrecipes[0]? with
         | none => .error .KeyError
         | some c => .ok (c, { s with res_indexes := s.res_indexes ++ [(m.obj_id, 0)] })) := by
  have e : mapIndex s.res_indexes m.obj_id = (0, s.res_indexes ++ [(m.obj_id, 0)]) := by
    simp only [mapIndex, h]
  refine ⟨?_, ?_, ?_, ?_⟩
  · simp only [fuel_incommod, e]
  · simp only [fuel_outcommod, e]
  · simp only [fuel_inrecipe, e]
  · simp only [fuel_outrecipe, e]

theorem C18_unindexed_lookup_witness :
    loadedReactor.res_indexes.lookup
        ({ obj_id := 7, quantity := 1, comp := "mox" } : Material).obj_id = none
    ∧ fuel_incommod loadedReactor { obj_id := 7, quantity := 1, comp := "mox" }
      = .ok ("uox", { loadedReactor with res_indexes := [(0, 0), (7, 0)] })
    ∧ fuel_incommod { loadedReactor with fuel_incommods := [] }
        { obj_id := 7, quantity := 1, comp := "mox" } = .error .KeyError :=
  ⟨by decide,
    (C18_unindexed_lookup loadedReactor { obj_id := 7, quantity := 1, comp := "mox" }
      (by decide)).1.trans (by decide!),
    by decide!⟩

/-! ## Output trades -/

theorem mapErase_lookup_other (idx : List (Nat × Nat)) (k k2 : Nat) (h : k2 ≠ k) :
    (mapErase idx k).lookup k2 = idx.lookup k2 := by
  induction idx with
  | nil => rfl
  | cons p rest ih =>
    obtain ⟨k1, v1⟩ := p
    unfold mapErase at ih ⊢
    by_cases hk : k1 = k
    · have hk2 : (k2 == k1) = false := by
        rw [hk]; simpa using h
      simp only [List.filter, hk, ne_eq, not_true_eq_false, decide_False, List.lookup]
      rw [← hk, hk2]
      simp only
      rw [hk]
      exact ih
    · simp only [List.filter, hk, ne_eq, not_false_eq_true, decide_True, List.lookup]
      cases (k2 == k1)
      · exact ih
      · rfl

theorem foldl_mapErase_lookup (ks : List Nat) :
    ∀ (idx : List (Nat × Nat)) (k : Nat), k ∉ ks →
      (ks.foldl mapErase idx).lookup k = idx.lookup k := by
  induction ks with
  | nil => intro idx k _; rfl
  | cons x xs ih =>
    intro idx k hk
    simp only [List.foldl_cons]
    rw [ih _ k (fun h => hk (List.mem_cons_of_mem _ h))]
    exact mapErase_lookup_other idx x k (fun e => hk (e ▸ List.mem_cons_self _ _))


theorem GetMatlTrades_index (trades : List Trade) :
    ∀ (s s1 : BulkReactor) (responses : List (Trade × Material)),
      GetMatlTrades trades s = .ok (responses, s1) →
      s1.res_indexes = (responses.map (fun r => r.2.obj_id)).foldl mapErase s.res_indexes := by
  induction trades with
  | nil =>
    intro s s1 responses h
    cases h
    rfl
  | cons tr rest ih =>
    intro s s1 responses h
    unfold GetMatlTrades at h
    split at h
    · cases h
    · rename_i m spent hpop
      split at h
      · cases h
      · rename_i rs s2 hrest
        cases h
        have h3 := ih _ s1 _ hrest
        rw [h3]
        rfl

theorem mapAssign_keys (idx : List (Nat × Nat)) (k v : Nat) :
    (mapAssign idx k v).map (fun e => e.1)
      = if k ∈ idx.map (fun e => e.1) then idx.map (fun e => e.1)
        else idx.map (fun e => e.1) ++ [k] := by
  induction idx with
  | nil => simp [mapAssign]
  | cons p rest ih =>
    obtain ⟨k', v'⟩ := p
    unfold mapAssign
    by_cases hk : k' = k
    · simp [hk]
    · have hk' : ¬ k = k' := fun e => hk e.symm
      simp only [hk, if_false, List.map_cons, ih, List.mem_cons, hk', false_or]
      split <;> simp

theorem mapAssign_nodup (idx : List (Nat × Nat)) (k v : Nat)
    (h : (idx.map (fun e => e.1)).Nodup) :
    ((mapAssign idx k v).map (fun e => e.1)).Nodup := by
  rw [mapAssign_keys]
  split
  · exact h
  · rename_i hk
    exact List.Nodup.append h (List.nodup_singleton k) (by simpa using hk)

theorem lookup_mem_keys (idx : List (Nat × Nat)) (k v : Nat) (h : idx.lookup k = some v) :
    k ∈ idx.map (fun e => e.1) := by
  induction idx with
  | nil => cases h
  | cons p rest ih =>
    obtain ⟨k', v'⟩ := p
    cases hb : (k == k') with
    | true =>
      have : k = k' := by simpa using hb
      simp [this]
    | false =>
      simp only [List.lookup, hb] at h
      exact List.mem_cons_of_mem _ (ih h)

theorem AcceptMatlTrades_cons (tr : Trade) (m : Material) (rest : List (Trade × Material))
    (s : BulkReactor) (i : Nat) (hf : findStream tr.request.commodity s.fuel_incommods = some i) :
    AcceptMatlTrades ((tr, m) :: rest) s
      = if s.core.quantity < s.core_mass then
          (s.core.Push m).bind (fun core =>
            AcceptMatlTrades rest
              { s with res_indexes := mapAssign s.res_indexes m.obj_id i, core := core })
        else
          (s.fresh.Push m).bind (fun fresh =>
            AcceptMatlTrades rest
              { s with res_indexes := mapAssign s.res_indexes m.obj_id i, fresh := fresh }) := by
  simp only [AcceptMatlTrades, index_res, hf]
  split
  · cases s.core.Push m <;> rfl
  · cases s.fresh.Push m <;> rfl

theorem AcceptMatlTrades_inv (responses : List (Trade × Material)) :
    ∀ s s1 : BulkReactor, AcceptMatlTrades responses s = .ok s1 →
      ∃ A B, s1.core.rs = s.core.rs ++ A ∧ s1.fresh.rs = s.fresh.rs ++ B
        ∧ (A ++ B).Perm (responses.map (fun r => r.2))
        ∧ ((s.res_indexes.map (fun e => e.1)).Nodup
            → (s1.res_indexes.map (fun e => e.1)).Nodup)
        ∧ (∀ k, k ∉ responses.map (fun r => r.2.obj_id)
            → s1.res_indexes.lookup k = s.res_indexes.lookup k)
        ∧ ((responses.map (fun r => r.2.obj_id)).Nodup → ∀ r ∈ responses,
            ∃ i, findStream r.1.request.commodity s.fuel_incommods = some i
              ∧ s1.res_indexes.lookup r.2.obj_id = some i)
        ∧ s1 = { s with core := s1.core, fresh := s1.fresh,
                        res_indexes := s1.res_indexes } := by
  induction responses with
  | nil =>
    intro s s1 h
    cases h
    exact ⟨[], [], by simp, by simp, by simp, fun h => h, fun _ _ => rfl,
      fun _ r hr => absurd hr (List.not_mem_nil r), rfl⟩
  | cons r rest ih =>
    obtain ⟨tr, m⟩ := r
    intro s s1 h
    cases hf : findStream tr.request.commodity s.fuel_incommods with
    | none => simp [AcceptMatlTrades, index_res, hf] at h
    | some i =>
      rw [AcceptMatlTrades_cons tr m rest s i hf] at h
      have key : ∀ s2 : BulkReactor, AcceptMatlTrades rest s2 = .ok s1 →
          s2.fuel_incommods = s.fuel_incommods →
          s2.res_indexes = mapAssign s.res_indexes m.obj_id i →
          s2 = { s with core := s2.core, fresh := s2.fresh, res_indexes := s2.res_indexes } →
          ∀ A0 B0, s2.core.rs = s.core.rs ++ A0 → s2.fresh.rs = s.fresh.rs ++ B0 →
            (A0 ++ B0).Perm [m] →
          ∃ A B, s1.core.rs = s.core.rs ++ A ∧ s1.fresh.rs = s.fresh.rs ++ B
            ∧ (A ++ B).Perm (((tr, m) :: rest).map (fun r => r.2))
            ∧ ((s.res_indexes.map (fun e => e.1)).Nodup
                → (s1.res_indexes.map (fun e => e.1)).Nodup)
            ∧ (∀ k, k ∉ ((tr, m) :: rest).map (fun r => r.2.obj_id)
                → s1.res_indexes.lookup k = s.res_indexes.lookup k)
            ∧ ((((tr, m) :: rest).map (fun r => r.2.obj_id)).Nodup →
                ∀ r ∈ (tr, m) :: rest,
                ∃ i, findStream r.1.request.commodity s.fuel_incommods = some i
                  ∧ s1.res_indexes.lookup r.2.obj_id = some i)
            ∧ s1 = { s with core := s1.core, fresh := s1.fresh,
                            res_indexes := s1.res_indexes } := by
        intro s2 h2 hinc hidx hfr A0 B0 hA0 hB0 hperm0
        obtain ⟨A, B, a1, a2, a3, a4, a5, a6, a7⟩ := ih s2 s1 h2
        refine ⟨A0 ++ A, B0 ++ B, ?_, ?_, ?_, ?_, ?_, ?_, ?_⟩
        · rw [a1, hA0, List.append_assoc]
        · rw [a2, hB0, List.append_assoc]
        · have e1 : (A0 ++ A ++ (B0 ++ B)).Perm ((A0 ++ B0) ++ (A ++ B)) := by
            rw [List.append_assoc, List.append_assoc]
            refine List.Perm.append_left A0 ?_
            rw [← List.append_assoc, ← List.append_assoc]
            exact List.Perm.append_right B List.perm_append_comm
          refine e1.trans ?_
          simp only [List.map_cons]
          exact (List.Perm.append hperm0 a3)
        · intro hn
          apply a4
          rw [hidx]
          exact mapAssign_nodup _ _ _ hn
        · intro k hk
          simp only [List.map_cons, List.mem_cons, not_or] at hk
          rw [a5 k hk.2, hidx]
          exact mapAssign_lookup_other _ _ _ _ hk.1
        · intro hn r hr
          simp only [List.map_cons, List.nodup_cons] at hn
          rcases List.mem_cons.mp hr with rfl | hr
          · refine ⟨i, hf, ?_⟩
            rw [a5 _ hn.1, hidx]
            exact mapAssign_lookup_self _ _ _
          · obtain ⟨j, hj, hl⟩ := a6 hn.2 r hr
            rw [hinc] at hj
            exact ⟨j, hj, hl⟩
        · rw [a7, hfr]
      split at h
      · cases hp : s.core.Push m with
        | error e => rw [hp] at h; cases h
        | ok core =>
          rw [hp] at h
          obtain ⟨p1, _⟩ := Push_quantity _ _ _ hp
          exact key _ h rfl rfl rfl [m] [] p1 (by simp) (by simp)
      · cases hp : s.fresh.Push m with
        | error e => rw [hp] at h; cases h
        | ok fresh =>
          rw [hp] at h
          obtain ⟨p1, _⟩ := Push_quantity _ _ _ hp
          exact key _ h rfl rfl rfl [] [m] (by simp) p1 (by simp)

theorem AcceptMatlTrades_keys (responses : List (Trade × Material)) :
    ∀ s s1 : BulkReactor, AcceptMatlTrades responses s = .ok s1 →
      ∀ k, (k ∈ s.res_indexes.map (fun e => e.1)
            ∨ k ∈ responses.map (fun r => r.2.obj_id)) →
        k ∈ s1.res_indexes.map (fun e => e.1) := by
  induction responses with
  | nil =>
    intro s s1 h k hk
    cases h
    rcases hk with hk | hk
    · exact hk
    · exact absurd hk (List.not_mem_nil k)
  | cons r rest ih =>
    obtain ⟨tr, m⟩ := r
    intro s s1 h k hk
    cases hf : findStream tr.request.commodity s.fuel_incommods with
    | none => simp [AcceptMatlTrades, index_res, hf] at h
    | some i =>
      rw [AcceptMatlTrades_cons tr m rest s i hf] at h
      have key : ∀ s2 : BulkReactor, AcceptMatlTrades rest s2 = .ok s1 →
          s2.res_indexes = mapAssign s.res_indexes m.obj_id i →
          k ∈ s1.res_indexes.map (fun e => e.1) := by
        intro s2 h2 hidx
        apply ih s2 s1 h2 k
        rw [hidx, mapAssign_keys]
        simp only [List.map_cons, List.mem_cons] at hk
        rcases hk with hk | hk | hk
        · left
          split
          · exact hk
          · exact List.mem_append_left _ hk
        · left
          subst hk
          split
          · rename_i hin; exact hin
          · simp
        · right; exact hk
      split at h
      · cases hp : s.core.Push m with
        | error e => rw [hp] at h; cases h
        | ok core =>
          rw [hp] at h
          exact key _ h rfl
      · cases hp : s.fresh.Push m with
        | error e => rw [hp] at h; cases h
        | ok fresh =>
          rw [hp] at h
          exact key _ h rfl

theorem AcceptMatlTrades_core (responses : List (Trade × Material)) :
    ∀ s : BulkReactor, (∀ r ∈ responses, r.1.request.commodity ∈ s.fuel_incommods) →
      (∀ r ∈ responses, 0 < r.2.quantity) →
      s.core.quantity + totalQty (responses.map (fun r => r.2)) ≤ s.core.capacity →
      s.core.capacity ≤ s.core_mass →
      ∃ s1, AcceptMatlTrades responses s = .ok s1
        ∧ s1.core.rs = s.core.rs ++ responses.map (fun r => r.2)
        ∧ s1.fresh = s.fresh := by
  induction responses with
  | nil =>
    intro s _ _ _ _
    exact ⟨s, rfl, by simp, rfl⟩
  | cons r rest ih =>
    obtain ⟨tr, m⟩ := r
    intro s hc hq hroom hcap
    have hm : 0 < m.quantity := hq (tr, m) (List.mem_cons_self _ _)
    have hrest0 : 0 ≤ totalQty (rest.map (fun r => r.2)) := by
      clear ih hc hroom
      induction rest with
      | nil => simp [totalQty]
      | cons x xs ihx =>
        simp only [List.map_cons, totalQty]
        have := hq x (List.mem_cons_of_mem _ (List.mem_cons_self _ _))
        have := ihx (fun r hr => by
          rcases List.mem_cons.mp hr with rfl | hr
          · exact hm
          · exact hq r (List.mem_cons_of_mem _ (List.mem_cons_of_mem _ hr)))
        linarith
    simp only [List.map_cons, totalQty] at hroom
    cases hf : findStream tr.request.commodity s.fuel_incommods with
    | none =>
      exact absurd (hc (tr, m) (List.mem_cons_self _ _)) ((findStream_none_iff _ _).mp hf)
    | some i =>
      rw [AcceptMatlTrades_cons tr m rest s i hf]
      rw [if_pos (by linarith), Push_ok s.core m (by linarith)]
      obtain ⟨s1, h1, h2, h3⟩ := ih
        { s with res_indexes := mapAssign s.res_indexes m.obj_id i,
                 core := { s.core with rs := s.core.rs ++ [m] } }
        (fun r hr => hc r (List.mem_cons_of_mem _ hr))
        (fun r hr => hq r (List.mem_cons_of_mem _ hr))
        (by
          show totalQty (s.core.rs ++ [m]) + _ ≤ s.core.capacity
          rw [totalQty_append]
          simp only [totalQty, add_zero]
          have : s.core.quantity = totalQty s.core.rs := rfl
          linarith)
        hcap
      refine ⟨s1, h1, ?_, h3⟩
      rw [h2]
      simp

/-- C20: when every response names a commodity of `fuel_incommods`,
`AcceptMatlTrades` handles the responses in order: the first batch gets, in
the identity index, the first stream index `i` matching its commodity, is
pushed into the core if the core quantity is below `core_mass` at that moment
and into the fresh pool otherwise, and the call goes on with the remaining
responses.  When the call returns, each pool holds its former batches followed
by accepted ones, the accepted batches being split between the two pools (for
every identity, the number of holders grows by its number of occurrences among
the responses), so with distinct identities not held before every accepted
batch is held by exactly one pool; with one entry at most per identity before,
every accepted batch has exactly one entry afterwards, and with distinct
identities that entry is the first stream index matching its commodity.  The
call returns, with every batch in the core, when the batches have positive
quantities that fit the core together and the core capacity is at most
`core_mass`. -/
theorem C20_accept_trades (responses : List (Trade × Material)) (s : BulkReactor)
    (hc : ∀ r ∈ responses, r.1.request.commodity ∈ s.fuel_incommods) :
    (∀ tr m rest, responses = (tr, m) :: rest →
      ∃ i, s.fuel_incommods[i]? = some tr.request.commodity
        ∧ (∀ j, j < i → s.fuel_incommods[j]? ≠ some tr.request.commodity)
        ∧ AcceptMatlTrades responses s
          = if s.core.quantity < s.core_mass then
              (s.core.Push m).bind (fun core =>
                AcceptMatlTrades rest
                  { s with res_indexes := mapAssign s.res_indexes m.obj_id i, core := core })
            else
              (s.fresh.Push m).bind (fun fresh =>
                AcceptMatlTrades rest
                  { s with res_indexes := mapAssign s.res_indexes m.obj_id i,
                           fresh := fresh }))
    ∧ (∀ s1, AcceptMatlTrades responses s = .ok s1 →
        (∃ A B, s1.core.rs = s.core.rs ++ A ∧ s1.fresh.rs = s.fresh.rs ++ B
          ∧ (A ++ B).Perm (responses.map (fun r => r.2)))
        ∧ (∀ k, heldIn s1.core k + heldIn s1.fresh k
            = heldIn s.core k + heldIn s.fresh k
              + (responses.map (fun r => r.2.obj_id)).count k)
        ∧ ((responses.map (fun r => r.2.obj_id)).Nodup →
            (∀ r ∈ responses, heldIn s.core r.2.obj_id + heldIn s.fresh r.2.obj_id = 0) →
            ∀ r ∈ responses, heldIn s1.core r.2.obj_id + heldIn s1.fresh r.2.obj_id = 1)
        ∧ ((s.res_indexes.map (fun e => e.1)).Nodup →
            ∀ r ∈ responses, indexEntries s1 r.2.obj_id = 1)
        ∧ ((responses.map (fun r => r.2.obj_id)).Nodup → ∀ r ∈ responses,
            ∃ i, s.fuel_incommods[i]? = some r.1.request.commodity
              ∧ (∀ j, j < i → s.fuel_incommods[j]? ≠ some r.1.request.commodity)
              ∧ s1.res_indexes.lookup r.2.obj_id = some i))
    ∧ ((∀ r ∈ responses, 0 < r.2.quantity) →
        s.core.quantity + totalQty (responses.map (fun r => r.2)) ≤ s.core.capacity →
        s.core.capacity ≤ s.core_mass →
        ∃ s1, AcceptMatlTrades responses s = .ok s1
          ∧ s1.core.rs = s.core.rs ++ responses.map (fun r => r.2)
          ∧ s1.fresh = s.fresh) := by
  refine ⟨?_, ?_, ?_⟩
  · intro tr m rest he
    subst he
    cases hf : findStream tr.request.commodity s.fuel_incommods with
    | none =>
      exact absurd (hc (tr, m) (List.mem_cons_self _ _)) ((findStream_none_iff _ _).mp hf)
    | some i =>
      obtain ⟨a, b⟩ := findStream_lt _ _ _ hf
      exact ⟨i, a, b, AcceptMatlTrades_cons tr m rest s i hf⟩
  · intro s1 h
    obtain ⟨A, B, a1, a2, a3, a4, a5, a6, _⟩ := AcceptMatlTrades_inv responses s s1 h
    have hcount : ∀ k, heldIn s1.core k + heldIn s1.fresh k
        = heldIn s.core k + heldIn s.fresh k
          + (responses.map (fun r => r.2.obj_id)).count k := by
      intro k
      have e := (a3.map (fun m => m.obj_id)).count_eq k
      simp only [List.map_append, List.count_append, List.map_map] at e
      have e2 : (responses.map ((fun m => m.obj_id) ∘ fun r => r.2))
          = responses.map (fun r => r.2.obj_id) := rfl
      rw [e2] at e
      simp only [heldIn, a1, a2, List.map_append, List.count_append]
      omega
    refine ⟨⟨A, B, a1, a2, a3⟩, hcount, ?_, ?_, ?_⟩
    · intro hn h0 r hr
      rw [hcount, h0 r hr]
      have hmem : r.2.obj_id ∈ responses.map (fun r => r.2.obj_id) :=
        List.mem_map.mpr ⟨r, hr, rfl⟩
      rw [List.count_eq_one_of_mem hn hmem]
    · intro hn r hr
      have hmemr : r.2.obj_id ∈ s1.res_indexes.map (fun e => e.1) :=
        AcceptMatlTrades_keys responses s s1 h _ (Or.inr (List.mem_map.mpr ⟨r, hr, rfl⟩))
      exact List.count_eq_one_of_mem (a4 hn) hmemr
    · intro hn r hr
      obtain ⟨i, hf, hl⟩ := a6 hn r hr
      obtain ⟨a, b⟩ := findStream_lt _ _ _ hf
      exact ⟨i, a, b, hl⟩
  · intro hq hroom hcap
    exact AcceptMatlTrades_core responses s hc hq hroom hcap

theorem C20_accept_trades_witness :
    ((AcceptMatlTrades uoxResponses
        (deployed 300 10 100 4 3 "uox" "waste" "uox" "spentuox")).map
        (fun s1 => (s1.core.rs, s1.fresh.rs, s1.res_indexes))
      = .ok ([{ obj_id := 11, quantity := 100, comp := "uox" },
              { obj_id := 12, quantity := 200, comp := "uox" }], [], [(11, 0), (12, 0)]))
    ∧ ∃ s1, AcceptMatlTrades uoxResponses
          (deployed 300 10 100 4 3 "uox" "waste" "uox" "spentuox") = .ok s1
        ∧ s1.core.rs = (deployed 300 10 100 4 3 "uox" "waste" "uox" "spentuox").core.rs
            ++ uoxResponses.map (fun r => r.2)
        ∧ s1.fresh = (deployed 300 10 100 4 3 "uox" "waste" "uox" "spentuox").fresh :=
  ⟨by decide!,
    (C20_accept_trades uoxResponses (deployed 300 10 100 4 3 "uox" "waste" "uox" "spentuox")
      (by decide!)).2.2 (by decide!) (by decide!) (by decide!)⟩

/-! ## The capacity invariant -/

theorem popQty_nonpos (newId : Nat) (left : ℚ) (rs : List Material) (h : left ≤ 0) :
    popQty newId left rs = ([], rs) := by
  cases rs with
  | nil => rfl
  | cons r rs => simp [popQty, h]

theorem Pop_bounds (b : ResBuf) (qty : ℚ) (newId : Nat) (m : Material) (b1 : ResBuf)
    (h : b.Pop qty newId = .ok (m, b1)) (hb : 0 ≤ b.quantity) :
    0 ≤ m.quantity ∧ 0 ≤ b1.quantity ∧ b1.quantity ≤ b.quantity
      ∧ b1.capacity = b.capacity := by
  have hle : qty ≤ b.quantity := by
    by_contra hc
    simp [ResBuf.Pop, not_le.mp hc] at h
  by_cases h0 : 0 ≤ qty
  · obtain ⟨a1, a2, a3⟩ := Pop_inv b qty newId m b1 h h0
    exact ⟨by rw [a1]; exact h0, by rw [a2]; linarith, by rw [a2]; linarith, a3⟩
  · have hn : qty ≤ 0 := le_of_lt (not_le.mp h0)
    simp only [ResBuf.Pop, not_lt.mpr hle, if_false, popQty_nonpos newId qty b.rs hn,
      Squash] at h
    cases h
    exact ⟨le_refl _, hb, le_refl _, rfl⟩

theorem Discharge_Transmute_pools (s s1 : BulkReactor) (qty : ℚ) (r : Bool)
    (h : Discharge_Transmute s qty = .ok (r, s1)) (hp : PoolsOK s) : PoolsOK s1 := by
  obtain ⟨hc, hf, hs⟩ := hp
  unfold Discharge_Transmute at h
  split at h
  · cases h
    exact ⟨hc, hf, hs⟩
  · split at h
    · cases h
    · rename_i m core hpop
      split at h
      · cases h
      · rename_i recipe s2 hrec
        have e2 := fuel_outrecipe_frame _ _ _ _ hrec
        split at h
        · cases h
        · rename_i spent hpush
          cases h
          obtain ⟨b1, b2, b3, b4⟩ := Pop_bounds _ _ _ _ _ hpop hc.1
          obtain ⟨p1, p2, p3, p4⟩ := Push_quantity _ _ _ hpush
          have ec : s2.core = core := by rw [e2]
          have ef : s2.fresh = s.fresh := by rw [e2]
          have es : s2.spent = s.spent := by rw [e2]
          rw [es] at p3
          refine ⟨⟨?_, ?_⟩, ?_, ⟨?_, p4⟩⟩
          · show 0 ≤ s2.core.quantity
            rw [ec]; exact b2
          · show s2.core.quantity ≤ s2.core.capacity
            rw [ec, b4]; linarith [hc.2]
          · show 0 ≤ s2.fresh.quantity ∧ s2.fresh.quantity ≤ s2.fresh.capacity
            rw [ef]; exact hf
          · show 0 ≤ spent.quantity
            rw [p3]
            show 0 ≤ s.spent.quantity + m.quantity
            linarith [hs.1]

theorem Discharge_Transmute2_pools (s s1 : BulkReactor) (qty tq : ℚ) (r : Option Bool)
    (h : Discharge_Transmute2 s qty tq = .ok (r, s1)) (hp : PoolsOK s) : PoolsOK s1 := by
  obtain ⟨hc, hf, hs⟩ := hp
  unfold Discharge_Transmute2 at h
  split at h
  · cases h
    exact ⟨hc, hf, hs⟩
  · split at h
    · cases h
    · rename_i m core1 hpop1
      split at h
      · cases h
      · rename_i recipe s2 hrec
        have e2 := fuel_outrecipe_frame _ _ _ _ hrec
        have ec : s2.core = core1 := by rw [e2]
        have ef : s2.fresh = s.fresh := by rw [e2]
        have es : s2.spent = s.spent := by rw [e2]
        split at h
        · cases h
        · rename_i m2 core2 hpop2
          split at h
          · cases h
          · rename_i spent1 hpush1
            split at h
            · cases h
            · rename_i spent2 hpush2
              cases h
              obtain ⟨b1, b2, b3, b4⟩ := Pop_bounds _ _ _ _ _ hpop1 hc.1
              rw [ec] at hpop2
              obtain ⟨c1, c2, c3, c4⟩ := Pop_bounds _ _ _ _ _ hpop2 b2
              rw [es] at hpush1
              obtain ⟨p1, p2, p3, p4⟩ := Push_quantity _ _ _ hpush1
              obtain ⟨q1, q2, q3, q4⟩ := Push_quantity _ _ _ hpush2
              refine ⟨⟨?_, ?_⟩, ?_, ⟨?_, q4⟩⟩
              · exact c2
              · show core2.quantity ≤ core2.capacity
                rw [c4, b4]; linarith [hc.2]
              · show 0 ≤ s2.fresh.quantity ∧ s2.fresh.quantity ≤ s2.fresh.capacity
                rw [ef]; exact hf
              · show 0 ≤ spent2.quantity
                rw [q3, p3]
                show 0 ≤ s.spent.quantity + m.quantity + m2.quantity
                linarith [hs.1]

theorem Load_pools (s s1 : BulkReactor) (h : Load s = .ok s1) (hp : PoolsOK s) :
    PoolsOK s1 := by
  obtain ⟨hc, hf, hs⟩ := hp
  unfold Load at h
  split at h
  · cases h
    exact ⟨hc, hf, hs⟩
  · split at h
    · cases h
    · rename_i m fresh hpop
      split at h
      · cases h
      · rename_i core hpush
        cases h
        obtain ⟨b1, b2, b3, b4⟩ := Pop_bounds _ _ _ _ _ hpop hf.1
        obtain ⟨p1, p2, p3, p4⟩ := Push_quantity _ _ _ hpush
        refine ⟨⟨?_, p4⟩, ⟨b2, ?_⟩, hs⟩
        · show 0 ≤ core.quantity
          rw [p3]; linarith [hc.1]
        · show fresh.quantity ≤ fresh.capacity
          rw [b4]; linarith [hf.2]

theorem TickDischarge_pools (s s1 : BulkReactor) (h : TickDischarge s = .ok s1)
    (hp : PoolsOK s) : PoolsOK s1 := by
  unfold TickDischarge at h
  split at h
  · split at h
    · cases h
    · rename_i hq
      cases h
      exact (Discharge_Transmute_pools _ _ _ _ hq hp : PoolsOK _)
  · cases h
    exact hp

theorem Tick_pools (s s1 : BulkReactor) (h : Tick s = .ok s1) (hp : PoolsOK s) :
    PoolsOK s1 := by
  unfold Tick at h
  split at h
  · unfold TickRetired at h
    split at h
    · cases h
    · rename_i s2 hd
      have h2 : PoolsOK s2 := by
        unfold TickRetiredDischarge at hd
        split at hd
        · split at hd
          · split at hd
            · cases hd
            · rename_i hq
              cases hd
              exact Discharge_Transmute_pools _ _ _ _ hq hp
          · split at hd
            · cases hd
            · rename_i hq
              cases hd
              exact Discharge_Transmute2_pools _ _ _ _ _ hq hp
        · cases hd; exact hp
      split at h
      · cases h; exact h2
      · cases h; exact h2
  · split at h
    · cases h
    · rename_i s2 hd
      have h2 : PoolsOK s2 := by
        refine TickDischarge_pools _ _ hd ?_
        split
        · exact hp
        · exact hp
      split at h
      · cases h
      · rename_i s3 hl
        have h3 : PoolsOK s3 := by
          unfold TickLoad at hl
          split at hl
          · exact Load_pools _ _ hl h2
          · cases hl; exact h2
        have e := TickSchedule_frame _ _ h
        rw [e]
        exact h3

theorem AcceptMatlTrades_pools (responses : List (Trade × Material)) :
    ∀ s s1 : BulkReactor, (∀ r ∈ responses, 0 ≤ r.2.quantity) →
      AcceptMatlTrades responses s = .ok s1 → PoolsOK s → PoolsOK s1 := by
  induction responses with
  | nil =>
    intro s s1 _ h hp
    cases h
    exact hp
  | cons r rest ih =>
    obtain ⟨tr, m⟩ := r
    intro s s1 hq h hp
    obtain ⟨hc, hf, hs⟩ := hp
    have hm : 0 ≤ m.quantity := hq (tr, m) (List.mem_cons_self _ _)
    have hq2 : ∀ r ∈ rest, 0 ≤ r.2.quantity := fun r hr => hq r (List.mem_cons_of_mem _ hr)
    cases hfs : findStream tr.request.commodity s.fuel_incommods with
    | none => simp [AcceptMatlTrades, index_res, hfs] at h
    | some i =>
      rw [AcceptMatlTrades_cons tr m rest s i hfs] at h
      split at h
      · cases hpush : s.core.Push m with
        | error e => rw [hpush] at h; cases h
        | ok core =>
          rw [hpush] at h
          obtain ⟨p1, p2, p3, p4⟩ := Push_quantity _ _ _ hpush
          exact ih _ s1 hq2 h ⟨⟨by show 0 ≤ core.quantity; rw [p3]; linarith [hc.1], p4⟩, hf, hs⟩
      · cases hpush : s.fresh.Push m with
        | error e => rw [hpush] at h; cases h
        | ok fresh =>
          rw [hpush] at h
          obtain ⟨p1, p2, p3, p4⟩ := Push_quantity _ _ _ hpush
          exact ih _ s1 hq2 h ⟨hc, ⟨by show 0 ≤ fresh.quantity; rw [p3]; linarith [hf.1], p4⟩, hs⟩

theorem GetMatlTrades_pools (trades : List Trade) :
    ∀ (s s1 : BulkReactor) (responses : List (Trade × Material)),
      GetMatlTrades trades s = .ok (responses, s1) → PoolsOK s → PoolsOK s1 := by
  induction trades with
  | nil =>
    intro s s1 responses h hp
    cases h
    exact hp
  | cons tr rest ih =>
    intro s s1 responses h hp
    obtain ⟨hc, hf, hs⟩ := hp
    unfold GetMatlTrades at h
    split at h
    · cases h
    · rename_i m spent hpop
      split at h
      · cases h
      · rename_i rs s2 hrest
        cases h
        obtain ⟨b1, b2, b3, b4⟩ := Pop_bounds _ _ _ _ _ hpop hs.1
        exact ih _ _ _ hrest ⟨hc, hf, ⟨b2, by show spent.quantity ≤ spent.capacity; rw [b4]; linarith [hs.2]⟩⟩

theorem GetMatlBids_pools (s s1 : BulkReactor) (cr : List (String × List Request))
    (ports : List BidPortfolio) (h : GetMatlBids s cr = .ok (ports, s1)) (hp : PoolsOK s) :
    PoolsOK s1 := by
  unfold GetMatlBids at h
  split at h
  · have e := (bidLoop_spec cr _ _ ports s1 h).1.1
    rw [e]; exact hp
  · have e := (bidLoop_spec cr _ _ ports s1 h).1.1
    rw [e]; exact hp

theorem GetMatlRequests_pools (s s1 : BulkReactor) (ports : List RequestPortfolio)
    (h : GetMatlRequests s = .ok (ports, s1)) (hp : PoolsOK s) : PoolsOK s1 := by
  unfold GetMatlRequests at h
  split at h
  · cases h; exact hp
  · split at h
    · cases h; exact hp
    · split at h
      · cases h
      · split at h
        · cases h
        · cases h; exact hp

theorem Tock_pools (s s1 : BulkReactor) (h : Tock s = .ok s1) (hp : PoolsOK s) :
    PoolsOK s1 := by
  cases hr : s.retired with
  | true =>
    rw [Tock_retired s hr] at h
    cases h; exact hp
  | false =>
    have e := Tock_frame s s1 hr h
    have e1 : PoolsOK (TockAdvance (TockRollover s)) := by
      unfold TockAdvance
      split
      · unfold TockRollover
        split
        · exact hp
        · exact hp
      · unfold TockRollover
        split
        · exact hp
        · exact hp
    rw [e]
    exact e1

theorem Reachable_pools (s0 s : BulkReactor) (hr : Reachable s0 s) (h0 : PoolsOK s0) :
    PoolsOK s := by
  induction hr with
  | start => exact h0
  | tick s s1 _ h ih => exact Tick_pools s s1 h ih
  | requests s s1 ports _ h ih => exact GetMatlRequests_pools s s1 ports h ih
  | accept s s1 responses _ hq h ih => exact AcceptMatlTrades_pools responses s s1 hq h ih
  | bids s s1 cr ports _ h ih => exact GetMatlBids_pools s s1 cr ports h ih
  | trades s s1 trades responses _ h ih => exact GetMatlTrades_pools trades s s1 responses h ih
  | tock s s1 _ h ih => exact Tock_pools s s1 h ih
  | clock s t retired _ ih => exact ih

/-- C16: from a constructor state (the three pools empty, capacities not
negative), every state reached by calls of `Tick`, `GetMatlRequests`,
`AcceptMatlTrades` (of batches with a non-negative quantity), `GetMatlBids`,
`GetMatlTrades` and `Tock` that return, in any order and with any movement of
the clock in between, has `0 <= quantity <= capacity` for the core, the fresh
pool and the spent pool. -/
theorem C16_capacity_invariant (s0 s : BulkReactor)
    (hempty : s0.core.rs = [] ∧ s0.fresh.rs = [] ∧ s0.spent.rs = [])
    (hcap : 0 ≤ s0.core.capacity ∧ 0 ≤ s0.fresh.capacity ∧ 0 ≤ s0.spent.capacity)
    (hr : Reachable s0 s) :
    (0 ≤ s.core.quantity ∧ s.core.quantity ≤ s.core.capacity)
    ∧ (0 ≤ s.fresh.quantity ∧ s.fresh.quantity ≤ s.fresh.capacity)
    ∧ (0 ≤ s.spent.quantity ∧ s.spent.quantity ≤ s.spent.capacity) := by
  refine Reachable_pools s0 s hr ?_
  obtain ⟨e1, e2, e3⟩ := hempty
  obtain ⟨c1, c2, c3⟩ := hcap
  simp only [PoolsOK, ResBuf.quantity, e1, e2, e3, totalQty, le_refl, true_and]
  exact ⟨c1, c2, c3⟩

theorem C16_capacity_invariant_witness :
    Reachable (deployed 300 10 100 4 3 "uox" "waste" "uox" "spentuox") fedReactor
    ∧ fedReactor.core.quantity = 300
    ∧ (0 ≤ fedReactor.core.quantity ∧ fedReactor.core.quantity ≤ fedReactor.core.capacity)
    ∧ (0 ≤ fedReactor.fresh.quantity ∧ fedReactor.fresh.quantity ≤ fedReactor.fresh.capacity)
    ∧ (0 ≤ fedReactor.spent.quantity
        ∧ fedReactor.spent.quantity ≤ fedReactor.spent.capacity) :=
  have hreach : Reachable (deployed 300 10 100 4 3 "uox" "waste" "uox" "spentuox") fedReactor :=
    Reachable.accept _ _ uoxResponses Reachable.start (by decide!) (by decide!)
  ⟨hreach, by decide!,
    C16_capacity_invariant _ _ ⟨rfl, rfl, rfl⟩ ⟨by decide!, by decide!, by decide!⟩ hreach⟩

/-! ## The power record of a run -/

theorem powerRows_append (a b : List Datum) :
    powerRows (a ++ b) = powerRows a ++ powerRows b := by
  induction a with
  | nil => rfl
  | cons x xs ih =>
    cases x <;> simp [powerRows, ih]

theorem samePower_refl (s : BulkReactor) : samePower s s := ⟨rfl, rfl, rfl, rfl⟩

theorem samePower_trans (s s1 s2 : BulkReactor) (h1 : samePower s s1) (h2 : samePower s1 s2) :
    samePower s s2 :=
  ⟨h2.1.trans h1.1, h2.2.1.trans h1.2.1, h2.2.2.1.trans h1.2.2.1, h2.2.2.2.trans h1.2.2.2⟩

theorem samePower_Record (s : BulkReactor) (name val : String) :
    samePower s (Record s name val) := by
  refine ⟨rfl, rfl, rfl, ?_⟩
  simp [Record, powerRows_append, powerRows]

theorem sideProductRows_power (t : Int) (b : Bool) (q : List ℚ) (ps : List String) :
    ∀ i rows, sideProductRows t b q i ps = .ok rows → powerRows rows = [] := by
  induction ps with
  | nil =>
    intro i rows h
    simp only [sideProductRows] at h
    cases h
    rfl
  | cons p rest ih =>
    intro i rows h
    simp only [sideProductRows] at h
    split at h
    · cases h
    · split at h
      · cases h
      · rename_i rows1 h1
        cases h
        simp only [powerRows]
        exact ih _ _ h1

theorem Tock_power (s s1 : BulkReactor) (hr : s.retired = false) (h : Tock s = .ok s1) :
    s1.time = s.time ∧ s1.power_cap = s.power_cap ∧ s1.retired = s.retired
    ∧ powerRows s1.db = powerRows s.db
        ++ [(s.time, if s1.core.quantity = s1.core_mass ∧ 1 ≤ s1.cycle_step
                        ∧ s1.cycle_step ≤ s1.cycle_time then s.power_cap else 0)] := by
  have e := Tock_frame s s1 hr h
  have hfields : (TockRollover s).hybrid_ = s.hybrid_
      ∧ (TockRollover s).side_products = s.side_products
      ∧ (TockRollover s).side_product_quantity = s.side_product_quantity
      ∧ (TockRollover s).time = s.time ∧ (TockRollover s).power_cap = s.power_cap
      ∧ (TockRollover s).cycle_time = s.cycle_time
      ∧ (TockRollover s).core = s.core ∧ (TockRollover s).core_mass = s.core_mass
      ∧ (TockRollover s).retired = s.retired ∧ (TockRollover s).db = s.db := by
    unfold TockRollover
    split <;> exact ⟨rfl, rfl, rfl, rfl, rfl, rfl, rfl, rfl, rfl, rfl⟩
  obtain ⟨f1, f2, f3, f4, f5, f6, f7, f8, f9, f10⟩ := hfields
  have hadv : (TockAdvance (TockRollover s)).time = s.time
      ∧ (TockAdvance (TockRollover s)).power_cap = s.power_cap
      ∧ (TockAdvance (TockRollover s)).retired = s.retired
      ∧ (TockAdvance (TockRollover s)).core = s.core
      ∧ (TockAdvance (TockRollover s)).core_mass = s.core_mass
      ∧ (TockAdvance (TockRollover s)).cycle_time = s.cycle_time
      ∧ (TockAdvance (TockRollover s)).cycle_step
          = if (TockRollover s).cycle_step > 0
                ∨ (TockRollover s).core.quantity = (TockRollover s).core_mass
            then (TockRollover s).cycle_step + 1 else (TockRollover s).cycle_step := by
    unfold TockAdvance
    split
    · rename_i hc
      exact ⟨f4, f5, f9, f7, f8, f6, rfl⟩
    · rename_i hc
      exact ⟨f4, f5, f9, f7, f8, f6, rfl⟩
  obtain ⟨g1, g2, g3, g4, g5, g6, g7⟩ := hadv
  rw [f7, f8] at g7
  have t1 : s1.time = s.time := by rw [e]; exact g1
  have t2 : s1.power_cap = s.power_cap := by rw [e]; exact g2
  have t3 : s1.retired = s.retired := by rw [e]; exact g3
  have t4 : s1.core = s.core := by rw [e]; exact g4
  have t5 : s1.core_mass = s.core_mass := by rw [e]; exact g5
  have t6 : s1.cycle_time = s.cycle_time := by rw [e]; exact g6
  have t7 : s1.cycle_step
      = if (TockRollover s).cycle_step > 0 ∨ s.core.quantity = s.core_mass
        then (TockRollover s).cycle_step + 1 else (TockRollover s).cycle_step := by
    rw [e]; exact g7
  have hprod : (s1.core.quantity = s1.core_mass ∧ 1 ≤ s1.cycle_step
      ∧ s1.cycle_step ≤ s1.cycle_time) ↔ producing s := by
    rw [t4, t5, t6, t7]
    unfold producing
    constructor
    · rintro ⟨a, b, c⟩
      rw [if_pos (Or.inr a)] at b c
      exact ⟨by omega, by omega, a⟩
    · rintro ⟨a, b, c⟩
      rw [if_pos (Or.inr c)]
      exact ⟨c, by omega, by omega⟩
  refine ⟨t1, t2, t3, ?_⟩
  unfold Tock at h
  simp only [hr, Bool.false_eq_true, if_false] at h
  split at h
  · cases h
  · rename_i s2 h2
    cases h
    have hdb : (TockAdvance s2).db = s2.db := by unfold TockAdvance; split <;> rfl
    rw [hdb]
    have hstart : samePower (TockRollover s) (TockCycleStart (TockRollover s)) := by
      unfold TockCycleStart
      split
      · exact samePower_Record _ _ _
      · exact samePower_refl _
    obtain ⟨k1, k2, k3, k4⟩ := hstart
    rw [f10] at k4
    rw [f4] at k1
    rw [f5] at k2
    have hcs : (TockCycleStart (TockRollover s)).cycle_step = (TockRollover s).cycle_step
        ∧ (TockCycleStart (TockRollover s)).cycle_time = s.cycle_time
        ∧ (TockCycleStart (TockRollover s)).core = s.core
        ∧ (TockCycleStart (TockRollover s)).core_mass = s.core_mass := by
      unfold TockCycleStart
      split
      · exact ⟨rfl, f6, f7, f8⟩
      · exact ⟨rfl, f6, f7, f8⟩
    obtain ⟨c1, c2, c3, c4⟩ := hcs
    unfold TockRecord at h2
    rw [c1, c2, c3, c4, k1, k2] at h2
    have hside : ∀ (x : BulkReactor) (b : Bool), RecordSideProduct x b = .ok s2 →
        powerRows s2.db = powerRows x.db := by
      intro x b hx
      unfold RecordSideProduct at hx
      split at hx
      · split at hx
        · cases hx
        · rename_i rows hrows
          cases hx
          show powerRows (x.db ++ rows) = _
          rw [powerRows_append, sideProductRows_power _ _ _ _ _ _ hrows, List.append_nil]
      · cases hx; rfl
    by_cases hp : (TockRollover s).cycle_step ≥ 0 ∧ (TockRollover s).cycle_step < s.cycle_time
        ∧ s.core.quantity = s.core_mass
    · rw [if_pos hp] at h2
      rw [if_pos (hprod.mpr hp), hside _ _ h2]
      show powerRows ((TockCycleStart (TockRollover s)).db ++ _) = _
      rw [powerRows_append, k4]
      rfl
    · rw [if_neg hp] at h2
      rw [if_neg (fun hx => hp (hprod.mp hx)), hside _ _ h2]
      show powerRows ((TockCycleStart (TockRollover s)).db ++ _) = _
      rw [powerRows_append, k4]
      rfl

theorem Discharge_Transmute_power (s s1 : BulkReactor) (qty : ℚ) (r : Bool)
    (h : Discharge_Transmute s qty = .ok (r, s1)) : samePower s s1 := by
  unfold Discharge_Transmute at h
  split at h
  · cases h
    exact samePower_Record _ _ _
  · split at h
    · cases h
    · rename_i m core hpop
      split at h
      · cases h
      · rename_i recipe s2 hrec
        have e2 := fuel_outrecipe_frame _ _ _ _ hrec
        split at h
        · cases h
        · rename_i spent hpush
          cases h
          have a1 : s2.time = s.time := by rw [e2]
          have a2 : s2.power_cap = s.power_cap := by rw [e2]
          have a3 : s2.retired = s.retired := by rw [e2]
          have a4 : s2.db = s.db := by rw [e2]
          exact ⟨a1, a2, a3, by show powerRows s2.db = _; rw [a4]⟩

theorem Tick_power (s s1 : BulkReactor) (hr : s.retired = false) (h : Tick s = .ok s1) :
    samePower s s1 := by
  unfold Tick at h
  rw [hr] at h
  simp only [Bool.false_eq_true, if_false] at h
  split at h
  · cases h
  · rename_i s2 hd
    have h0 : samePower s (if s.cycle_step = s.cycle_time then Record s "CYCLE_END" "" else s) := by
      split
      · exact samePower_Record _ _ _
      · exact samePower_refl _
    have h2 : samePower s s2 := by
      refine samePower_trans _ _ _ h0 ?_
      generalize (if s.cycle_step = s.cycle_time then Record s "CYCLE_END" "" else s) = x at hd
      unfold TickDischarge at hd
      split at hd
      · split at hd
        · cases hd
        · rename_i hq
          cases hd
          exact (Discharge_Transmute_power _ _ _ _ hq : samePower _ _)
      · cases hd
        exact samePower_refl _
    split at h
    · cases h
    · rename_i s3 hl
      have h3 : samePower s2 s3 := by
        unfold TickLoad at hl
        split at hl
        · have e := Load_frame _ _ hl
          unfold samePower
          rw [e]
          exact ⟨rfl, rfl, rfl, rfl⟩
        · cases hl
          exact samePower_refl _
      have h4 : samePower s3 s1 := by
        have e := TickSchedule_frame _ _ h
        unfold samePower
        rw [e]
        exact ⟨rfl, rfl, rfl, rfl⟩
      exact samePower_trans _ _ _ h2 (samePower_trans _ _ _ h3 h4)

theorem GetMatlRequests_power (s s1 : BulkReactor) (ports : List RequestPortfolio)
    (h : GetMatlRequests s = .ok (ports, s1)) : samePower s s1 := by
  unfold GetMatlRequests at h
  split at h
  · cases h; exact samePower_refl _
  · split at h
    · cases h; exact samePower_refl _
    · split at h
      · cases h
      · split at h
        · cases h
        · cases h
          refine ⟨rfl, rfl, rfl, ?_⟩
          show powerRows (s.db ++ _) = _
          rw [powerRows_append]
          simp [powerRows]

theorem deliver_power (s s1 : BulkReactor) (ports : List RequestPortfolio) (b : Bool)
    (h : deliver s ports = .ok (b, s1)) : samePower s s1 := by
  unfold deliver at h
  split at h
  · cases h; exact samePower_refl _
  · split at h
    · cases h; exact samePower_refl _
    · split at h
      · cases h
      · rename_i s2 ha
        cases h
        obtain ⟨_, _, _, _, _, _, _, _, e⟩ := AcceptMatlTrades_inv _ _ _ ha
        unfold samePower
        rw [e]
        exact ⟨rfl, rfl, rfl, rfl⟩

theorem supplyStep_power (s s1 : BulkReactor) (b : Bool) (hr : s.retired = false)
    (h : supplyStep s = .ok (b, s1)) :
    s1.time = s.time + 1 ∧ s1.power_cap = s.power_cap ∧ s1.retired = false
    ∧ powerRows s1.db = powerRows s.db
        ++ [(s.time, if s1.core.quantity = s1.core_mass ∧ 1 ≤ s1.cycle_step
                        ∧ s1.cycle_step ≤ s1.cycle_time then s.power_cap else 0)] := by
  unfold supplyStep at h
  split at h
  · cases h
  · rename_i t1 hT
    split at h
    · cases h
    · rename_i ports t2 hG
      split at h
      · cases h
      · rename_i b3 t3 hD
        split at h
        · cases h
        · rename_i t4 hK
          cases h
          have p1 := Tick_power s t1 hr hT
          have p2 := GetMatlRequests_power t1 t2 ports hG
          have p3 := deliver_power t2 t3 ports _ hD
          obtain ⟨q1, q2, q3, q4⟩ := samePower_trans _ _ _ p1 (samePower_trans _ _ _ p2 p3)
          obtain ⟨k1, k2, k3, k4⟩ := Tock_power t3 t4 (by rw [q3]; exact hr) hK
          refine ⟨?_, ?_, ?_, ?_⟩
          · show t4.time + 1 = _
            rw [k1, q1]
          · show t4.power_cap = _
            rw [k2, q2]
          · show t4.retired = _
            rw [k3, q3]; exact hr
          · show powerRows t4.db = powerRows s.db ++ [(s.time,
              if t4.core.quantity = t4.core_mass ∧ 1 ≤ t4.cycle_step
                ∧ t4.cycle_step ≤ t4.cycle_time then s.power_cap else 0)]
            rw [k4, q4, q1, q2]

theorem run_power_row (c r : Nat) (M d cap : ℚ) (ic ir orr : String) (w : Nat) (dis : Bool)
    (sq : ℚ) (s : BulkReactor) (inv : RunFacts c r M d cap ic ir orr w dis M sq s) (hw : 1 ≤ w) :
    (s.core.quantity = s.core_mass ∧ 1 ≤ s.cycle_step ∧ s.cycle_step ≤ s.cycle_time)
      ↔ w ≤ c := by
  rw [inv.h_core, inv.h_core_mass, inv.h_step, inv.h_cycle_time]
  constructor
  · rintro ⟨_, _, h⟩
    omega
  · intro h
    exact ⟨rfl, by omega, by omega⟩

theorem supplyRun_power (c r : Nat) (M d cap p : ℚ) (ic ir orr : String) (s0 : BulkReactor)
    (inv0 : RunFacts c r M d cap ic ir orr 0 false 0 0 s0)
    (hp : s0.power_cap = p) (ht0 : s0.time = 0) (hdb : powerRows s0.db = [])
    (hc : 1 ≤ c) (hd : 0 < d) (hdM : d ≤ M) :
    ∀ t : Nat, (∀ k : Nat, c + k * (c + r) ≤ t → ((k : ℚ) + 1) * d ≤ cap) →
      ∃ k w s, t + 1 = k * (c + r) + w ∧ 1 ≤ w ∧ w ≤ c + r
        ∧ supplyRun (t + 1) s0 = .ok s
        ∧ deliveryAt 0 s0 = .ok true
        ∧ RunFacts c r M d cap ic ir orr w (decide (c < w)) M
            (((k + (if c < w then 1 else 0) : Nat) : ℚ) * d) s
        ∧ s.time = ((t + 1 : Nat) : Int) ∧ s.power_cap = p
        ∧ powerRows s.db
            = (List.range (t + 1)).map
                (fun u : Nat => ((u : Int), if u % (c + r) < c then p else 0)) := by
  have hfirst : ∃ s1, supplyStep s0 = .ok (true, s1)
      ∧ RunFacts c r M d cap ic ir orr 1 (decide (c < 1)) M 0 s1 := by
    have e0 : (false : Bool) = decide (c ≤ 0) := (decide_eq_false (by omega)).symm
    have inv0' : RunFacts c r M d cap ic ir orr 0 (decide (c ≤ 0)) 0 0 s0 := by
      rw [← e0]; exact inv0
    have hT : Tick s0 = .ok s0 :=
      run_tick_idle c r M d cap ic ir orr 0 _ 0 0 _ inv0 (by omega) (fun h => by omega)
        (by linarith)
    obtain ⟨s1, h1, inv1⟩ := run_rest_order c r M d cap ic ir orr 0 0 0 _ _ hT inv0'
      (by linarith) (by omega) hc
    have e : (if 0 = c + r then 1 else 0 + 1) = 1 := by split <;> rfl
    rw [e] at inv1
    exact ⟨s1, h1, inv1⟩
  intro t
  induction t with
  | zero =>
    intro _
    obtain ⟨s1, h1, inv1⟩ := hfirst
    obtain ⟨a1, a2, a3, a4⟩ := supplyStep_power s0 s1 true inv0.h_retired h1
    refine ⟨0, 1, s1, by omega, le_refl 1, by omega, ?_, ?_, ?_, ?_, ?_, ?_⟩
    · simp only [supplyRun, h1]
    · simp only [deliveryAt, supplyRun, h1]
    · have e : (((0 + (if c < 1 then 1 else 0) : Nat) : ℚ) * d) = 0 := by
        rw [if_neg (by omega)]; simp
      rw [e]; exact inv1
    · rw [a1, ht0]; rfl
    · rw [a2, hp]
    · rw [a4, hdb, hp, ht0]
      have hiff := run_power_row c r M d cap ic ir orr 1 _ 0 s1 inv1 (le_refl 1)
      have h0 : 0 % (c + r) < c := by rw [Nat.zero_mod]; omega
      simp only [hiff, hc, if_true, List.range_succ, List.range_zero, List.map_cons,
        List.map_nil, h0, List.nil_append, Nat.cast_zero]
  | succ t ih =>
    intro hroom
    obtain ⟨k, w, s, ht, hw1, hwP, hrun, hfd, inv, htime, hpow, hrows⟩ :=
      ih (fun k hk => hroom k (by omega))
    obtain ⟨s1, hstep, inv1⟩ := supplyStep_spec c r M d cap ic ir orr w
      (k + (if c < w then 1 else 0)) s inv hc hd hdM hwP (by
        intro hwc
        subst hwc
        have := hroom k (by rw [Nat.add_comm]; omega)
        rw [if_neg (lt_irrefl w)]
        simpa using this)
    obtain ⟨a1, a2, a3, a4⟩ := supplyStep_power s s1 _ inv.h_retired hstep
    have hrun1 : supplyRun (t + 1 + 1) s0 = .ok s1 := by
      simp only [supplyRun] at hrun ⊢
      rw [hrun]
      simp only [hstep]
    have hw' : 1 ≤ (if w = c + r then 1 else w + 1) := by split <;> omega
    have hiff := run_power_row c r M d cap ic ir orr _ _ _ s1 inv1 hw'
    have hmod : ((if w = c + r then 1 else w + 1) ≤ c) ↔ (t + 1) % (c + r) < c := by
      have hm : (t + 1) % (c + r) = w % (c + r) := by
        rw [ht, Nat.add_comm (k * (c + r)) w, Nat.add_mul_mod_self_right]
      rw [hm]
      by_cases hwe : w = c + r
      · rw [if_pos hwe, hwe, Nat.mod_self]
        omega
      · rw [if_neg hwe, Nat.mod_eq_of_lt (by omega)]
        omega
    have hrows1 : powerRows s1.db
        = (List.range (t + 1 + 1)).map
            (fun u : Nat => ((u : Int), if u % (c + r) < c then p else 0)) := by
      rw [a4, hrows, htime, hpow, List.range_succ (t + 1), List.map_append]
      simp only [hiff, hmod, List.map_cons, List.map_nil]
    have htime1 : s1.time = ((t + 1 + 1 : Nat) : Int) := by
      rw [a1, htime]; push_cast; ring
    by_cases hwe : w = c + r
    · rw [if_pos hwe] at inv1
      refine ⟨k + 1, 1, s1, ?_, le_refl 1, by omega, hrun1, hfd, ?_, htime1,
        by rw [a2, hpow], hrows1⟩
      · rw [Nat.add_mul, Nat.one_mul]; omega
      · have e : k + (if c < w then 1 else 0) + (if w = c then 1 else 0)
            = k + 1 + (if c < 1 then 1 else 0) := by
          rw [if_neg (show ¬ c < 1 by omega)]
          by_cases hwc : w = c
          · rw [if_pos hwc, if_neg (by omega)]
          · rw [if_neg hwc, if_pos (by omega)]
        rw [← e]; exact inv1
    · rw [if_neg hwe] at inv1
      refine ⟨k, w + 1, s1, by omega, by omega, by omega, hrun1, hfd, ?_, htime1,
        by rw [a2, hpow], hrows1⟩
      have e : k + (if c < w then 1 else 0) + (if w = c then 1 else 0)
          = k + (if c < w + 1 then 1 else 0) := by
        by_cases hwc : w = c
        · rw [if_pos hwc, if_neg (by omega), if_pos (by omega)]
        · rw [if_neg hwc]
          by_cases hcw : c < w
          · rw [if_pos hcw, if_pos (by omega)]
          · rw [if_neg hcw, if_neg (by omega)]
      rw [← e]; exact inv1

/-- C11: in the idealised run with ample supply of a facility deployed with
one stream, `cycle_time = c >= 1`, `refuel_time = r`, `0 < discharge_mass <=
core_mass`, power capacity `p` and a spent pool that never runs out of room,
the run of steps `0..t` returns and has recorded exactly one power row per
step, in order: the row of step `u` carries `p` when `u mod (c + r) < c` and
0 otherwise.  The first row is `(0, p)` and a batch is delivered in step 0, so
the first acquisition and the first full-power step are both step 0; with
`r = 0` every row carries `p`. -/
theorem C11_power_schedule (c r : Nat) (M d cap p : ℚ) (ic oc ir orr : String)
    (hc : 1 ≤ c) (hd : 0 < d) (hdM : d ≤ M) (t : Nat)
    (hroom : ∀ k : Nat, c + k * (c + r) ≤ t → ((k : ℚ) + 1) * d ≤ cap) :
    ∃ s, supplyRun (t + 1) (deployedPower p M d cap c r ic oc ir orr) = .ok s
      ∧ powerRows s.db
          = (List.range (t + 1)).map
              (fun u : Nat => ((u : Int), if u % (c + r) < c then p else 0))
      ∧ (powerRows s.db).head? = some (0, p)
      ∧ deliveryAt 0 (deployedPower p M d cap c r ic oc ir orr) = .ok true
      ∧ (r = 0 → powerRows s.db = (List.range (t + 1)).map (fun u : Nat => ((u : Int), p))) := by
  have inv0 : RunFacts c r M d cap ic ir orr 0 false 0 0
      (deployedPower p M d cap c r ic oc ir orr) :=
    { h_core_mass := rfl
      h_discharge_mass := rfl
      h_cycle_time := rfl
      h_refuel_time := rfl
      h_retired := rfl
      h_hybrid := rfl
      h_incommods := rfl
      h_inrecipes := rfl
      h_outrecipes := rfl
      h_prefs := rfl
      h_pref_times := rfl
      h_recipe_times := rfl
      h_core_cap := rfl
      h_fresh := rfl
      h_spent_cap := rfl
      h_idx := fun p hp => absurd hp (List.not_mem_nil p)
      h_step := rfl
      h_discharged := rfl
      h_core := rfl
      h_spent := rfl }
  obtain ⟨k, w, s, _, _, _, hrun, hfd, _, _, _, hrows⟩ :=
    supplyRun_power c r M d cap p ic ir orr _ inv0 rfl rfl rfl hc hd hdM t hroom
  refine ⟨s, hrun, hrows, ?_, hfd, ?_⟩
  · rw [hrows, List.range_succ_eq_map]
    simp only [List.map_cons, List.head?_cons, Nat.zero_mod, Nat.cast_zero,
      if_pos (show 0 < c by omega)]
  · intro hr0
    rw [hrows]
    refine List.map_congr_left (fun u _ => ?_)
    have hu : u % (c + r) < c := by
      rw [hr0, Nat.add_zero]
      exact Nat.mod_lt _ (by omega)
    rw [if_pos hu]

theorem C11_power_schedule_witness :
    ((supplyRun 7 (deployedPower 1000 300 10 100 2 2 "uox" "waste" "uox" "spentuox")).map
        (fun s => powerRows s.db)
      = .ok [(0, 1000), (1, 1000), (2, 0), (3, 0), (4, 1000), (5, 1000), (6, 0)])
    ∧ ((supplyRun 6 (deployedPower 1000 300 10 100 2 0 "uox" "waste" "uox" "spentuox")).map
        (fun s => powerRows s.db)
      = .ok [(0, 1000), (1, 1000), (2, 1000), (3, 1000), (4, 1000), (5, 1000)])
    ∧ ∃ s, supplyRun (6 + 1)
          (deployedPower 1000 300 10 100 ((2 : Nat) : Int) ((2 : Nat) : Int)
            "uox" "waste" "uox" "spentuox") = .ok s
        ∧ powerRows s.db
            = (List.range (6 + 1)).map
                (fun u : Nat => ((u : Int), if u % (2 + 2) < 2 then (1000 : ℚ) else 0))
        ∧ (powerRows s.db).head? = some (0, 1000)
        ∧ deliveryAt 0
            (deployedPower 1000 300 10 100 ((2 : Nat) : Int) ((2 : Nat) : Int)
              "uox" "waste" "uox" "spentuox") = .ok true
        ∧ ((2 : Nat) = 0 → powerRows s.db
            = (List.range (6 + 1)).map (fun u : Nat => ((u : Int), (1000 : ℚ)))) :=
  ⟨by decide!, by decide!,
    C11_power_schedule 2 2 300 10 100 1000 "uox" "waste" "uox" "spentuox"
      (by decide) (by norm_num) (by norm_num) 6
      (fun k hk => by
        have h1 : (k : ℚ) ≤ 1 := by exact_mod_cast (by omega : k ≤ 1)
        linarith)⟩

/-! ## Saturated output -/

theorem Tick_saturated (s : BulkReactor) (h : saturated s) :
    Tick s = TickSchedule
      { Record (if s.cycle_step = s.cycle_time then Record s "CYCLE_END" "" else s)
          "DISCHARGE" "failed" with discharged := false } := by
  obtain ⟨hr, hfull, hcap, hstep, hdis, hsat, hfresh⟩ := h
  have hD : TickDischarge (if s.cycle_step = s.cycle_time then Record s "CYCLE_END" "" else s)
      = .ok { Record (if s.cycle_step = s.cycle_time then Record s "CYCLE_END" "" else s)
                "DISCHARGE" "failed" with discharged := false } := by
    have hx : ∀ x : BulkReactor, x.cycle_step = s.cycle_step → x.cycle_time = s.cycle_time →
        x.discharged = s.discharged → x.spent = s.spent → x.discharge_mass = s.discharge_mass →
        TickDischarge x = .ok { Record x "DISCHARGE" "failed" with discharged := false } := by
      intro x e1 e2 e3 e4 e5
      unfold TickDischarge
      rw [if_pos ⟨by rw [e1, e2]; exact hstep, by rw [e3]; exact hdis⟩,
        Discharge_Transmute_blocked x x.discharge_mass (by rw [e4, e5]; exact hsat)]
    split
    · exact hx _ rfl rfl rfl rfl rfl
    · exact hx _ rfl rfl rfl rfl rfl
  have hL : TickLoad
      { Record (if s.cycle_step = s.cycle_time then Record s "CYCLE_END" "" else s)
          "DISCHARGE" "failed" with discharged := false }
      = .ok { Record (if s.cycle_step = s.cycle_time then Record s "CYCLE_END" "" else s)
                "DISCHARGE" "failed" with discharged := false } := by
    have hx : ∀ x : BulkReactor, x.cycle_step = s.cycle_step → x.cycle_time = s.cycle_time →
        x.core = s.core → x.fresh = s.fresh → TickLoad x = .ok x := by
      intro x e1 e2 e3 e4
      unfold TickLoad
      rw [if_pos (by rw [e1, e2]; exact hstep)]
      unfold Load
      rw [if_pos]
      rw [e3, e4, hcap, hfull, sub_self]
      exact min_eq_left hfresh
    apply hx
    · show (if s.cycle_step = s.cycle_time then Record s "CYCLE_END" "" else s).cycle_step = _
      split <;> rfl
    · show (if s.cycle_step = s.cycle_time then Record s "CYCLE_END" "" else s).cycle_time = _
      split <;> rfl
    · show (if s.cycle_step = s.cycle_time then Record s "CYCLE_END" "" else s).core = _
      split <;> rfl
    · show (if s.cycle_step = s.cycle_time then Record s "CYCLE_END" "" else s).fresh = _
      split <;> rfl
  unfold Tick
  rw [hr]
  simp only [Bool.false_eq_true, if_false]
  rw [hD]
  simp only
  rw [hL]

theorem Tick_saturated_inv (s s1 : BulkReactor) (h : saturated s) (hT : Tick s = .ok s1) :
    s1.core = s.core ∧ s1.fresh = s.fresh ∧ s1.spent = s.spent ∧ s1.time = s.time
    ∧ s1.cycle_step = s.cycle_step ∧ s1.cycle_time = s.cycle_time
    ∧ s1.refuel_time = s.refuel_time ∧ s1.core_mass = s.core_mass
    ∧ s1.discharge_mass = s.discharge_mass ∧ s1.power_cap = s.power_cap
    ∧ powerRows s1.db = powerRows s.db ∧ saturated s1 := by
  have hp := Tick_power s s1 h.1 hT
  rw [Tick_saturated s h] at hT
  have e := TickSchedule_frame _ _ hT
  have hx : ∀ x : BulkReactor, x.core = s.core → x.fresh = s.fresh → x.spent = s.spent →
      x.cycle_step = s.cycle_step → x.cycle_time = s.cycle_time → x.core_mass = s.core_mass →
      x.discharge_mass = s.discharge_mass → x.retired = s.retired →
      x.refuel_time = s.refuel_time →
      s1 = { x with discharged := false, db := s1.db, fuel_prefs := s1.fuel_prefs,
                    fuel_inrecipes := s1.fuel_inrecipes,
                    fuel_outrecipes := s1.fuel_outrecipes } →
      s1.core = s.core ∧ s1.fresh = s.fresh ∧ s1.spent = s.spent
      ∧ s1.cycle_step = s.cycle_step ∧ s1.cycle_time = s.cycle_time
      ∧ s1.refuel_time = s.refuel_time ∧ s1.core_mass = s.core_mass
      ∧ s1.discharge_mass = s.discharge_mass ∧ s1.retired = s.retired
      ∧ s1.discharged = false := by
    intro x e1 e2 e3 e4 e5 e6 e7 e8 e9 ex
    rw [ex]
    exact ⟨e1, e2, e3, e4, e5, e9, e6, e7, e8, rfl⟩
  obtain ⟨a1, a2, a3, a4, a5, a6, a7, a8, a9, a10⟩ :
      s1.core = s.core ∧ s1.fresh = s.fresh ∧ s1.spent = s.spent
      ∧ s1.cycle_step = s.cycle_step ∧ s1.cycle_time = s.cycle_time
      ∧ s1.refuel_time = s.refuel_time ∧ s1.core_mass = s.core_mass
      ∧ s1.discharge_mass = s.discharge_mass ∧ s1.retired = s.retired
      ∧ s1.discharged = false := by
    by_cases hc : s.cycle_step = s.cycle_time
    · rw [if_pos hc] at e
      exact hx (Record s "CYCLE_END" "") rfl rfl rfl rfl rfl rfl rfl rfl rfl (by rw [e]; rfl)
    · rw [if_neg hc] at e
      exact hx s rfl rfl rfl rfl rfl rfl rfl rfl rfl (by rw [e]; rfl)
  obtain ⟨hr, hfull, hcap, hstep, hdis, hsat, hfresh⟩ := h
  refine ⟨a1, a2, a3, hp.1, a4, a5, a6, a7, a8, hp.2.1, hp.2.2.2, ?_⟩
  refine ⟨by rw [a9]; exact hr, by rw [a1, a7]; exact hfull, by rw [a1, a7]; exact hcap,
    by rw [a4, a5]; exact hstep, a10, by rw [a3, a8]; exact hsat, by rw [a2]; exact hfresh⟩

theorem Tock_saturated_ok (s : BulkReactor) (h : saturated s) : ∃ s1, Tock s = .ok s1 := by
  obtain ⟨hr, hfull, hcap, hstep, hdis, hsat, hfresh⟩ := h
  have e1 : TockRollover s = s := by
    unfold TockRollover
    rw [if_neg]
    rintro ⟨_, _, hd⟩
    rw [hdis] at hd
    cases hd
  unfold Tock
  rw [hr, e1]
  simp only [Bool.false_eq_true, if_false]
  have hx : ∀ x : BulkReactor, x.cycle_step = s.cycle_step → x.cycle_time = s.cycle_time →
      ∃ y, TockRecord x = .ok y := by
    intro x e2 e3
    unfold TockRecord
    rw [if_neg (by rw [e2, e3]; rintro ⟨_, hlt, _⟩; exact absurd hstep (not_le.mpr hlt))]
    unfold RecordSideProduct
    split
    · rw [sideProductRows_idle]
      exact ⟨_, rfl⟩
    · exact ⟨_, rfl⟩
  obtain ⟨y, hy⟩ : ∃ y, TockRecord (TockCycleStart s) = .ok y := by
    apply hx
    · unfold TockCycleStart; split <;> rfl
    · unfold TockCycleStart; split <;> rfl
  rw [hy]
  exact ⟨_, rfl⟩

theorem Tock_saturated_inv (s s1 : BulkReactor) (h : saturated s) (hK : Tock s = .ok s1) :
    s1.core = s.core ∧ s1.fresh = s.fresh ∧ s1.spent = s.spent ∧ s1.time = s.time
    ∧ s1.cycle_step = s.cycle_step + 1
    ∧ powerRows s1.db = powerRows s.db ++ [(s.time, 0)] ∧ saturated s1 := by
  obtain ⟨hr, hfull, hcap, hstep, hdis, hsat, hfresh⟩ := h
  have e1 : TockRollover s = s := by
    unfold TockRollover
    rw [if_neg]
    rintro ⟨_, _, hd⟩
    rw [hdis] at hd
    cases hd
  have e2 : TockAdvance s = { s with cycle_step := s.cycle_step + 1 } := by
    unfold TockAdvance
    rw [if_pos (Or.inr hfull)]
  have e := Tock_frame s s1 hr hK
  rw [e1, e2] at e
  obtain ⟨k1, k2, k3, k4⟩ := Tock_power s s1 hr hK
  have b1 : s1.core = s.core := by rw [e]
  have b2 : s1.fresh = s.fresh := by rw [e]
  have b3 : s1.spent = s.spent := by rw [e]
  have b4 : s1.cycle_step = s.cycle_step + 1 := by rw [e]
  have b5 : s1.cycle_time = s.cycle_time := by rw [e]
  have b6 : s1.core_mass = s.core_mass := by rw [e]
  have b7 : s1.discharge_mass = s.discharge_mass := by rw [e]
  have b8 : s1.discharged = s.discharged := by rw [e]
  refine ⟨b1, b2, b3, k1, b4, ?_, ?_⟩
  · rw [k4, if_neg]
    rintro ⟨_, _, hle⟩
    rw [b4, b5] at hle
    omega
  · refine ⟨by rw [k3]; exact hr, by rw [b1, b6]; exact hfull, by rw [b1, b6]; exact hcap,
      by rw [b4, b5]; omega, by rw [b8]; exact hdis, by rw [b3, b7]; exact hsat,
      by rw [b2]; exact hfresh⟩

theorem GetMatlRequests_full (s : BulkReactor) (h : s.core.quantity = s.core_mass) :
    GetMatlRequests s = .ok ([], s) := by
  unfold GetMatlRequests
  rw [if_pos (by rw [h, sub_self])]

theorem supplyStep_saturated (s s1 : BulkReactor) (b : Bool) (h : saturated s)
    (hS : supplyStep s = .ok (b, s1)) :
    b = false ∧ s1.core = s.core ∧ s1.fresh = s.fresh ∧ s1.spent = s.spent
    ∧ s1.time = s.time + 1
    ∧ powerRows s1.db = powerRows s.db ++ [(s.time, 0)] ∧ saturated s1 := by
  unfold supplyStep at hS
  split at hS
  · cases hS
  · rename_i t1 hT
    obtain ⟨a1, a2, a3, a4, _, _, _, _, _, _, a5, a6⟩ := Tick_saturated_inv s t1 h hT
    rw [GetMatlRequests_full t1 a6.2.1] at hS
    simp only [deliver] at hS
    split at hS
    · cases hS
    · rename_i t4 hK
      cases hS
      obtain ⟨c1, c2, c3, c4, _, c5, c6⟩ := Tock_saturated_inv t1 t4 a6 hK
      refine ⟨rfl, c1.trans a1, c2.trans a2, c3.trans a3, ?_, ?_, ?_⟩
      · show t4.time + 1 = _
        rw [c4, a4]
      · show powerRows t4.db = _
        rw [c5, a5, a4]
      · exact c6

theorem supplyRun_saturated (s : BulkReactor) (h : saturated s) :
    ∀ (n : Nat) (sn : BulkReactor), supplyRun n s = .ok sn →
      sn.core = s.core ∧ sn.fresh = s.fresh ∧ sn.spent = s.spent
      ∧ sn.time = s.time + n
      ∧ powerRows sn.db
          = powerRows s.db ++ (List.range n).map (fun i : Nat => (s.time + (i : Int), (0 : ℚ)))
      ∧ saturated sn := by
  intro n
  induction n with
  | zero =>
    intro sn hn
    cases hn
    exact ⟨rfl, rfl, rfl, by simp, by simp, h⟩
  | succ n ih =>
    intro sn hn
    simp only [supplyRun] at hn
    split at hn
    · cases hn
    · rename_i sm hm
      split at hn
      · cases hn
      · rename_i b sk hk
        cases hn
        obtain ⟨a1, a2, a3, a4, a5, a6⟩ := ih sm hm
        obtain ⟨_, c1, c2, c3, c4, c5, c6⟩ := supplyStep_saturated sm sn _ a6 hk
        refine ⟨c1.trans a1, c2.trans a2, c3.trans a3, ?_, ?_, c6⟩
        · rw [c4, a4]; push_cast; ring
        · rw [c5, a5, a4, List.range_succ, List.map_append, List.append_assoc]
          rfl

theorem TickSchedule_ok_congr (s x : BulkReactor) (e1 : x.time = s.time)
    (e2 : x.fuel_incommods = s.fuel_incommods)
    (e3 : x.pref_change_commods = s.pref_change_commods)
    (e4 : x.pref_change_values = s.pref_change_values)
    (e5 : x.pref_change_times = s.pref_change_times) (e6 : x.fuel_prefs = s.fuel_prefs)
    (e7 : x.recipe_change_commods = s.recipe_change_commods)
    (e8 : x.recipe_change_in = s.recipe_change_in)
    (e9 : x.recipe_change_out = s.recipe_change_out)
    (e10 : x.recipe_change_times = s.recipe_change_times)
    (e11 : x.fuel_inrecipes = s.fuel_inrecipes) (e12 : x.fuel_outrecipes = s.fuel_outrecipes)
    (h : ∃ y, TickSchedule s = .ok y) : ∃ y, TickSchedule x = .ok y := by
  obtain ⟨y, hy⟩ := h
  unfold TickSchedule at hy ⊢
  rw [e1, e2, e3, e4, e5, e6, e7, e8, e9, e10, e11, e12]
  split at hy
  · cases hy
  · split at hy
    · cases hy
    · exact ⟨_, rfl⟩

/-- C12: in a non-retired state with a full core (quantity = `core_mass` =
core capacity), `cycle_step >= cycle_time`, `discharged` false, less free room
in the spent pool than `discharge_mass` (and a fresh pool of non-negative
quantity), one step made of `Tick`, `GetMatlRequests` and `Tock` issues no
request, leaves the core, fresh and spent pools as they were, records exactly
one power row, with value 0, and ends in a state with the same conditions.
The step returns whenever the schedule loops of `Tick` do.  Hence over any
number of steps of the run without withdrawal the pools stay as they are, all
power rows carry 0 and no batch is ever delivered. -/
theorem C12_saturated_halt (s : BulkReactor) (hr : s.retired = false)
    (hfull : s.core.quantity = s.core_mass) (hcap : s.core.capacity = s.core_mass)
    (hstep : s.cycle_step ≥ s.cycle_time) (hdis : s.discharged = false)
    (hsat : s.spent.capacity - s.spent.quantity < s.discharge_mass)
    (hfresh : 0 ≤ s.fresh.quantity) :
    (∀ s1 ports s2 s3, Tick s = .ok s1 → GetMatlRequests s1 = .ok (ports, s2) →
        Tock s2 = .ok s3 →
        ports = [] ∧ s3.core = s.core ∧ s3.fresh = s.fresh ∧ s3.spent = s.spent
        ∧ powerRows s3.db = powerRows s.db ++ [(s.time, 0)]
        ∧ s3.retired = false ∧ s3.core.quantity = s3.core_mass
        ∧ s3.core.capacity = s3.core_mass ∧ s3.cycle_step ≥ s3.cycle_time
        ∧ s3.discharged = false
        ∧ s3.spent.capacity - s3.spent.quantity < s3.discharge_mass
        ∧ 0 ≤ s3.fresh.quantity)
    ∧ ((∃ x, TickSchedule s = .ok x) →
        ∃ s1 s3, Tick s = .ok s1 ∧ GetMatlRequests s1 = .ok ([], s1) ∧ Tock s1 = .ok s3)
    ∧ (∀ n sn, supplyRun n s = .ok sn →
        sn.core = s.core ∧ sn.fresh = s.fresh ∧ sn.spent = s.spent
        ∧ powerRows sn.db
            = powerRows s.db
              ++ (List.range n).map (fun i : Nat => (s.time + (i : Int), (0 : ℚ))))
    ∧ (∀ n, deliveryAt n s ≠ .ok true) := by
  have h : saturated s := ⟨hr, hfull, hcap, hstep, hdis, hsat, hfresh⟩
  refine ⟨?_, ?_, ?_, ?_⟩
  · intro s1 ports s2 s3 hT hG hK
    obtain ⟨a1, a2, a3, a4, _, _, _, _, _, _, a5, a6⟩ := Tick_saturated_inv s s1 h hT
    rw [GetMatlRequests_full s1 a6.2.1] at hG
    cases hG
    obtain ⟨c1, c2, c3, c4, _, c5, c6⟩ := Tock_saturated_inv s1 s3 a6 hK
    refine ⟨rfl, c1.trans a1, c2.trans a2, c3.trans a3, ?_, c6⟩
    rw [c5, a5, a4]
  · intro hS
    obtain ⟨s1, hT⟩ : ∃ s1, Tick s = .ok s1 := by
      rw [Tick_saturated s h]
      by_cases hc : s.cycle_step = s.cycle_time
      · rw [if_pos hc]
        exact TickSchedule_ok_congr s _ rfl rfl rfl rfl rfl rfl rfl rfl rfl rfl rfl rfl hS
      · rw [if_neg hc]
        exact TickSchedule_ok_congr s _ rfl rfl rfl rfl rfl rfl rfl rfl rfl rfl rfl rfl hS
    obtain ⟨_, _, _, _, _, _, _, _, _, _, _, a6⟩ := Tick_saturated_inv s s1 h hT
    obtain ⟨s3, hK⟩ := Tock_saturated_ok s1 a6
    exact ⟨s1, s3, hT, GetMatlRequests_full s1 a6.2.1, hK⟩
  · intro n sn hn
    obtain ⟨a1, a2, a3, _, a5, _⟩ := supplyRun_saturated s h n sn hn
    exact ⟨a1, a2, a3, a5⟩
  · intro n hd
    unfold deliveryAt at hd
    split at hd
    · cases hd
    · rename_i sn hn
      split at hd
      · cases hd
      · rename_i b sk hk
        obtain ⟨_, _, _, _, _, a6⟩ := supplyRun_saturated s h n sn hn
        obtain ⟨hb, _⟩ := supplyStep_saturated sn sk b a6 hk
        rw [hb] at hd
        cases hd

theorem C12_saturated_halt_witness :
    deliveriesWithin 10 (deployed 300 10 30 1 0 "uox" "waste" "uox" "spentuox") = 4
    ∧ (supplyStep saturatedReactor).map
        (fun r => (r.1, r.2.core, r.2.fresh, r.2.spent))
        = .ok (false, saturatedReactor.core, saturatedReactor.fresh, saturatedReactor.spent)
    ∧ (supplyStep saturatedReactor).map (fun r => (powerRows r.2.db, r.2.cycle_step))
        = .ok ([(0, 0)], 5)
    ∧ ∀ n, deliveryAt n saturatedReactor ≠ .ok true :=
  ⟨by decide!, by decide!, by decide!,
    (C12_saturated_halt saturatedReactor (by decide) (by decide!) (by decide!) (by decide)
      (by decide) (by decide!) (by decide!)).2.2.2⟩

/-! ## Lookups beyond the arrays -/

/-- C27: with `i` the stream index recovered for a batch from the identity
index, each of `fuel_incommod`, `fuel_outcommod`, `fuel_inrecipe` and
`fuel_outrecipe` ends in `KeyError` when `i` is at least the length of the
array it queries, whereas `fuel_pref`, which cannot raise, returns 0 when `i`
is at least the length of `fuel_prefs` and `fuel_prefs[i]` otherwise. -/
theorem C27_lookups_out_of_range (s : BulkReactor) (m : Material) :
    (s.fuel_incommods.length ≤ (mapIndex s.res_indexes m.obj_id).1 →
      fuel_incommod s m = .error .KeyError)
    ∧ (s.fuel_outcommods.length ≤ (mapIndex s.res_indexes m.obj_id).1 →
      fuel_outcommod s m = .error .KeyError)
    ∧ (s.fuel_inrecipes.length ≤ (mapIndex s.res_indexes m.obj_id).1 →
      fuel_inrecipe s m = .error .KeyError)
    ∧ (s.fuel_outrecipes.length ≤ (mapIndex s.res_indexes m.obj_id).1 →
      fuel_outrecipe s m = .error .KeyError)
    ∧ (s.fuel_prefs.length ≤ (mapIndex s.res_indexes m.obj_id).1 → (fuel_pref s m).1 = 0)
    ∧ (∀ p, s.fuel_prefs[(mapIndex s.res_indexes m.obj_id).1]? = some p →
        (fuel_pref s m).1 = p) := by
  refine ⟨?_, ?_, ?_, ?_, ?_, ?_⟩
  · intro h
    simp only [fuel_incommod, List.getElem?_eq_none h]
  · intro h
    simp only [fuel_outcommod, List.getElem?_eq_none h]
  · intro h
    simp only [fuel_inrecipe, List.getElem?_eq_none h]
  · intro h
    simp only [fuel_outrecipe, List.getElem?_eq_none h]
  · intro h
    simp only [fuel_pref, List.getElem?_eq_none h]
  · intro p h
    simp only [fuel_pref, h]

/-! ## Decommission readiness -/

theorem TickRetiredDischarge_frame (s s1 : BulkReactor)
    (h : TickRetiredDischarge s = .ok s1) :
    s1 = { s with core := s1.core, spent := s1.spent, res_indexes := s1.res_indexes,
                  next_obj_id := s1.next_obj_id, db := s1.db } := by
  unfold TickRetiredDischarge at h
  split at h
  · split at h
    · split at h
      · cases h
      · rename_i hq
        cases h
        exact Discharge_Transmute_frame _ _ _ _ hq
    · split at h
      · cases h
      · rename_i hq
        cases h
        exact Discharge_Transmute2_frame _ _ _ _ _ hq
  · cases h; rfl


/-- C22: `CheckDecommissionCondition` is true exactly when the core and the
spent pool both hold no batch; it gives the same answer on any two states with
the same core and spent pools, whatever their fresh pool and timing fields.
For a retired facility, a `Tick` that returns ends in the state left by that
step's discharge attempt, decommissioned exactly when the core and spent pools
of that state hold no batch; the `Tick` returns whenever the discharge attempt
does. -/
theorem C22_decommission_condition (s : BulkReactor) :
    (CheckDecommissionCondition s = true ↔ s.core.rs = [] ∧ s.spent.rs = [])
    ∧ (∀ s2 : BulkReactor, s2.core = s.core → s2.spent = s.spent →
        CheckDecommissionCondition s2 = CheckDecommissionCondition s)
    ∧ (s.retired = true → ∀ s1, Tick s = .ok s1 →
        ∃ s2, TickRetiredDischarge (Record s "RETIRED" "") = .ok s2
          ∧ s1 = (if s2.core.rs = [] ∧ s2.spent.rs = [] then Decommission s2 else s2)
          ∧ s1.core = s2.core ∧ s1.spent = s2.spent
          ∧ (s1.decommissioned = true ↔
              (s2.core.rs = [] ∧ s2.spent.rs = []) ∨ s.decommissioned = true))
    ∧ (s.retired = true → ∀ s2, TickRetiredDischarge (Record s "RETIRED" "") = .ok s2 →
        Tick s = .ok (if s2.core.rs = [] ∧ s2.spent.rs = [] then Decommission s2 else s2)) := by
  have hiff : ∀ x : BulkReactor,
      CheckDecommissionCondition x = true ↔ x.core.rs = [] ∧ x.spent.rs = [] := by
    intro x
    simp [CheckDecommissionCondition, ResBuf.count]
  have htick : s.retired = true → ∀ s2,
      TickRetiredDischarge (Record s "RETIRED" "") = .ok s2 →
      Tick s = .ok (if s2.core.rs = [] ∧ s2.spent.rs = [] then Decommission s2 else s2) := by
    intro hr s2 hd
    simp only [Tick, hr, if_true, TickRetired, hd]
    by_cases hc : s2.core.rs = [] ∧ s2.spent.rs = []
    · rw [if_pos ((hiff s2).mpr hc), if_pos hc]
    · rw [if_neg (fun h => hc ((hiff s2).mp h)), if_neg hc]
  refine ⟨hiff s, ?_, ?_, htick⟩
  · intro s2 h1 h2
    simp only [CheckDecommissionCondition, h1, h2]
  · intro hr s1 h
    cases hd : TickRetiredDischarge (Record s "RETIRED" "") with
    | error e => simp [Tick, hr, TickRetired, hd] at h
    | ok s2 =>
      rw [htick hr s2 hd] at h
      cases h
      have hdec : s2.decommissioned = s.decommissioned := by
        rw [TickRetiredDischarge_frame _ _ hd]
        rfl
      refine ⟨s2, rfl, rfl, ?_, ?_, ?_⟩
      · split <;> rfl
      · split <;> rfl
      · by_cases hc : s2.core.rs = [] ∧ s2.spent.rs = []
        · rw [if_pos hc]
          exact ⟨fun _ => Or.inl hc, fun _ => rfl⟩
        · rw [if_neg hc, hdec]
          exact ⟨fun h => Or.inr h, fun h => h.resolve_left hc⟩

theorem C22_decommission_condition_witness :
    (Tick emptiedReactor).map (fun s1 => s1.decommissioned) = .ok true
    ∧ (Tick lateRetiredReactor).map (fun s1 => s1.decommissioned) = .ok false
    ∧ (CheckDecommissionCondition emptiedReactor = true
        ↔ emptiedReactor.core.rs = [] ∧ emptiedReactor.spent.rs = []) :=
  ⟨by decide!, by decide!, (C22_decommission_condition emptiedReactor).1⟩

/-! ## Reload -/

/-- C24: in a state where the three pools satisfy `0 <= quantity <= capacity`,
`Load` returns and moves exactly `min(core capacity - core quantity, fresh
quantity)` from the fresh pool to the core: the core quantity grows and the
fresh quantity shrinks by that amount, their sum is unchanged, the core
quantity stays within its capacity, and afterwards the fresh quantity is 0 or
the core is at capacity; when the minimum is 0 the state is unchanged.  The
spent pool and the capacities are never touched. -/
theorem C24_load (s : BulkReactor) (hp : PoolsOK s) :
    ∃ s1, Load s = .ok s1
      ∧ s1.core.quantity
          = s.core.quantity + min (s.core.capacity - s.core.quantity) s.fresh.quantity
      ∧ s1.fresh.quantity
          = s.fresh.quantity - min (s.core.capacity - s.core.quantity) s.fresh.quantity
      ∧ s1.core.quantity + s1.fresh.quantity = s.core.quantity + s.fresh.quantity
      ∧ s1.core.quantity ≤ s1.core.capacity
      ∧ (s1.fresh.quantity = 0 ∨ s1.core.quantity = s1.core.capacity)
      ∧ (min (s.core.capacity - s.core.quantity) s.fresh.quantity = 0 → s1 = s)
      ∧ s1.spent = s.spent ∧ s1.core.capacity = s.core.capacity
      ∧ s1.fresh.capacity = s.fresh.capacity ∧ PoolsOK s1 := by
  obtain ⟨⟨hc0, hc1⟩, ⟨hf0, hf1⟩, hs⟩ := hp
  have hq0 : 0 ≤ min (s.core.capacity - s.core.quantity) s.fresh.quantity :=
    le_min (by linarith) hf0
  have hq1 : min (s.core.capacity - s.core.quantity) s.fresh.quantity ≤ s.fresh.quantity :=
    min_le_right _ _
  have hq2 : min (s.core.capacity - s.core.quantity) s.fresh.quantity
      ≤ s.core.capacity - s.core.quantity := min_le_left _ _
  have hend : ∀ q : ℚ, q = min (s.core.capacity - s.core.quantity) s.fresh.quantity →
      s.fresh.quantity - q = 0 ∨ s.core.quantity + q = s.core.capacity := by
    intro q hq
    rcases min_choice (s.core.capacity - s.core.quantity) s.fresh.quantity with h | h
    · right; rw [hq, h]; ring
    · left; rw [hq, h]; ring
  by_cases hz : min (s.core.capacity - s.core.quantity) s.fresh.quantity = 0
  · refine ⟨s, ?_, ?_, ?_, rfl, hc1, ?_, fun _ => rfl, rfl, rfl, rfl,
      ⟨⟨hc0, hc1⟩, ⟨hf0, hf1⟩, hs⟩⟩
    · unfold Load
      rw [if_pos hz]
    · rw [hz, add_zero]
    · rw [hz, sub_zero]
    · have := hend 0 hz.symm
      rcases this with h | h
      · left; linarith
      · right; linarith
  · obtain ⟨m, fresh1, hpop, q1, q2, q3⟩ :=
      Pop_ok s.fresh _ s.next_obj_id hq0 hq1
    have hfit : s.core.quantity + m.quantity ≤ s.core.capacity := by
      rw [q1]; linarith
    have hpush := Push_ok s.core m hfit
    obtain ⟨p1, p2, p3, p4⟩ := Push_quantity _ _ _ hpush
    refine ⟨{ s with core := { s.core with rs := s.core.rs ++ [m] }, fresh := fresh1,
                     next_obj_id := s.next_obj_id + 1 }, ?_, ?_, q2, ?_, p4, ?_,
      fun h => absurd h hz, rfl, rfl, q3, ?_⟩
    · unfold Load
      rw [if_neg hz, hpop]
      simp only
      rw [hpush]
    · show ({ s.core with rs := s.core.rs ++ [m] } : ResBuf).quantity = _
      rw [p3, q1]
    · show ({ s.core with rs := s.core.rs ++ [m] } : ResBuf).quantity + fresh1.quantity = _
      rw [p3, q1, q2]; ring
    · have := hend _ rfl
      rcases this with h | h
      · left
        show fresh1.quantity = 0
        rw [q2]; exact h
      · right
        show ({ s.core with rs := s.core.rs ++ [m] } : ResBuf).quantity = s.core.capacity
        rw [p3, q1]; exact h
    · refine ⟨⟨?_, p4⟩, ⟨?_, ?_⟩, hs⟩
      · show 0 ≤ ({ s.core with rs := s.core.rs ++ [m] } : ResBuf).quantity
        rw [p3, q1]; linarith
      · show 0 ≤ fresh1.quantity
        rw [q2]; linarith
      · show fresh1.quantity ≤ fresh1.capacity
        rw [q2, q3]; linarith

theorem C24_load_witness :
    (Load reloadReactor).map (fun s1 => (s1.core.rs, s1.fresh.rs))
        = .ok ([{ obj_id := 0, quantity := 290, comp := "uox" },
                { obj_id := 2, quantity := 10, comp := "uox" }],
               [{ obj_id := 1, quantity := 15, comp := "uox" }])
    ∧ ∃ s1, Load reloadReactor = .ok s1
        ∧ s1.core.quantity = reloadReactor.core.quantity
            + min (reloadReactor.core.capacity - reloadReactor.core.quantity)
                reloadReactor.fresh.quantity
        ∧ s1.fresh.quantity = reloadReactor.fresh.quantity
            - min (reloadReactor.core.capacity - reloadReactor.core.quantity)
                reloadReactor.fresh.quantity
        ∧ s1.core.quantity + s1.fresh.quantity
            = reloadReactor.core.quantity + reloadReactor.fresh.quantity
        ∧ s1.core.quantity ≤ s1.core.capacity
        ∧ (s1.fresh.quantity = 0 ∨ s1.core.quantity = s1.core.capacity)
        ∧ (min (reloadReactor.core.capacity - reloadReactor.core.quantity)
              reloadReactor.fresh.quantity = 0 → s1 = reloadReactor)
        ∧ s1.spent = reloadReactor.spent ∧ s1.core.capacity = reloadReactor.core.capacity
        ∧ s1.fresh.capacity = reloadReactor.fresh.capacity ∧ PoolsOK s1 :=
  ⟨by decide!, C24_load reloadReactor (by unfold PoolsOK; decide!)⟩

/-! ## Routine discharge -/

theorem Tick_active (s : BulkReactor) (hr : s.retired = false) :
    Tick s
      = (TickDischarge (if s.cycle_step = s.cycle_time then Record s "CYCLE_END" "" else s)).bind
          (fun s2 => (TickLoad s2).bind TickSchedule) := by
  unfold Tick
  rw [hr]
  simp only [Bool.false_eq_true, if_false]
  cases TickDischarge (if s.cycle_step = s.cycle_time then Record s "CYCLE_END" "" else s) with
  | error e => rfl
  | ok s2 =>
    simp only [Except.bind]
    cases TickLoad s2 <;> rfl

theorem TickLoad_frame (s s1 : BulkReactor) (h : TickLoad s = .ok s1) :
    s1 = { s with core := s1.core, fresh := s1.fresh, next_obj_id := s1.next_obj_id } := by
  unfold TickLoad at h
  split at h
  · exact Load_frame s s1 h
  · cases h; rfl

/-- C23: for a non-retired facility, with `s0` the state after the `CYCLE_END`
record (made when `cycle_step == cycle_time`): when `cycle_step >= cycle_time`
and `discharged` is false at entry, `Tick` calls
`Discharge_Transmute(discharge_mass)` on `s0`, stores its result in
`discharged`, then reloads and applies the schedule, so every `Tick` that
returns ends with `discharged` equal to the result of the attempt; otherwise
`Tick` is the reload (when `cycle_step >= cycle_time`) and the schedule on
`s0` with no discharge: the spent pool, the identity index, the event log of
`s0` and `discharged` are unchanged.  When `cycle_step < cycle_time`, `Tick`
is the schedule update alone and leaves the core, fresh and spent pools and
`discharged` unchanged. -/
theorem C23_routine_discharge (s : BulkReactor) (hr : s.retired = false) :
    (s.cycle_step ≥ s.cycle_time ∧ s.discharged = false →
      Tick s
        = (Discharge_Transmute
            (if s.cycle_step = s.cycle_time then Record s "CYCLE_END" "" else s)
            s.discharge_mass).bind
            (fun r => (Load { r.2 with discharged := r.1 }).bind TickSchedule)
      ∧ ∀ s1, Tick s = .ok s1 →
          ∃ r sd, Discharge_Transmute
              (if s.cycle_step = s.cycle_time then Record s "CYCLE_END" "" else s)
              s.discharge_mass = .ok (r, sd)
            ∧ s1.discharged = r)
    ∧ (¬ (s.cycle_step ≥ s.cycle_time ∧ s.discharged = false) →
      Tick s
        = (TickLoad (if s.cycle_step = s.cycle_time then Record s "CYCLE_END" "" else s)).bind
            TickSchedule
      ∧ ∀ s1, Tick s = .ok s1 →
          s1.discharged = s.discharged ∧ s1.spent = s.spent
          ∧ s1.res_indexes = s.res_indexes
          ∧ s1.db = (if s.cycle_step = s.cycle_time then Record s "CYCLE_END" "" else s).db)
    ∧ (s.cycle_step < s.cycle_time →
      Tick s = TickSchedule s
      ∧ ∀ s1, Tick s = .ok s1 →
          s1.core = s.core ∧ s1.fresh = s.fresh ∧ s1.spent = s.spent
          ∧ s1.discharged = s.discharged) := by
  have hT := Tick_active s hr
  have hfields : (if s.cycle_step = s.cycle_time then Record s "CYCLE_END" "" else s).cycle_step
        = s.cycle_step
      ∧ (if s.cycle_step = s.cycle_time then Record s "CYCLE_END" "" else s).cycle_time
        = s.cycle_time
      ∧ (if s.cycle_step = s.cycle_time then Record s "CYCLE_END" "" else s).discharged
        = s.discharged
      ∧ (if s.cycle_step = s.cycle_time then Record s "CYCLE_END" "" else s).discharge_mass
        = s.discharge_mass
      ∧ (if s.cycle_step = s.cycle_time then Record s "CYCLE_END" "" else s).spent = s.spent
      ∧ (if s.cycle_step = s.cycle_time then Record s "CYCLE_END" "" else s).res_indexes
        = s.res_indexes := by
    split <;> exact ⟨rfl, rfl, rfl, rfl, rfl, rfl⟩
  obtain ⟨f1, f2, f3, f4, f5, f6⟩ := hfields
  generalize (if s.cycle_step = s.cycle_time then Record s "CYCLE_END" "" else s) = s0
    at hT f1 f2 f3 f4 f5 f6 ⊢
  refine ⟨?_, ?_, ?_⟩
  · rintro ⟨hge, hdis⟩
    have hD : TickDischarge s0
        = (Discharge_Transmute s0 s.discharge_mass).bind
            (fun r => .ok { r.2 with discharged := r.1 }) := by
      unfold TickDischarge
      rw [if_pos ⟨by rw [f1, f2]; exact hge, by rw [f3]; exact hdis⟩, f4]
      cases Discharge_Transmute s0 s.discharge_mass with
      | error e => rfl
      | ok r => rfl
    have hTick : Tick s
        = (Discharge_Transmute s0 s.discharge_mass).bind
            (fun r => (Load { r.2 with discharged := r.1 }).bind TickSchedule) := by
      rw [hT, hD]
      cases hd : Discharge_Transmute s0 s.discharge_mass with
      | error e => rfl
      | ok r =>
        obtain ⟨b, sd⟩ := r
        simp only [Except.bind]
        have e := Discharge_Transmute_frame _ _ _ _ hd
        have hcs : sd.cycle_step ≥ sd.cycle_time := by
          rw [e]
          show s0.cycle_step ≥ s0.cycle_time
          rw [f1, f2]; exact hge
        unfold TickLoad
        rw [if_pos hcs]
    refine ⟨hTick, ?_⟩
    intro s1 h1
    rw [hTick] at h1
    cases hd : Discharge_Transmute s0 s.discharge_mass with
    | error e => rw [hd] at h1; cases h1
    | ok r =>
      obtain ⟨b, sd⟩ := r
      rw [hd] at h1
      simp only [Except.bind] at h1
      refine ⟨b, sd, rfl, ?_⟩
      cases hl : Load { sd with discharged := b } with
      | error e => rw [hl] at h1; cases h1
      | ok s3 =>
        rw [hl] at h1
        simp only at h1
        have e3 := Load_frame _ _ hl
        have e4 := TickSchedule_frame _ _ h1
        rw [e4, e3]
  · intro hn
    have hD : TickDischarge s0 = .ok s0 := by
      unfold TickDischarge
      rw [if_neg (by rw [f1, f2, f3]; exact hn)]
    have hTick : Tick s = (TickLoad s0).bind TickSchedule := by
      rw [hT, hD]
      rfl
    refine ⟨hTick, ?_⟩
    intro s1 h1
    rw [hTick] at h1
    cases hl : TickLoad s0 with
    | error e => rw [hl] at h1; cases h1
    | ok s3 =>
      rw [hl] at h1
      simp only [Except.bind] at h1
      have e3 := TickLoad_frame _ _ hl
      have e4 := TickSchedule_frame _ _ h1
      refine ⟨?_, ?_, ?_, ?_⟩
      · rw [e4, e3]; exact f3
      · rw [e4, e3]; exact f5
      · rw [e4, e3]; exact f6
      · rw [e4, e3]
  · intro hlt
    have hne : ¬ s.cycle_step = s.cycle_time := by omega
    have hs0 : Tick s = TickSchedule s := by
      have hT2 := Tick_active s hr
      rw [if_neg hne] at hT2
      rw [hT2]
      have hD : TickDischarge s = .ok s := by
        unfold TickDischarge
        rw [if_neg (fun h => absurd h.1 (by omega))]
      have hL : TickLoad s = .ok s := by
        unfold TickLoad
        rw [if_neg (by omega)]
      rw [hD]
      simp only [Except.bind]
      rw [hL]
    refine ⟨hs0, ?_⟩
    intro s1 h1
    rw [hs0] at h1
    have e4 := TickSchedule_frame _ _ h1
    refine ⟨?_, ?_, ?_, ?_⟩ <;> rw [e4]

theorem C23_routine_discharge_witness :
    (Tick { loadedReactor with cycle_step := 4 }).map
        (fun s1 => (s1.discharged, s1.core.quantity, s1.spent.quantity)) = .ok (true, 290, 10)
    ∧ (Tick saturatedReactor).map
        (fun s1 => (s1.discharged, s1.core.quantity, s1.spent.quantity)) = .ok (false, 300, 30)
    ∧ (loadedReactor.cycle_step < loadedReactor.cycle_time →
        Tick loadedReactor = TickSchedule loadedReactor
        ∧ ∀ s1, Tick loadedReactor = .ok s1 →
            s1.core = loadedReactor.core ∧ s1.fresh = loadedReactor.fresh
            ∧ s1.spent = loadedReactor.spent
            ∧ s1.discharged = loadedReactor.discharged) :=
  ⟨by decide!, by decide!, (C23_routine_discharge loadedReactor (by decide)).2.2⟩

/-! ## The spent-fuel snapshot -/

theorem peekLoop_tags (mats : List Material) :
    ∀ (s : BulkReactor) (mapped g : List (String × List Material)) (s1 : BulkReactor),
      peekLoop mats s mapped = .ok (g, s1) →
      ∀ m ∈ mats, ∃ c, outcommodOf s m = some c := by
  induction mats with
  | nil =>
    intro s mapped g s1 _ m hm
    exact absurd hm (List.not_mem_nil m)
  | cons x rest ih =>
    intro s mapped g s1 h m hm
    unfold peekLoop at h
    split at h
    · cases h
    · rename_i commod s2 hfo
      obtain ⟨hx, hs⟩ := fuel_outcommod_spec s s2 x commod hfo
      rcases List.mem_cons.mp hm with rfl | hm
      · exact ⟨commod, hx⟩
      · obtain ⟨c, hc⟩ := ih s2 _ g s1 h m hm
        rw [sameStreams_outcommodOf s s2 hs m] at hc
        exact ⟨c, hc⟩

theorem PeekSpent_tags (s s1 : BulkReactor) (g : List (String × List Material))
    (h : PeekSpent s = .ok (g, s1)) :
    ∀ m ∈ s.spent.rs, ∃ c, outcommodOf s m = some c := by
  unfold PeekSpent at h
  simp only [ResBuf.PopN, ResBuf.count, lt_irrefl, if_false, List.take_length,
    List.drop_length] at h
  unfold ResBuf.PushAll at h
  split at h
  · cases h
  · rename_i sp hp
    split at hp
    · cases hp
    · cases hp
      exact peekLoop_tags _ _ _ _ _ h

/-- C26: whenever `PeekSpent` returns, the state differs from the one before
at most in the identity index (which still recovers the same stream for every
batch): the spent pool holds the same batches with the same identities in the
same order, and the returned map sends every output tag to exactly the batches
of the pool whose recovered output tag is that tag, in pool order, so that
each group is a subsequence of the pool and every pool batch lies in the group
of its recovered tag and in no other.  `PeekSpent` returns whenever every
batch of the pool has a recoverable output tag and the pool quantity is within
its capacity. -/
theorem C26_peek_spent (s : BulkReactor) :
    (∀ g s1, PeekSpent s = .ok (g, s1) →
      s1.spent = s.spent ∧ s1.core = s.core ∧ s1.fresh = s.fresh
      ∧ s1 = { s with res_indexes := s1.res_indexes }
      ∧ (∀ m, streamOf s1.res_indexes m = streamOf s.res_indexes m)
      ∧ (∀ c, mapMats g c = s.spent.rs.filter (fun m => outcommodOf s m = some c))
      ∧ (∀ c, (mapMats g c).Sublist s.spent.rs)
      ∧ (∀ m ∈ s.spent.rs, ∃ c, outcommodOf s m = some c ∧ m ∈ mapMats g c
          ∧ ∀ c2, m ∈ mapMats g c2 → c2 = c))
    ∧ ((∀ m ∈ s.spent.rs, ∃ c, outcommodOf s m = some c) →
        s.spent.quantity ≤ s.spent.capacity →
        ∃ g s1, PeekSpent s = .ok (g, s1)) := by
  refine ⟨?_, PeekSpent_ok s⟩
  intro g s1 h
  obtain ⟨⟨e, hst⟩, hg⟩ := PeekSpent_spec s s1 g h
  have hg2 : ∀ c, mapMats g c = s.spent.rs.filter (fun m => outcommodOf s m = some c) := hg
  refine ⟨by rw [e], by rw [e], by rw [e], e, hst, hg2, ?_, ?_⟩
  · intro c
    rw [hg2]
    exact List.filter_sublist _
  · intro m hm
    have htag : ∃ c, outcommodOf s m = some c := PeekSpent_tags s s1 g h m hm
    obtain ⟨c, hc⟩ := htag
    refine ⟨c, hc, ?_, ?_⟩
    · rw [hg2]
      exact List.mem_filter.mpr ⟨hm, by simpa using hc⟩
    · intro c2 h2
      rw [hg2] at h2
      have := (List.mem_filter.mp h2).2
      simp only [decide_eq_true_eq] at this
      rw [hc] at this
      exact (Option.some.inj this).symm

theorem C26_peek_spent_witness :
    (PeekSpent mixedSpentReactor).map
        (fun r => (mapMats r.1 "waste", mapMats r.1 "mwaste", r.2.spent))
        = .ok ([{ obj_id := 1, quantity := 10, comp := "spentuox" },
                { obj_id := 3, quantity := 10, comp := "spentuox" }],
               [{ obj_id := 2, quantity := 10, comp := "spentmox" }],
               mixedSpentReactor.spent)
    ∧ ∃ g s1, PeekSpent mixedSpentReactor = .ok (g, s1) :=
  ⟨by decide!,
    (C26_peek_spent mixedSpentReactor).2
      (fun m hm => Option.isSome_iff_exists.mp
        ((by decide! : ∀ m ∈ mixedSpentReactor.spent.rs,
            (outcommodOf mixedSpentReactor m).isSome = true) m hm))
      (by decide!)⟩

/-! ## The timing invariant -/

theorem Tick_timing (s s1 : BulkReactor) (h : Tick s = .ok s1) :
    s1.cycle_step = s.cycle_step ∧ s1.cycle_time = s.cycle_time
    ∧ (s1.discharged = true → s.discharged = true ∨ s.cycle_step ≥ s.cycle_time) := by
  cases hr : s.retired with
  | true =>
    have hT : Tick s = TickRetired s := by simp [Tick, hr]
    rw [hT] at h
    have e := TickRetired_frame s s1 h
    refine ⟨by rw [e], by rw [e], fun hd => Or.inl ?_⟩
    rw [e] at hd
    exact hd
  | false =>
    rw [Tick_active s hr] at h
    cases hd : TickDischarge (if s.cycle_step = s.cycle_time then Record s "CYCLE_END" "" else s)
      with
    | error e => rw [hd] at h; cases h
    | ok s2 =>
      rw [hd] at h
      simp only [Except.bind] at h
      cases hl : TickLoad s2 with
      | error e => rw [hl] at h; cases h
      | ok s3 =>
        rw [hl] at h
        simp only at h
        have e3 := TickLoad_frame _ _ hl
        have e4 := TickSchedule_frame _ _ h
        have hx : ∀ x : BulkReactor, x.cycle_step = s.cycle_step → x.cycle_time = s.cycle_time →
            x.discharged = s.discharged → TickDischarge x = .ok s2 →
            s2.cycle_step = s.cycle_step ∧ s2.cycle_time = s.cycle_time
            ∧ (s2.discharged = true → s.discharged = true ∨ s.cycle_step ≥ s.cycle_time) := by
          intro x e1 e2 e5 hx
          unfold TickDischarge at hx
          split at hx
          · rename_i hc
            split at hx
            · cases hx
            · rename_i r sd hq
              cases hx
              have e := Discharge_Transmute_frame _ _ _ _ hq
              refine ⟨?_, ?_, fun _ => Or.inr ?_⟩
              · show sd.cycle_step = _
                rw [e]; exact e1
              · show sd.cycle_time = _
                rw [e]; exact e2
              · rw [← e1, ← e2]; exact hc.1
          · cases hx
            exact ⟨e1, e2, fun hd => Or.inl (by rw [← e5]; exact hd)⟩
        have h2 : s2.cycle_step = s.cycle_step ∧ s2.cycle_time = s.cycle_time
            ∧ (s2.discharged = true → s.discharged = true ∨ s.cycle_step ≥ s.cycle_time) := by
          by_cases hc : s.cycle_step = s.cycle_time
          · rw [if_pos hc] at hd
            exact hx (Record s "CYCLE_END" "") rfl rfl rfl hd
          · rw [if_neg hc] at hd
            exact hx s rfl rfl rfl hd
        obtain ⟨a1, a2, a3⟩ := h2
        refine ⟨?_, ?_, ?_⟩
        · rw [e4, e3]; exact a1
        · rw [e4, e3]; exact a2
        · intro hd1
          apply a3
          rw [e4, e3] at hd1
          exact hd1

theorem Tock_timing (s s1 : BulkReactor) (h : Tock s = .ok s1)
    (hinv : s.discharged = true → s.cycle_step ≥ s.cycle_time) :
    s1.cycle_time = s.cycle_time
    ∧ (s1.discharged = true → s1.cycle_step ≥ s1.cycle_time) := by
  cases hr : s.retired with
  | true =>
    rw [Tock_retired s hr] at h
    cases h
    exact ⟨rfl, hinv⟩
  | false =>
    have e := Tock_frame s s1 hr h
    by_cases hro : rollover s
    · have e1 : TockRollover s = { s with discharged := false, cycle_step := 0 } := by
        rw [TockRollover_eq, if_pos hro]
      have hd : s1.discharged = false := by
        rw [e, e1]
        unfold TockAdvance
        split <;> rfl
      have hc : s1.cycle_time = s.cycle_time := by
        rw [e, e1]
        unfold TockAdvance
        split <;> rfl
      exact ⟨hc, fun h1 => by rw [hd] at h1; cases h1⟩
    · have e1 : TockRollover s = s := by
        rw [TockRollover_eq, if_neg hro]
      rw [e1] at e
      have hd : s1.discharged = s.discharged := by
        rw [e]
        unfold TockAdvance
        split <;> rfl
      have hc : s1.cycle_time = s.cycle_time := by
        rw [e]
        unfold TockAdvance
        split <;> rfl
      have hs := Tock_cycle_step s s1 hr h hro
      refine ⟨hc, fun h1 => ?_⟩
      rw [hd] at h1
      have := hinv h1
      rw [hc, hs]
      split <;> omega

theorem TimedRun_timing (s0 s : BulkReactor) (hr : TimedRun s0 s)
    (h0 : s0.discharged = true → s0.cycle_step ≥ s0.cycle_time) :
    s.cycle_time = s0.cycle_time ∧ (s.discharged = true → s.cycle_step ≥ s.cycle_time) := by
  induction hr with
  | start => exact ⟨rfl, h0⟩
  | tick s s1 _ h ih =>
    obtain ⟨a1, a2, a3⟩ := Tick_timing s s1 h
    refine ⟨a2.trans ih.1, fun hd => ?_⟩
    rw [a1, a2]
    rcases a3 hd with h1 | h1
    · exact ih.2 h1
    · exact h1
  | tock s s1 _ h ih =>
    obtain ⟨a1, a2⟩ := Tock_timing s s1 h ih.2
    exact ⟨a1.trans ih.1, a2⟩
  | settle s s1 _ e1 e2 e3 ih =>
    refine ⟨e3.trans ih.1, fun hd => ?_⟩
    rw [e1, e3]
    exact ih.2 (by rw [← e2]; exact hd)

theorem GetMatlTrades_timing (trades : List Trade) :
    ∀ (s s1 : BulkReactor) (responses : List (Trade × Material)),
      GetMatlTrades trades s = .ok (responses, s1) →
      s1.cycle_step = s.cycle_step ∧ s1.discharged = s.discharged
      ∧ s1.cycle_time = s.cycle_time := by
  induction trades with
  | nil =>
    intro s s1 responses h
    cases h
    exact ⟨rfl, rfl, rfl⟩
  | cons tr rest ih =>
    intro s s1 responses h
    unfold GetMatlTrades at h
    split at h
    · cases h
    · split at h
      · cases h
      · rename_i rs s2 hrest
        cases h
        have h3 := ih _ s1 _ hrest
        exact h3

theorem TimedRun_trans (s0 s s2 : BulkReactor) (h1 : TimedRun s0 s) (h2 : TimedRun s s2) :
    TimedRun s0 s2 := by
  induction h2 with
  | start => exact h1
  | tick x x1 _ h ih => exact TimedRun.tick x x1 ih h
  | tock x x1 _ h ih => exact TimedRun.tock x x1 ih h
  | settle x x1 _ e1 e2 e3 ih => exact TimedRun.settle x x1 ih e1 e2 e3

theorem Reachable_TimedRun (s0 s : BulkReactor) (hr : Reachable s0 s) : TimedRun s0 s := by
  induction hr with
  | start => exact TimedRun.start
  | tick s s1 _ h ih => exact TimedRun.tick s s1 ih h
  | requests s s1 ports _ h ih =>
    refine TimedRun.settle s s1 ih ?_ ?_ ?_ <;>
    · unfold GetMatlRequests at h
      split at h
      · cases h; rfl
      · split at h
        · cases h; rfl
        · split at h
          · cases h
          · split at h
            · cases h
            · cases h; rfl
  | accept s s1 responses _ _ h ih =>
    obtain ⟨_, _, _, _, _, _, _, _, e⟩ := AcceptMatlTrades_inv responses s s1 h
    refine TimedRun.settle s s1 ih ?_ ?_ ?_ <;> rw [e]
  | bids s s1 cr ports _ h ih =>
    have e : s1.cycle_step = s.cycle_step ∧ s1.discharged = s.discharged
        ∧ s1.cycle_time = s.cycle_time := by
      unfold GetMatlBids at h
      split at h
      · have e := (bidLoop_spec cr _ _ ports s1 h).1.1
        rw [e]; exact ⟨rfl, rfl, rfl⟩
      · have e := (bidLoop_spec cr _ _ ports s1 h).1.1
        rw [e]; exact ⟨rfl, rfl, rfl⟩
    exact TimedRun.settle s s1 ih e.1 e.2.1 e.2.2
  | trades s s1 trades responses _ h ih =>
    obtain ⟨e1, e2, e3⟩ := GetMatlTrades_timing trades s s1 responses h
    exact TimedRun.settle s s1 ih e1 e2 e3
  | tock s s1 _ h ih => exact TimedRun.tock s s1 ih h
  | clock s t retired _ ih => exact TimedRun.settle s _ ih rfl rfl rfl

/-- C28: from a state with `discharged` false, such as the constructor state,
every state reached by `Tick` and `Tock` calls with arbitrary settlement in
between has the `cycle_time` of the start and satisfies: `discharged == true`
implies `cycle_step >= cycle_time`.  Hence, when such a non-retired state still
has `discharged` set after the rollover check of `Tock`, that `Tock` is not in
its power-producing branch and the power row it records carries 0.  The calls
of `GetMatlRequests`, `AcceptMatlTrades`, `GetMatlBids` and `GetMatlTrades` are
settlement steps: every state of `Reachable` is such a state. -/
theorem C28_timing_invariant (s0 s : BulkReactor) (h0 : s0.discharged = false)
    (hr : TimedRun s0 s) :
    s.cycle_time = s0.cycle_time
    ∧ (s.discharged = true → s.cycle_step ≥ s.cycle_time)
    ∧ (s.retired = false → (TockRollover s).discharged = true → ¬ producing s)
    ∧ (s.retired = false → (TockRollover s).discharged = true →
        ∀ s1, Tock s = .ok s1 → powerRows s1.db = powerRows s.db ++ [(s.time, 0)])
    ∧ (∀ s2, Reachable s s2 → TimedRun s0 s2) := by
  obtain ⟨a1, a2⟩ := TimedRun_timing s0 s hr (fun h => by rw [h0] at h; cases h)
  have hno : (TockRollover s).discharged = true → TockRollover s = s ∧ s.discharged = true := by
    intro hd
    rw [TockRollover_eq] at hd ⊢
    by_cases hro : rollover s
    · rw [if_pos hro] at hd
      cases hd
    · rw [if_neg hro] at hd ⊢
      exact ⟨rfl, hd⟩
  refine ⟨a1, a2, ?_, ?_, ?_⟩
  · intro _ hd hp
    obtain ⟨e, hdis⟩ := hno hd
    have hge := a2 hdis
    unfold producing at hp
    rw [e] at hp
    omega
  · intro hret hd s1 h
    obtain ⟨e, hdis⟩ := hno hd
    have hge := a2 hdis
    obtain ⟨_, _, _, k4⟩ := Tock_power s s1 hret h
    have hf := Tock_frame s s1 hret h
    rw [e] at hf
    have hct : s1.cycle_time = s.cycle_time := by
      rw [hf]; unfold TockAdvance; split <;> rfl
    have hcore : s1.core = s.core := by
      rw [hf]; unfold TockAdvance; split <;> rfl
    have hcm : s1.core_mass = s.core_mass := by
      rw [hf]; unfold TockAdvance; split <;> rfl
    have hro : ¬ rollover s := by
      intro hro
      have : (TockRollover s).discharged = false := by
        rw [TockRollover_eq, if_pos hro]
      rw [this] at hd
      cases hd
    have hs := Tock_cycle_step s s1 hret h hro
    rw [k4, if_neg]
    rintro ⟨hfull, _, hle⟩
    rw [hcore, hcm] at hfull
    rw [hs, if_pos (Or.inr hfull), hct] at hle
    omega
  · intro s2 h2
    exact TimedRun_trans s0 s s2 hr (Reachable_TimedRun s s2 h2)

theorem C28_timing_invariant_witness :
    Tick cycleEndReactor = .ok dischargedReactor
    ∧ dischargedReactor.discharged = true
    ∧ dischargedReactor.cycle_time = cycleEndReactor.cycle_time
    ∧ (dischargedReactor.discharged = true →
        dischargedReactor.cycle_step ≥ dischargedReactor.cycle_time)
    ∧ (Tock dischargedReactor).map (fun s1 => powerRows s1.db) = .ok [(0, 0)] :=
  ⟨by decide!, rfl,
    (C28_timing_invariant cycleEndReactor dischargedReactor rfl
      (TimedRun.tick _ _ TimedRun.start (by decide!))).1,
    (C28_timing_invariant cycleEndReactor dischargedReactor rfl
      (TimedRun.tick _ _ TimedRun.start (by decide!))).2.1,
    by decide!⟩

/-! ## Activation -/

/-- C21 (as stated, refuted): the per-stream arrays of `unevenReactor` have
the lengths 2, 1, 1, 0 and 3, yet `EnterNotify` returns and setup completes,
the only change being the position record. -/
theorem C21_enter_notify_counterexample :
    unevenReactor.fuel_incommods.length = 2 ∧ unevenReactor.fuel_outcommods.length = 1
    ∧ unevenReactor.fuel_inrecipes.length = 1 ∧ unevenReactor.fuel_outrecipes.length = 0
    ∧ unevenReactor.fuel_prefs.length = 3
    ∧ EnterNotify 1 0 0 unevenReactor
        = .ok { unevenReactor with db := [Datum.AgentPosition 0 0] } := by
  decide!

/-- C21 (amended): `EnterNotify` fails, with `ValueError`, exactly when
`recipe_change_commods`, `recipe_change_in` or `recipe_change_out` differs in
length from `recipe_change_times`, or `pref_change_commods` or
`pref_change_values` differs in length from `pref_change_times`; setup does
not complete in that case.  In every other case it returns, whatever the
lengths of the per-stream arrays: an empty `fuel_prefs` has been filled with
the default preference, one entry per element of `fuel_outcommods`, `hybrid_`
is cleared when there is no side product, and the position is recorded. -/
theorem C21_enter_notify (kDefaultPref latitude longitude : ℚ) (s : BulkReactor) :
    (EnterNotify kDefaultPref latitude longitude s = .error .ValueError
      ↔ (s.recipe_change_commods.length ≠ s.recipe_change_times.length
          ∨ s.recipe_change_in.length ≠ s.recipe_change_times.length
          ∨ s.recipe_change_out.length ≠ s.recipe_change_times.length
          ∨ s.pref_change_commods.length ≠ s.pref_change_times.length
          ∨ s.pref_change_values.length ≠ s.pref_change_times.length))
    ∧ ((∃ s1, EnterNotify kDefaultPref latitude longitude s = .ok s1)
      ↔ (s.recipe_change_commods.length = s.recipe_change_times.length
          ∧ s.recipe_change_in.length = s.recipe_change_times.length
          ∧ s.recipe_change_out.length = s.recipe_change_times.length
          ∧ s.pref_change_commods.length = s.pref_change_times.length
          ∧ s.pref_change_values.length = s.pref_change_times.length))
    ∧ (∀ s1, EnterNotify kDefaultPref latitude longitude s = .ok s1 →
        s1 = { s with
               fuel_prefs := if s.fuel_prefs.length = 0 then
                   List.replicate s.fuel_outcommods.length kDefaultPref
                 else s.fuel_prefs
               hybrid_ := if s.side_products.length = 0 then false else s.hybrid_
               db := s.db ++ [Datum.AgentPosition latitude longitude] }) := by
  have hm : changeArraysMismatch (EnterNotifyHybrid (EnterNotifyPrefs kDefaultPref s))
      ↔ (s.recipe_change_commods.length ≠ s.recipe_change_times.length
          ∨ s.recipe_change_in.length ≠ s.recipe_change_times.length
          ∨ s.recipe_change_out.length ≠ s.recipe_change_times.length
          ∨ s.pref_change_commods.length ≠ s.pref_change_times.length
          ∨ s.pref_change_values.length ≠ s.pref_change_times.length) := by
    unfold changeArraysMismatch EnterNotifyHybrid EnterNotifyPrefs
    split <;> split <;> exact Iff.rfl
  refine ⟨?_, ?_, ?_⟩
  · unfold EnterNotify
    constructor
    · intro h
      by_contra hc
      rw [if_neg (fun hx => hc (hm.mp hx))] at h
      cases h
    · intro h
      rw [if_pos (hm.mpr h)]
  · unfold EnterNotify
    constructor
    · rintro ⟨s1, h⟩
      by_cases hc : changeArraysMismatch (EnterNotifyHybrid (EnterNotifyPrefs kDefaultPref s))
      · rw [if_pos hc] at h
        cases h
      · have hn := fun hx => hc (hm.mpr hx)
        refine ⟨?_, ?_, ?_, ?_, ?_⟩
        · by_contra hx; exact hn (Or.inl hx)
        · by_contra hx; exact hn (Or.inr (Or.inl hx))
        · by_contra hx; exact hn (Or.inr (Or.inr (Or.inl hx)))
        · by_contra hx; exact hn (Or.inr (Or.inr (Or.inr (Or.inl hx))))
        · by_contra hx; exact hn (Or.inr (Or.inr (Or.inr (Or.inr hx))))
    · rintro ⟨h1, h2, h3, h4, h5⟩
      rw [if_neg]
      · exact ⟨_, rfl⟩
      · intro hx
        rcases hm.mp hx with h | h | h | h | h
        · exact h h1
        · exact h h2
        · exact h h3
        · exact h h4
        · exact h h5
  · intro s1 h
    unfold EnterNotify at h
    split at h
    · cases h
    · cases h
      unfold EnterNotifyHybrid EnterNotifyPrefs
      split <;> split <;> rfl

theorem C21_enter_notify_witness :
    EnterNotify 1 0 0 brokenScheduleReactor = .error .ValueError
    ∧ (EnterNotify 1 0 0
        { brokenScheduleReactor with pref_change_values := [2] }).map (fun s1 => s1.fuel_prefs)
        = .ok [1]
    ∧ (EnterNotify 1 0 0 brokenScheduleReactor = .error .ValueError
      ↔ (brokenScheduleReactor.recipe_change_commods.length
            ≠ brokenScheduleReactor.recipe_change_times.length
          ∨ brokenScheduleReactor.recipe_change_in.length
            ≠ brokenScheduleReactor.recipe_change_times.length
          ∨ brokenScheduleReactor.recipe_change_out.length
            ≠ brokenScheduleReactor.recipe_change_times.length
          ∨ brokenScheduleReactor.pref_change_commods.length
            ≠ brokenScheduleReactor.pref_change_times.length
          ∨ brokenScheduleReactor.pref_change_values.length
            ≠ brokenScheduleReactor.pref_change_times.length)) :=
  ⟨by decide!, by decide!, (C21_enter_notify 1 0 0 brokenScheduleReactor).1⟩

/-! ## Scheduled changes -/

theorem scheduledValue_skip {α : Type} (t : Int) (incommods commods : List String)
    (values : List α) (j i : Nat) (change_t : Int) (times : List Int)
    (h : ¬ (change_t = t ∧ (commods[i]?).bind (fun c => findStream c incommods) = some j)) :
    scheduledValue t incommods commods values j i (change_t :: times)
      = scheduledValue t incommods commods values j (i + 1) times := by
  simp only [scheduledValue, if_neg h]
  cases scheduledValue t incommods commods values j (i + 1) times <;> rfl

theorem scheduledValue_hit {α : Type} (t : Int) (incommods commods : List String)
    (values : List α) (j i : Nat) (change_t : Int) (times : List Int) (v : α)
    (h : change_t = t ∧ (commods[i]?).bind (fun c => findStream c incommods) = some j)
    (hv : values[i]? = some v) :
    scheduledValue t incommods commods values j i (change_t :: times)
      = some ((scheduledValue t incommods commods values j (i + 1) times).getD v) := by
  simp only [scheduledValue, if_pos h, hv]
  cases scheduledValue t incommods commods values j (i + 1) times <;> rfl

theorem updatePrefs_spec (t : Int) (incommods commods : List String) (values : List ℚ)
    (times : List Int) :
    ∀ (i : Nat) (prefs prefs1 : List ℚ),
      updatePrefs t incommods commods values i times prefs = .ok prefs1 →
      prefs1.length = prefs.length
      ∧ ∀ j p, prefs[j]? = some p →
          prefs1[j]? = some ((scheduledValue t incommods commods values j i times).getD p) := by
  induction times with
  | nil =>
    intro i prefs prefs1 h
    simp only [updatePrefs] at h
    cases h
    exact ⟨rfl, fun j p hp => by simp [scheduledValue, hp]⟩
  | cons change_t rest ih =>
    intro i prefs prefs1 h
    unfold updatePrefs at h
    split at h
    · rename_i hne
      obtain ⟨a1, a2⟩ := ih _ _ _ h
      refine ⟨a1, fun j p hp => ?_⟩
      rw [scheduledValue_skip _ _ _ _ _ _ _ _ (fun hx => hne hx.1.symm)]
      exact a2 j p hp
    · rename_i heq
      have heq2 : change_t = t := (not_not.mp heq).symm
      split at h
      · cases h
      · rename_i incommod hc
        split at h
        · rename_i hf
          obtain ⟨a1, a2⟩ := ih _ _ _ h
          refine ⟨a1, fun j p hp => ?_⟩
          rw [scheduledValue_skip _ _ _ _ _ _ _ _ (fun hx => by
            rw [hc] at hx
            simp only [Option.bind] at hx
            rw [hf] at hx
            cases hx.2)]
          exact a2 j p hp
        · rename_i j0 hf
          split at h
          · cases h
          · rename_i v hv
            split at h
            · rename_i hlt
              obtain ⟨a1, a2⟩ := ih _ _ _ h
              refine ⟨by rw [a1, List.length_set], fun j p hp => ?_⟩
              by_cases hj : j = j0
              · subst hj
                have hset : (prefs.set j v)[j]? = some v := by
                  rw [List.getElem?_set_self hlt]
                rw [a2 j v hset]
                rw [scheduledValue_hit _ _ _ _ _ _ _ _ v ⟨heq2, by
                  rw [hc]; simp only [Option.bind]; exact hf⟩ hv]
                rfl
              · have hset : (prefs.set j0 v)[j]? = some p := by
                  rw [List.getElem?_set_ne (fun e => hj e.symm)]
                  exact hp
                rw [a2 j p hset]
                rw [scheduledValue_skip _ _ _ _ _ _ _ _ (fun hx => by
                  rw [hc] at hx
                  simp only [Option.bind] at hx
                  rw [hf] at hx
                  exact hj (Option.some.inj hx.2).symm)]
            · cases h

theorem updateRecipes_spec (t : Int) (incommods commods change_in change_out : List String)
    (times : List Int) :
    ∀ (i : Nat) (recipes recipes1 : List String × List String),
      updateRecipes t incommods commods change_in change_out i times recipes = .ok recipes1 →
      recipes1.1.length = recipes.1.length ∧ recipes1.2.length = recipes.2.length
      ∧ (∀ j r, recipes.1[j]? = some r →
          recipes1.1[j]?
            = some ((scheduledValue t incommods commods change_in j i times).getD r))
      ∧ (∀ j r, recipes.2[j]? = some r →
          recipes1.2[j]?
            = some ((scheduledValue t incommods commods change_out j i times).getD r)) := by
  induction times with
  | nil =>
    intro i recipes recipes1 h
    simp only [updateRecipes] at h
    cases h
    exact ⟨rfl, rfl, fun j r hr => by simp [scheduledValue, hr],
      fun j r hr => by simp [scheduledValue, hr]⟩
  | cons change_t rest ih =>
    intro i recipes recipes1 h
    unfold updateRecipes at h
    split at h
    · rename_i hne
      obtain ⟨a1, a2, a3, a4⟩ := ih _ _ _ h
      refine ⟨a1, a2, fun j r hr => ?_, fun j r hr => ?_⟩
      · rw [scheduledValue_skip _ _ _ _ _ _ _ _ (fun hx => hne hx.1.symm)]
        exact a3 j r hr
      · rw [scheduledValue_skip _ _ _ _ _ _ _ _ (fun hx => hne hx.1.symm)]
        exact a4 j r hr
    · rename_i heq
      have heq2 : change_t = t := (not_not.mp heq).symm
      split at h
      · cases h
      · rename_i incommod hc
        split at h
        · rename_i hf
          have hskip : ∀ j, ¬ (change_t = t
              ∧ (commods[i]?).bind (fun c => findStream c incommods) = some j) := by
            intro j hx
            rw [hc] at hx
            simp only [Option.bind] at hx
            rw [hf] at hx
            cases hx.2
          obtain ⟨a1, a2, a3, a4⟩ := ih _ _ _ h
          refine ⟨a1, a2, fun j r hr => ?_, fun j r hr => ?_⟩
          · rw [scheduledValue_skip _ _ _ _ _ _ _ _ (hskip j)]
            exact a3 j r hr
          · rw [scheduledValue_skip _ _ _ _ _ _ _ _ (hskip j)]
            exact a4 j r hr
        · rename_i j0 hf
          have hhit : change_t = t
              ∧ (commods[i]?).bind (fun c => findStream c incommods) = some j0 :=
            ⟨heq2, by rw [hc]; simp only [Option.bind]; exact hf⟩
          have hskip : ∀ j, j ≠ j0 → ¬ (change_t = t
              ∧ (commods[i]?).bind (fun c => findStream c incommods) = some j) := by
            intro j hj hx
            rw [hc] at hx
            simp only [Option.bind] at hx
            rw [hf] at hx
            exact hj (Option.some.inj hx.2).symm
          split at h
          · rename_i rin rout hin hout
            split at h
            · rename_i hlt
              obtain ⟨a1, a2, a3, a4⟩ := ih _ _ _ h
              refine ⟨by rw [a1, List.length_set], by rw [a2, List.length_set],
                fun j r hr => ?_, fun j r hr => ?_⟩
              · by_cases hj : j = j0
                · subst hj
                  rw [a3 j rin (List.getElem?_set_self hlt.1),
                    scheduledValue_hit _ _ _ _ _ _ _ _ rin hhit hin]
                  rfl
                · have hset : (recipes.1.set j0 rin)[j]? = some r := by
                    rw [List.getElem?_set_ne (fun e => hj e.symm)]
                    exact hr
                  rw [a3 j r hset, scheduledValue_skip _ _ _ _ _ _ _ _ (hskip j hj)]
              · by_cases hj : j = j0
                · subst hj
                  rw [a4 j rout (List.getElem?_set_self hlt.2),
                    scheduledValue_hit _ _ _ _ _ _ _ _ rout hhit hout]
                  rfl
                · have hset : (recipes.2.set j0 rout)[j]? = some r := by
                    rw [List.getElem?_set_ne (fun e => hj e.symm)]
                    exact hr
                  rw [a4 j r hset, scheduledValue_skip _ _ _ _ _ _ _ _ (hskip j hj)]
            · cases h
          · cases h

theorem findStream_some_iff (c : String) (cs : List String) (j : Nat) :
    findStream c cs = some j ↔ (cs[j]? = some c ∧ ∀ k, k < j → cs[k]? ≠ some c) := by
  constructor
  · exact findStream_lt c cs j
  · rintro ⟨h1, h2⟩
    cases hf : findStream c cs with
    | none =>
      have hn := (findStream_none_iff c cs).mp hf
      exact absurd (List.getElem?_mem h1) hn
    | some i =>
      obtain ⟨a1, a2⟩ := findStream_lt c cs i hf
      rcases Nat.lt_trichotomy i j with hlt | heq | hgt
      · exact absurd a1 (h2 i hlt)
      · rw [heq]
      · exact absurd h1 (a2 j hgt)

theorem scheduledValue_none {α : Type} (t : Int) (incommods commods : List String)
    (values : List α) (j : Nat) (times : List Int) :
    ∀ i, (∀ k c, times[k]? = some t → commods[i + k]? = some c → findStream c incommods ≠ some j) →
      scheduledValue t incommods commods values j i times = none := by
  induction times with
  | nil => intro i _; rfl
  | cons change_t rest ih =>
    intro i h
    rw [scheduledValue_skip]
    · apply ih
      intro k c hk hc
      refine h (k + 1) c (by simpa using hk) ?_
      rw [← hc]
      congr 1
      omega
    · rintro ⟨e, hb⟩
      cases hc : commods[i]? with
      | none => rw [hc] at hb; cases hb
      | some c =>
        rw [hc] at hb
        exact h 0 c (by simp [e]) (by simpa using hc) hb

theorem findStream_bound (c : String) (cs : List String) (j : Nat)
    (h : findStream c cs = some j) : j < cs.length := by
  obtain ⟨a, _⟩ := findStream_lt c cs j h
  by_contra hc
  rw [List.getElem?_eq_none (not_lt.mp hc)] at a
  cases a

theorem updatePrefs_ok (t : Int) (incommods commods : List String) (values : List ℚ)
    (times : List Int) :
    ∀ (i : Nat) (prefs : List ℚ), i + times.length ≤ commods.length →
      i + times.length ≤ values.length → incommods.length ≤ prefs.length →
      ∃ prefs1, updatePrefs t incommods commods values i times prefs = .ok prefs1 := by
  induction times with
  | nil =>
    intro i prefs _ _ _
    exact ⟨prefs, by simp only [updatePrefs]⟩
  | cons change_t rest ih =>
    intro i prefs hc hv hp
    simp only [List.length_cons] at hc hv
    unfold updatePrefs
    by_cases hne : t ≠ change_t
    · rw [if_pos hne]
      exact ih _ _ (by omega) (by omega) hp
    · rw [if_neg hne]
      have hci : commods[i]? = some (commods[i]) := List.getElem?_eq_getElem (by omega)
      have hvi : values[i]? = some (values[i]) := List.getElem?_eq_getElem (by omega)
      rw [hci]
      simp only
      cases hf : findStream commods[i] incommods with
      | none => exact ih _ _ (by omega) (by omega) hp
      | some j =>
        simp only
        rw [hvi]
        simp only
        have hj := findStream_bound _ _ _ hf
        rw [if_pos (by omega)]
        exact ih _ _ (by omega) (by omega) (by rw [List.length_set]; exact hp)

theorem updateRecipes_ok (t : Int) (incommods commods change_in change_out : List String)
    (times : List Int) :
    ∀ (i : Nat) (recipes : List String × List String), i + times.length ≤ commods.length →
      i + times.length ≤ change_in.length → i + times.length ≤ change_out.length →
      incommods.length ≤ recipes.1.length → incommods.length ≤ recipes.2.length →
      ∃ recipes1,
        updateRecipes t incommods commods change_in change_out i times recipes
          = .ok recipes1 := by
  induction times with
  | nil =>
    intro i recipes _ _ _ _ _
    exact ⟨recipes, by simp only [updateRecipes]⟩
  | cons change_t rest ih =>
    intro i recipes hc hin hout h1 h2
    simp only [List.length_cons] at hc hin hout
    unfold updateRecipes
    by_cases hne : t ≠ change_t
    · rw [if_pos hne]
      exact ih _ _ (by omega) (by omega) (by omega) h1 h2
    · rw [if_neg hne]
      have hci : commods[i]? = some (commods[i]) := List.getElem?_eq_getElem (by omega)
      have hii : change_in[i]? = some (change_in[i]) := List.getElem?_eq_getElem (by omega)
      have hoi : change_out[i]? = some (change_out[i]) := List.getElem?_eq_getElem (by omega)
      rw [hci]
      simp only
      cases hf : findStream commods[i] incommods with
      | none => exact ih _ _ (by omega) (by omega) (by omega) h1 h2
      | some j =>
        simp only
        rw [hii, hoi]
        simp only
        have hj := findStream_bound _ _ _ hf
        rw [if_pos ⟨by omega, by omega⟩]
        exact ih _ _ (by omega) (by omega) (by omega)
          (by rw [List.length_set]; exact h1) (by rw [List.length_set]; exact h2)

theorem TickSchedule_inv (s s1 : BulkReactor) (h : TickSchedule s = .ok s1) :
    updatePrefs s.time s.fuel_incommods s.pref_change_commods s.pref_change_values 0
        s.pref_change_times s.fuel_prefs = .ok s1.fuel_prefs
    ∧ updateRecipes s.time s.fuel_incommods s.recipe_change_commods s.recipe_change_in
        s.recipe_change_out 0 s.recipe_change_times (s.fuel_inrecipes, s.fuel_outrecipes)
        = .ok (s1.fuel_inrecipes, s1.fuel_outrecipes) := by
  unfold TickSchedule at h
  split at h
  · cases h
  · rename_i prefs hp
    split at h
    · cases h
    · rename_i recipes hrec
      cases h
      exact ⟨hp, hrec⟩

theorem TickSchedule_ok (s : BulkReactor)
    (h1 : s.pref_change_commods.length = s.pref_change_times.length)
    (h2 : s.pref_change_values.length = s.pref_change_times.length)
    (h3 : s.recipe_change_commods.length = s.recipe_change_times.length)
    (h4 : s.recipe_change_in.length = s.recipe_change_times.length)
    (h5 : s.recipe_change_out.length = s.recipe_change_times.length)
    (h6 : s.fuel_prefs.length = s.fuel_incommods.length)
    (h7 : s.fuel_inrecipes.length = s.fuel_incommods.length)
    (h8 : s.fuel_outrecipes.length = s.fuel_incommods.length) :
    ∃ s1, TickSchedule s = .ok s1 := by
  obtain ⟨prefs, hp⟩ := updatePrefs_ok s.time s.fuel_incommods s.pref_change_commods
    s.pref_change_values s.pref_change_times 0 s.fuel_prefs (by omega) (by omega) (by omega)
  obtain ⟨recipes, hrec⟩ := updateRecipes_ok s.time s.fuel_incommods s.recipe_change_commods
    s.recipe_change_in s.recipe_change_out s.recipe_change_times 0
    (s.fuel_inrecipes, s.fuel_outrecipes) (by omega) (by omega) (by omega)
    (by show _ ≤ s.fuel_inrecipes.length; omega) (by show _ ≤ s.fuel_outrecipes.length; omega)
  unfold TickSchedule
  rw [hp]
  simp only
  rw [hrec]
  exact ⟨_, rfl⟩

theorem TickDischarge_frame (s s1 : BulkReactor) (h : TickDischarge s = .ok s1) :
    s1 = { s with core := s1.core, spent := s1.spent, res_indexes := s1.res_indexes,
                  next_obj_id := s1.next_obj_id, db := s1.db,
                  discharged := s1.discharged } := by
  unfold TickDischarge at h
  split at h
  · split at h
    · cases h
    · rename_i r sd hq
      cases h
      have e := Discharge_Transmute_frame _ _ _ _ hq
      show { sd with discharged := r } = _
      rw [e]
  · cases h; rfl

theorem Tick_schedule_inv (s s1 : BulkReactor) (hr : s.retired = false)
    (h : Tick s = .ok s1) :
    ∃ s3, TickSchedule s3 = .ok s1
      ∧ s3 = { s with core := s3.core, fresh := s3.fresh, spent := s3.spent,
                      res_indexes := s3.res_indexes, next_obj_id := s3.next_obj_id,
                      db := s3.db, discharged := s3.discharged } := by
  rw [Tick_active s hr] at h
  cases hd : TickDischarge (if s.cycle_step = s.cycle_time then Record s "CYCLE_END" "" else s)
    with
  | error e => rw [hd] at h; cases h
  | ok s2 =>
    rw [hd] at h
    simp only [Except.bind] at h
    cases hl : TickLoad s2 with
    | error e => rw [hl] at h; cases h
    | ok s3 =>
      rw [hl] at h
      simp only at h
      refine ⟨s3, h, ?_⟩
      have e3 := TickLoad_frame _ _ hl
      have e2 := TickDischarge_frame _ _ hd
      rw [e3, e2]
      split <;> rfl

theorem list_eq_of_pointwise {α : Type} (l l1 : List α) (hl : l1.length = l.length)
    (h : ∀ (j : Nat) p, l[j]? = some p → l1[j]? = some p) : l1 = l := by
  apply List.ext_getElem?
  intro j
  cases hj : l[j]? with
  | some p => exact h j p hj
  | none =>
    have : l.length ≤ j := by
      by_contra hc
      rw [List.getElem?_eq_getElem (not_le.mp hc)] at hj
      cases hj
    exact List.getElem?_eq_none (by omega)

/-- C25: for a non-retired facility at time `t` whose `fuel_prefs` is as long
as `fuel_incommods`, every `Tick` that returns keeps the lengths of
`fuel_prefs`, `fuel_inrecipes` and `fuel_outrecipes` and leaves, for every
stream `j`, `fuel_prefs[j]` equal to the value of the last preference-change
entry with time `t` whose commodity has `j` as its first matching input stream
(`scheduledValue`), and to its former value when there is no such entry;
`fuel_inrecipes[j]` and `fuel_outrecipes[j]` follow the recipe-change entries
in the same way, both from the same entry.  When no preference-change entry
(no recipe-change entry) of time `t` names an input tag, the array (each of
the two arrays) is unchanged.  The first matching stream is the smallest index
holding the commodity.  `Tick` returns, once its discharge and reload steps
have, when the change arrays are as long as their time arrays and the recipe
arrays as long as `fuel_incommods`. -/
theorem C25_scheduled_changes (s : BulkReactor) (hr : s.retired = false)
    (hlen : s.fuel_prefs.length = s.fuel_incommods.length) :
    (∀ s1, Tick s = .ok s1 →
      s1.fuel_prefs.length = s.fuel_prefs.length
      ∧ s1.fuel_inrecipes.length = s.fuel_inrecipes.length
      ∧ s1.fuel_outrecipes.length = s.fuel_outrecipes.length
      ∧ (∀ (j : Nat) p, s.fuel_prefs[j]? = some p →
          s1.fuel_prefs[j]?
            = some ((scheduledValue s.time s.fuel_incommods s.pref_change_commods
                      s.pref_change_values j 0 s.pref_change_times).getD p))
      ∧ (∀ (j : Nat) r, s.fuel_inrecipes[j]? = some r →
          s1.fuel_inrecipes[j]?
            = some ((scheduledValue s.time s.fuel_incommods s.recipe_change_commods
                      s.recipe_change_in j 0 s.recipe_change_times).getD r))
      ∧ (∀ (j : Nat) r, s.fuel_outrecipes[j]? = some r →
          s1.fuel_outrecipes[j]?
            = some ((scheduledValue s.time s.fuel_incommods s.recipe_change_commods
                      s.recipe_change_out j 0 s.recipe_change_times).getD r))
      ∧ ((∀ (k : Nat) c, s.pref_change_times[k]? = some s.time → s.pref_change_commods[k]? = some c →
            c ∉ s.fuel_incommods) → s1.fuel_prefs = s.fuel_prefs)
      ∧ ((∀ (k : Nat) c, s.recipe_change_times[k]? = some s.time →
            s.recipe_change_commods[k]? = some c → c ∉ s.fuel_incommods) →
          s1.fuel_inrecipes = s.fuel_inrecipes ∧ s1.fuel_outrecipes = s.fuel_outrecipes))
    ∧ (∀ c j, findStream c s.fuel_incommods = some j
        ↔ (s.fuel_incommods[j]? = some c ∧ ∀ k, k < j → s.fuel_incommods[k]? ≠ some c))
    ∧ (s.pref_change_commods.length = s.pref_change_times.length →
        s.pref_change_values.length = s.pref_change_times.length →
        s.recipe_change_commods.length = s.recipe_change_times.length →
        s.recipe_change_in.length = s.recipe_change_times.length →
        s.recipe_change_out.length = s.recipe_change_times.length →
        s.fuel_inrecipes.length = s.fuel_incommods.length →
        s.fuel_outrecipes.length = s.fuel_incommods.length →
        ∀ s2 s3,
          TickDischarge (if s.cycle_step = s.cycle_time then Record s "CYCLE_END" "" else s)
            = .ok s2 →
          TickLoad s2 = .ok s3 → ∃ s1, Tick s = .ok s1) := by
  refine ⟨?_, fun c j => findStream_some_iff c s.fuel_incommods j, ?_⟩
  · intro s1 h
    obtain ⟨s3, hS, e3⟩ := Tick_schedule_inv s s1 hr h
    obtain ⟨hp, hrec⟩ := TickSchedule_inv s3 s1 hS
    have f1 : s3.time = s.time := by rw [e3]
    have f2 : s3.fuel_incommods = s.fuel_incommods := by rw [e3]
    have f3 : s3.pref_change_commods = s.pref_change_commods := by rw [e3]
    have f4 : s3.pref_change_values = s.pref_change_values := by rw [e3]
    have f5 : s3.pref_change_times = s.pref_change_times := by rw [e3]
    have f6 : s3.fuel_prefs = s.fuel_prefs := by rw [e3]
    have f7 : s3.recipe_change_commods = s.recipe_change_commods := by rw [e3]
    have f8 : s3.recipe_change_in = s.recipe_change_in := by rw [e3]
    have f9 : s3.recipe_change_out = s.recipe_change_out := by rw [e3]
    have f10 : s3.recipe_change_times = s.recipe_change_times := by rw [e3]
    have f11 : s3.fuel_inrecipes = s.fuel_inrecipes := by rw [e3]
    have f12 : s3.fuel_outrecipes = s.fuel_outrecipes := by rw [e3]
    rw [f1, f2, f3, f4, f5, f6] at hp
    rw [f1, f2, f7, f8, f9, f10, f11, f12] at hrec
    obtain ⟨a1, a2⟩ := updatePrefs_spec _ _ _ _ _ _ _ _ hp
    obtain ⟨b1, b2, b3, b4⟩ := updateRecipes_spec _ _ _ _ _ _ _ _ _ hrec
    refine ⟨a1, b1, b2, a2, b3, b4, ?_, ?_⟩
    · intro hno
      apply list_eq_of_pointwise _ _ a1
      intro j p hj
      rw [a2 j p hj, scheduledValue_none]
      · rfl
      · intro k c hk hc hf
        rw [Nat.zero_add] at hc
        exact hno k c hk hc (List.getElem?_mem (findStream_lt _ _ _ hf).1)
    · intro hno
      have hnone : ∀ (vals : List String) (j : Nat),
          scheduledValue s.time s.fuel_incommods s.recipe_change_commods vals j 0
            s.recipe_change_times = none := by
        intro vals j
        apply scheduledValue_none
        intro k c hk hc hf
        rw [Nat.zero_add] at hc
        exact hno k c hk hc (List.getElem?_mem (findStream_lt _ _ _ hf).1)
      constructor
      · apply list_eq_of_pointwise _ _ b1
        intro j r hj
        have := b3 j r hj
        rw [hnone] at this
        exact this
      · apply list_eq_of_pointwise _ _ b2
        intro j r hj
        have := b4 j r hj
        rw [hnone] at this
        exact this
  · intro h1 h2 h3 h4 h5 h7 h8 s2 s3 hd hl
    have e3 := TickLoad_frame _ _ hl
    have e2 := TickDischarge_frame _ _ hd
    have e : s3 = { s with core := s3.core, fresh := s3.fresh, spent := s3.spent,
                           res_indexes := s3.res_indexes, next_obj_id := s3.next_obj_id,
                           db := s3.db, discharged := s3.discharged } := by
      rw [e3, e2]
      split <;> rfl
    obtain ⟨s1, hS⟩ := TickSchedule_ok s3 (by rw [e]; exact h1) (by rw [e]; exact h2)
      (by rw [e]; exact h3) (by rw [e]; exact h4) (by rw [e]; exact h5)
      (by rw [e]; exact hlen) (by rw [e]; exact h7) (by rw [e]; exact h8)
    refine ⟨s1, ?_⟩
    rw [Tick_active s hr, hd]
    simp only [Except.bind]
    rw [hl]
    exact hS

theorem C25_scheduled_changes_witness :
    (Tick scheduledReactor).map
        (fun s1 => (s1.fuel_prefs, s1.fuel_inrecipes, s1.fuel_outrecipes))
      = .ok ([1, 9], ["uox2", "mox"], ["spentuox2", "spentmox"])
    ∧ (scheduledValue 5 ["uox", "mox"] ["mox", "uox", "mox"] [(7 : ℚ), 8, 9] 1 0 [5, 6, 5]
        = some 9)
    ∧ (scheduledValue 5 ["uox", "mox"] ["mox", "uox", "mox"] [(7 : ℚ), 8, 9] 0 0 [5, 6, 5]
        = none)
    ∧ ∃ s1, Tick scheduledReactor = .ok s1 :=
  ⟨by decide!, by decide!, by decide!,
    (C25_scheduled_changes scheduledReactor (by decide) (by decide)).2.2
      (by decide) (by decide) (by decide) (by decide) (by decide) (by decide) (by decide)
      scheduledReactor scheduledReactor (by decide!) (by decide!)⟩

end cycamore
